import Mathlib

/-!
# Marble tile loader: a shallow embedding of `src/lib/TileLoader.cpp`

The loader keeps two containers over the key type `TileId`:

* `m_tileHash`, a `QHash<TileId, TextureTile*>` (the active set);
* `m_tileCache`, a `QCache<TileId, TextureTile>` (the recency cache).

Every `TextureTile` object is owned by one container at a time, so a container
is embedded as a list that holds the objects themselves; the field `addr` is the
identity (the address) of an object, and every `delete` the code performs is
appended to the log `deleted`.

Machine integers are embedded as `Int`; the one narrowing conversion of the
file (`quint64` to `int` in `setVolatileCacheLimit`) is made explicit.
-/

namespace Marble

/-! ## Data model -/

/-- Modelled from the spec: the class `TileId` is declared in a header that is
not among the sources; the spec has it a value identifying a pyramid cell by
zoom level, column and row, equal when the triples are equal. The code builds it
as `TileId( tileLevel, tilx, tily )` from three `int`s. -/
structure TileId where
  zoomLevel : Int
  x : Int
  y : Int
deriving DecidableEq, Repr

/-- Modelled from the spec: the class `GeoSceneTexture` is declared in a header
that is not among the sources; the loader reads its `levelZeroColumns()`,
`levelZeroRows()` and `expire()` (the spec's per-layer `levelZeroColumns`,
`levelZeroRows`, `expireSeconds`). -/
structure GeoSceneTexture where
  levelZeroColumns : Int
  levelZeroRows : Int
  expire : Int
deriving DecidableEq, Repr

/-- Modelled from the spec: the class `TextureTile` is declared in a header that
is not among the sources; the spec's tile carries a creation time, a usage flag
and a byte size. `addr` is the identity of the object (its address), `id` the
key it was constructed with, `used` what `used()` returns, `created` what
`created()` returns, in seconds, `numBytes` what `numBytes()` returns, the size
of the decoded buffer. -/
structure TextureTile where
  addr : Nat
  id : TileId
  used : Bool
  created : Int
  numBytes : Nat
deriving DecidableEq, Repr

/-- What decoding a raw tile yields; supplied by the environment (disk,
network) to each call that decodes. -/
structure RawTile where
  used : Bool
  created : Int
  numBytes : Nat
deriving DecidableEq, Repr

/-- Modelled from the spec: the constructor `TextureTile( TileId )` is not among
the sources; the spec has a miss "construct a new empty Tile". The new object
gets the address handed out by the allocator. -/
def TextureTile.new (addr : Nat) (id : TileId) : TextureTile :=
  { addr := addr, id := id, used := false, created := 0, numBytes := 0 }

/-- Modelled from the spec: `TextureTile::loadRawTile` is not among the sources;
the spec has it decode the raw bytes "into the existing Tile object in place".
The decoded content is the input `raw`; the object keeps its identity and its
key, and the containers of the loader are left as they are. -/
def TextureTile.loadRawTile (raw : RawTile) (t : TextureTile) : TextureTile :=
  { t with used := raw.used, created := raw.created, numBytes := raw.numBytes }

/-- Modelled from the spec: `TextureTile::setUsed` is not among the sources; the
spec's usage flag is "reset every frame, set on access". -/
def TextureTile.setUsed (b : Bool) (t : TextureTile) : TextureTile :=
  { t with used := b }

/-! ## `QHash<TileId, TextureTile*>` -/

/-- A hash is embedded as an association list; the list order is the iteration
order. -/
abbrev TileHash := List (TileId × TextureTile)

/-- The call `value( key, 0 )`: the object stored under `key`, if any. -/
def hashValue : TileHash → TileId → Option TextureTile
  | [], _ => none
  | e :: h, k => if e.1 = k then some e.2 else hashValue h k

/-- The call `contains( key )`. -/
def hashContains (h : TileHash) (k : TileId) : Bool :=
  (hashValue h k).isSome

/-- The assignment `hash[key] = tile`: replaces the binding of `key` or adds
one. -/
def hashInsert (k : TileId) (t : TextureTile) : TileHash → TileHash
  | [] => [(k, t)]
  | e :: h => if e.1 = k then (k, t) :: h else e :: hashInsert k t h

/-- The call `remove( key )`. -/
def hashRemove (k : TileId) (h : TileHash) : TileHash :=
  h.filter (fun e => decide (e.1 ≠ k))

/-- The keys of a hash. -/
def hashKeys (h : TileHash) : List TileId :=
  h.map Prod.fst

/-! ## `QCache<TileId, TextureTile>`

The Qt container: every entry has a cost, the entries are kept in order of
recency, and `insert`, `setMaxCost` drop the least recently used entries while
the total cost is above the allowance. The cache owns its objects and deletes
the ones it drops. -/

/-- One cache entry: key, object, cost. -/
structure CacheNode where
  key : TileId
  t : TextureTile
  c : Int
deriving DecidableEq, Repr

/-- The cache: `nodes` from the least recently used entry (first) to the most
recently used one (last), and the maximum cost `mx`. -/
structure QCache where
  nodes : List CacheNode
  mx : Int
deriving DecidableEq, Repr

/-- Sum of the costs of a list of entries. -/
def totalCost : List CacheNode → Int
  | [] => 0
  | n :: ns => n.c + totalCost ns

/-- The addresses of the objects of a list of entries. -/
def nodeAddrs (ns : List CacheNode) : List Nat :=
  ns.map (fun n => n.t.addr)

/-- The entries `trim( m )` keeps: it walks from the least recently used entry
and unlinks entries while the total cost is above `m`. -/
def trimKeep (m : Int) : List CacheNode → List CacheNode
  | [] => []
  | n :: ns => if totalCost (n :: ns) > m then trimKeep m ns else n :: ns

/-- The entries `trim( m )` unlinks (and whose objects it deletes). -/
def trimDrop (m : Int) : List CacheNode → List CacheNode
  | [] => []
  | n :: ns => if totalCost (n :: ns) > m then n :: trimDrop m ns else []

namespace QCache

/-- The total cost of the cache (the counter `total`). -/
def total (q : QCache) : Int :=
  totalCost q.nodes

/-- The keys of the cache. -/
def keys (q : QCache) : List TileId :=
  q.nodes.map (fun n => n.key)

/-- The call `contains( key )`. -/
def contains (q : QCache) (k : TileId) : Bool :=
  q.nodes.any (fun n => decide (n.key = k))

/-- The entry stored under `key`, if any. -/
def find (q : QCache) (k : TileId) : Option CacheNode :=
  q.nodes.find? (fun n => decide (n.key = k))

/-- The call `remove( key )`: unlinks the entry of `key` and deletes its
object. Returns the cache and the addresses deleted. -/
def remove (q : QCache) (k : TileId) : QCache × List Nat :=
  ({ q with nodes := q.nodes.filter (fun n => decide (n.key ≠ k)) },
   nodeAddrs (q.nodes.filter (fun n => decide (n.key = k))))

/-- The call `take( key )`: unlinks the entry of `key` and hands its object to
the caller without deleting it. -/
def take (q : QCache) (k : TileId) : Option TextureTile × QCache :=
  match q.find k with
  | none => (none, q)
  | some n => (some n.t, { q with nodes := q.nodes.filter (fun n => decide (n.key ≠ k)) })

/-- The call `setMaxCost( m )`: stores the maximum and trims to it. Returns the
cache and the addresses deleted. -/
def setMaxCost (q : QCache) (m : Int) : QCache × List Nat :=
  ({ nodes := trimKeep m q.nodes, mx := m }, nodeAddrs (trimDrop m q.nodes))

/-- The call `clear()`: deletes every object, from the most recently used
entry to the least recently used one. -/
def clear (q : QCache) : QCache × List Nat :=
  ({ q with nodes := [] }, nodeAddrs q.nodes.reverse)

/-- The result of `insert`: the flag it returns, the cache, the addresses
deleted. -/
structure InsertResult where
  inCache : Bool
  cache : QCache
  deleted : List Nat
deriving DecidableEq, Repr

/-- The call `insert( key, object, cost )`: removes the entry of `key`; an
object whose cost is above the maximum is deleted at once and `false` is
returned; otherwise the cache is trimmed to `mx - cost` and the object becomes
the most recently used entry. -/
def insert (q : QCache) (k : TileId) (obj : TextureTile) (cost : Int) : InsertResult :=
  let r := q.remove k
  if cost > q.mx then
    { inCache := false, cache := r.1, deleted := r.2 ++ [obj.addr] }
  else
    { inCache := true,
      cache := { r.1 with nodes := trimKeep (q.mx - cost) r.1.nodes ++ [⟨k, obj, cost⟩] },
      deleted := r.2 ++ nodeAddrs (trimDrop (q.mx - cost) r.1.nodes) }

end QCache

/-! ## `TileLoader` -/

/-- The state of a loader: the active set, the recency cache, the texture
layer, the next address the allocator hands out, and the log of `delete`s. -/
structure TileLoader where
  m_tileHash : TileHash
  m_tileCache : QCache
  m_textureLayer : GeoSceneTexture
  nextAddr : Nat
  deleted : List Nat
deriving DecidableEq, Repr

/-- The value `(int) v` of a 64-bit unsigned `v`: the low 32 bits read as a
signed number. -/
def toInt32 (v : Nat) : Int :=
  if v % 2 ^ 32 < 2 ^ 31 then ((v % 2 ^ 32 : Nat) : Int) else ((v % 2 ^ 32 : Nat) : Int) - 2 ^ 32

namespace TileLoader

/-- The constructor: an empty loader whose cache allows `20000 * 1024` bytes.
The constructor leaves `m_textureLayer` null and `loadTile` dereferences it, so
a loader is used after `setTextureLayer` only; `layer` is the layer set then. -/
def create (layer : GeoSceneTexture) : TileLoader :=
  { m_tileHash := [],
    m_tileCache := { nodes := [], mx := 20000 * 1024 },
    m_textureLayer := layer,
    nextAddr := 0,
    deleted := [] }

/-- `resetTilehash()`: clears the usage flag of every active tile. -/
def resetTilehash (s : TileLoader) : TileLoader :=
  { s with m_tileHash := s.m_tileHash.map (fun e => (e.1, e.2.setUsed false)) }

/-- The body shared by the loops of `cleanupTilehash` and `flush`: insert the
tile into the cache with cost `numBytes`, remove its key from the hash, and
delete the tile if `insert` returned `false`. -/
def demote (s : TileLoader) (e : TileId × TextureTile) : TileLoader :=
  let r := s.m_tileCache.insert e.1 e.2 (e.2.numBytes : Int)
  { s with
    m_tileCache := r.cache,
    m_tileHash := hashRemove e.1 s.m_tileHash,
    deleted := s.deleted ++ r.deleted ++ (if r.inCache = false then [e.2.addr] else []) }

/-- `cleanupTilehash()`: the iterator walks a snapshot of the hash and demotes
every tile whose usage flag is clear. -/
def cleanupTilehash (s : TileLoader) : TileLoader :=
  s.m_tileHash.foldl (fun acc e => if e.2.used = false then demote acc e else acc) s

/-- `flush()`: demotes every tile of the hash, then clears the hash. -/
def flush (s : TileLoader) : TileLoader :=
  { s.m_tileHash.foldl demote s with m_tileHash := [] }

/-- The statement `d->m_tileCache.clear()`. -/
def clearCache (s : TileLoader) : TileLoader :=
  { s with m_tileCache := s.m_tileCache.clear.1, deleted := s.deleted ++ s.m_tileCache.clear.2 }

/-- `update()`: `flush()`, then the cache is cleared. -/
def update (s : TileLoader) : TileLoader :=
  clearCache (flush s)

/-- `setTextureLayer( textureLayer )`: `flush()`, the cache is cleared, the
layer is stored. -/
def setTextureLayer (s : TileLoader) (layer : GeoSceneTexture) : TileLoader :=
  { clearCache (flush s) with m_textureLayer := layer }

/-- `setVolatileCacheLimit( kiloBytes )`: the product `kiloBytes * 1024` is
computed in `quint64` and passed to `setMaxCost( int )`. -/
def setVolatileCacheLimit (s : TileLoader) (kiloBytes : Nat) : TileLoader :=
  let r := s.m_tileCache.setMaxCost (toInt32 (kiloBytes % 2 ^ 64 * 1024 % 2 ^ 64))
  { s with m_tileCache := r.1, deleted := s.deleted ++ r.2 }

/-- The last part of `loadTile`, from "load it from disk" on: a new tile is
constructed, bound to its key in the hash and decoded. -/
def loadFromDisk (s : TileLoader) (tileId : TileId) (raw : RawTile) :
    TextureTile × TileLoader :=
  let tile := (TextureTile.new s.nextAddr tileId).loadRawTile raw
  (tile, { s with m_tileHash := hashInsert tileId tile s.m_tileHash,
                  nextAddr := s.nextAddr + 1 })

/-- `loadTile( tilx, tily, tileLevel )`, with the clock reading `now` and the
decoding result `raw` the call would see. Returns the tile and the new state. -/
def loadTile (s : TileLoader) (tilx tily tileLevel : Int) (now : Int) (raw : RawTile) :
    TextureTile × TileLoader :=
  let tileId : TileId := ⟨tileLevel, tilx, tily⟩
  match hashValue s.m_tileHash tileId with
  | some tile =>
      (tile.setUsed true,
       { s with m_tileHash := hashInsert tileId (tile.setUsed true) s.m_tileHash })
  | none =>
      match s.m_tileCache.take tileId with
      | (some tile, cache) =>
          if now - tile.created < s.m_textureLayer.expire then
            (tile.setUsed true,
             { s with m_tileCache := cache,
                      m_tileHash := hashInsert tileId (tile.setUsed true) s.m_tileHash })
          else
            loadFromDisk { s with m_tileCache := cache, deleted := s.deleted ++ [tile.addr] }
              tileId raw
      | (none, cache) => loadFromDisk { s with m_tileCache := cache } tileId raw

/-- `reloadTile( idStr )` for the id the string parses to, with the decoding
result `raw` the call would see. -/
def reloadTile (s : TileLoader) (id : TileId) (raw : RawTile) : TileLoader :=
  match hashValue s.m_tileHash id with
  | some tile =>
      { s with m_tileHash := hashInsert id (tile.loadRawTile raw) s.m_tileHash }
  | none =>
      let r := s.m_tileCache.remove id
      { s with m_tileCache := r.1, deleted := s.deleted ++ r.2 }

/-- `volatileCacheLimit()`: `maxCost() / 1024` (the division of `int` truncates
towards zero), converted to `quint64`. -/
def volatileCacheLimit (s : TileLoader) : Nat :=
  ((Int.tdiv s.m_tileCache.mx 1024) % 2 ^ 64).toNat

/-! ## Runs of the loader -/

/-- The operations a client performs on a loader, with what the environment
supplies to each. -/
inductive Op where
  | loadTile (tilx tily tileLevel now : Int) (raw : RawTile)
  | resetTilehash
  | cleanupTilehash
  | flush
  | reloadTile (id : TileId) (raw : RawTile)
  | update
  | setVolatileCacheLimit (kiloBytes : Nat)
  | setTextureLayer (layer : GeoSceneTexture)
deriving DecidableEq, Repr

/-- One operation applied to a state. -/
def step (s : TileLoader) : Op → TileLoader
  | .loadTile tilx tily tileLevel now raw => (s.loadTile tilx tily tileLevel now raw).2
  | .resetTilehash => s.resetTilehash
  | .cleanupTilehash => s.cleanupTilehash
  | .flush => s.flush
  | .reloadTile id raw => s.reloadTile id raw
  | .update => s.update
  | .setVolatileCacheLimit kiloBytes => s.setVolatileCacheLimit kiloBytes
  | .setTextureLayer layer => s.setTextureLayer layer

/-- A sequence of operations applied to a state, first to last. -/
def run (s : TileLoader) (ops : List Op) : TileLoader :=
  ops.foldl step s

/-- The states a loader can be in: the one the constructor builds, and every
state an operation leads to from a reachable one. -/
inductive Reachable : TileLoader → Prop where
  | create (layer : GeoSceneTexture) : Reachable (create layer)
  | step {s : TileLoader} (op : Op) : Reachable s → Reachable (step s op)

/-- The `delete`s performed between state `s` and a later state `s1`. -/
def deletedSince (s s1 : TileLoader) : List Nat :=
  s1.deleted.drop s.deleted.length

/-! ## Well-formedness of a state -/

/-- A `QHash` maps a key to one value: the keys of the list are distinct. -/
def HashWF (h : TileHash) : Prop :=
  (hashKeys h).Nodup

/-- No key is in both containers. -/
def KeysDisjoint (s : TileLoader) : Prop :=
  ∀ k, k ∈ hashKeys s.m_tileHash → k ∉ s.m_tileCache.keys

/-- The addresses of the objects the two containers hold. -/
def liveAddrs (s : TileLoader) : List Nat :=
  s.m_tileHash.map (fun e => e.2.addr) ++ nodeAddrs s.m_tileCache.nodes

/-- Distinct objects have distinct addresses, and the allocator has handed out
every address in use. -/
def AddrWF (s : TileLoader) : Prop :=
  (liveAddrs s).Nodup ∧ ∀ a ∈ liveAddrs s, a < s.nextAddr

/-- The costs of a cache are byte counts: none is negative; and the cache is
within its allowance or empty. -/
def CacheInv (q : QCache) : Prop :=
  (∀ n ∈ q.nodes, 0 ≤ n.c) ∧ (q.total ≤ q.mx ∨ q.nodes = [])

/-! ## Two requests in one frame -/

/-- The first request of a frame: `resetTilehash()`, then `loadTile`. -/
def frameFirst (s : TileLoader) (tilx tily tileLevel now : Int) (raw : RawTile) :
    TextureTile × TileLoader :=
  (resetTilehash s).loadTile tilx tily tileLevel now raw

/-- The second request of the frame, for the same tile. -/
def frameSecond (s : TileLoader) (tilx tily tileLevel now1 : Int) (raw1 : RawTile)
    (now2 : Int) (raw2 : RawTile) : TextureTile × TileLoader :=
  (frameFirst s tilx tily tileLevel now1 raw1).2.loadTile tilx tily tileLevel now2 raw2

/-- The end of the frame: `cleanupTilehash()` after the two requests. -/
def frameEnd (s : TileLoader) (tilx tily tileLevel now1 : Int) (raw1 : RawTile)
    (now2 : Int) (raw2 : RawTile) : TileLoader :=
  cleanupTilehash (frameSecond s tilx tily tileLevel now1 raw1 now2 raw2).2

/-! ## Concrete runs -/

/-- A layer of one tile at level zero whose tiles expire after 100 seconds. -/
def layerA : GeoSceneTexture :=
  ⟨1, 1, 100⟩

/-- Five tiles of 5000000 bytes are loaded in one frame; in the next frame none
is requested, so the frame's clean-up offers 25000000 bytes to the cache. -/
def opsFiveTiles : List Op :=
  [.loadTile 0 0 3 10 ⟨true, 10, 5000000⟩,
   .loadTile 1 0 3 10 ⟨true, 10, 5000000⟩,
   .loadTile 2 0 3 10 ⟨true, 10, 5000000⟩,
   .loadTile 3 0 3 10 ⟨true, 10, 5000000⟩,
   .loadTile 4 0 3 10 ⟨true, 10, 5000000⟩,
   .resetTilehash,
   .cleanupTilehash]

/-- Two tiles of 600 bytes are loaded in one frame; in the next frame only the
first is requested, so the frame's clean-up moves the second to the cache. -/
def opsMixed : List Op :=
  [.loadTile 0 0 3 10 ⟨true, 10, 600⟩,
   .loadTile 1 0 3 10 ⟨true, 10, 600⟩,
   .resetTilehash,
   .loadTile 0 0 3 20 ⟨true, 20, 600⟩,
   .cleanupTilehash]

/-- The state at the end of `opsMixed`: tile `(3, 0, 0)` is active, tile
`(3, 1, 0)`, created at second 10, is cached. -/
def mixedState : TileLoader :=
  run (create layerA) opsMixed

/-- The cache entry of `mixedState`: the tile `(3, 1, 0)` at address 1. -/
def mixedNode : CacheNode :=
  ⟨⟨3, 1, 0⟩, ⟨1, ⟨3, 1, 0⟩, false, 10, 600⟩, 600⟩

/-- A decoding result of 700 bytes created at second 200. -/
def rawB : RawTile :=
  ⟨true, 200, 700⟩

/-- The keys of the entries of a hash snapshot whose usage flag is clear. -/
def unusedKeys (l : TileHash) : List TileId :=
  (l.filter (fun e => e.2.used = false)).map Prod.fst

/-- The addresses of the tiles of a hash snapshot whose usage flag is clear. -/
def unusedAddrs (l : TileHash) : List Nat :=
  (l.filter (fun e => e.2.used = false)).map (fun e => e.2.addr)

/-- The limit is set to 1 kilobyte, two tiles of 600 bytes are loaded, and the
next frame begins: both are active and unused. -/
def opsTight : List Op :=
  [.setVolatileCacheLimit 1,
   .loadTile 0 0 3 10 ⟨true, 10, 600⟩,
   .loadTile 1 0 3 10 ⟨true, 10, 600⟩,
   .resetTilehash]

/-- The state at the end of `opsTight`. -/
def tightState : TileLoader :=
  run (create layerA) opsTight

/-- The first tile of `tightState`: `(3, 0, 0)` at address 0, unused. -/
def tightTile : TextureTile :=
  ⟨0, ⟨3, 0, 0⟩, false, 10, 600⟩

/-- The second tile of `tightState`: `(3, 1, 0)` at address 1, unused. -/
def tightTileB : TextureTile :=
  ⟨1, ⟨3, 1, 0⟩, false, 10, 600⟩

end TileLoader

/-! ## Probing the tile pyramid on disk -/

namespace TileLoaderHelper

/-- Modelled from the spec: `TileLoaderHelper::levelToRow` is not among the
sources; the spec has the rows of a level grow as the level-zero count times
`2^level`, "strictly doubling per level". -/
def levelToRow (levelZeroRows : Int) (level : Nat) : Int :=
  levelZeroRows * 2 ^ level

/-- Modelled from the spec: `TileLoaderHelper::levelToColumn` is not among the
sources; the spec has the columns of a level grow as the level-zero count times
`2^level` (level-zero columns 2 give 16 columns at level 3). -/
def levelToColumn (levelZeroColumns : Int) (level : Nat) : Int :=
  levelZeroColumns * 2 ^ level

end TileLoaderHelper

/-- The tile files of a layer on disk: `files level column row` is what
`QFile::exists` answers for the path of that tile. -/
abbrev TileFiles := Nat → Int → Int → Bool

namespace TileLoader

/-- The column loop of `maxCompleteTileLevel`,
`for ( column = 0; noerr && column < maxColumn; ++column )`, from `column` on
with the flag `noerr`; `n` bounds the iterations left (`maxColumn - column`
suffice). Returns the flag. -/
def columnLoop (files : TileFiles) (trylevel : Nat) (row maxColumn : Int) :
    Nat → Int → Bool → Bool
  | 0, _, noerr => noerr
  | n + 1, column, noerr =>
      if noerr = true ∧ column < maxColumn then
        columnLoop files trylevel row maxColumn n (column + 1) (files trylevel column row)
      else noerr

/-- The row loop of `maxCompleteTileLevel`,
`for ( row = 0; noerr && row < maxRow; ++row )`, from `row` on with the flag
`noerr`; `n` bounds the iterations left. Returns the flag. -/
def rowLoop (files : TileFiles) (layer : GeoSceneTexture) (trylevel : Nat) (maxRow : Int) :
    Nat → Int → Bool → Bool
  | 0, _, noerr => noerr
  | n + 1, row, noerr =>
      if noerr = true ∧ row < maxRow then
        rowLoop files layer trylevel maxRow n (row + 1)
          (columnLoop files trylevel row
            (TileLoaderHelper.levelToColumn layer.levelZeroColumns trylevel)
            (TileLoaderHelper.levelToColumn layer.levelZeroColumns trylevel).toNat 0 noerr)
      else noerr

/-- One pass of the body of the `while` loop for `trylevel`: the value of
`noerr` after the two `for` loops, entered with `noerr == true`. -/
def scanLevel (files : TileFiles) (layer : GeoSceneTexture) (trylevel : Nat) : Bool :=
  rowLoop files layer trylevel (TileLoaderHelper.levelToRow layer.levelZeroRows trylevel)
    (TileLoaderHelper.levelToRow layer.levelZeroRows trylevel).toNat 0 true

/-- The `while ( noerr == true )` loop of `maxCompleteTileLevel` from
`trylevel` on, with at most `fuel` passes; `none` when the passes run out
before the loop ends. -/
def levelLoop (files : TileFiles) (layer : GeoSceneTexture) : Nat → Nat → Int → Option Int
  | 0, _, _ => none
  | fuel + 1, trylevel, tilelevel =>
      if scanLevel files layer trylevel = true then
        levelLoop files layer fuel (trylevel + 1) (trylevel : Int)
      else some tilelevel

/-- `maxCompleteTileLevel( textureLayer )` on the disk state `files`, with at
most `fuel` passes of the `while` loop. -/
def maxCompleteTileLevel (fuel : Nat) (files : TileFiles) (layer : GeoSceneTexture) :
    Option Int :=
  levelLoop files layer fuel 0 (-1)

/-- Every tile file of a level exists: the level is complete. -/
def LevelComplete (files : TileFiles) (layer : GeoSceneTexture) (level : Nat) : Prop :=
  ∀ row column : Int,
    0 ≤ row → row < TileLoaderHelper.levelToRow layer.levelZeroRows level →
    0 ≤ column → column < TileLoaderHelper.levelToColumn layer.levelZeroColumns level →
    files level column row = true

/-- A disk that holds every tile of the levels below `n` and, of level `n`
and above, only the tiles of column 0. -/
def filesBelow (n : Nat) : TileFiles :=
  fun level column _ => decide (level < n) || decide (column = 0)

/-- A disk that holds level 0 and level 2 in full, and no tile of level 1. -/
def filesGap : TileFiles :=
  fun level _ _ => decide (level ≠ 1)

/-- A layer of two columns and one row at level zero. -/
def layerB : GeoSceneTexture :=
  ⟨2, 1, 100⟩

end TileLoader

/-! ## `ViewportParams`: the camera state of `src/lib/ViewportParams.cpp`

The number type `K` stands for `qreal`; the code's arithmetic on it is read as
exact arithmetic in an ordered field. -/

/-- The enumeration `Projection` the setter switches on. -/
inductive Projection where
  | Spherical
  | Equirectangular
  | Mercator
deriving DecidableEq, Repr

/-- Modelled from the spec: the class `AbstractProjection` is declared in a
header that is not among the sources; the spec has every projection supply
`maxLatitude()` and `isPoleTraversable()`, "consumed by ViewportParams
validation" (`maxLat()` and `traversableMaxLat()` in the code). -/
structure AbstractProjection (K : Type) where
  maxLat : K
  traversableMaxLat : Bool
deriving DecidableEq, Repr

/-- Modelled from the spec: the class `Quaternion` is declared in a header that
is not among the sources; the spec's orientation has a derived latitude, a
longitude and a roll. An orientation is given by what `pitch()`, `yaw()` and
`roll()` return. -/
structure Quaternion (K : Type) where
  pitch : K
  yaw : K
  roll : K
deriving DecidableEq, Repr

/-- Modelled from the spec: `Quaternion::createFromEuler( pitch, yaw, roll )` is
not among the sources; it is taken to yield the orientation whose pitch, yaw
and roll are the three arguments. -/
def Quaternion.createFromEuler {K : Type} (pitch yaw roll : K) : Quaternion K :=
  ⟨pitch, yaw, roll⟩

/-- The two functions of the projection helper the camera calls. -/
inductive RegionFunction where
  | createActiveRegion
  | createProjectedRegion
deriving DecidableEq, Repr

/-- One call to the projection helper: the function called, and what the
camera it is handed (`this`) holds at the time of the call. -/
structure RegionCall (K : Type) where
  function : RegionFunction
  projection : Projection
  planetAxis : Quaternion K
  radius : Int
  width : Int
  height : Int
deriving DecidableEq, Repr

/-- What the camera code takes from outside the file: the constant `M_PI`,
`GeoDataPoint::normalizeLat`, and the projection object each value of
`Projection` stands for (`s_sphericalProjection`, `s_equirectProjection`,
`s_mercatorProjection`). -/
structure ViewportEnv (K : Type) where
  M_PI : K
  normalizeLat : K → K
  projections : Projection → AbstractProjection K

/-- The state of a `ViewportParams`: the fields of `ViewportParamsPrivate` the
setters write (the projection pointer goes together with `m_projection`, the
matrix is derived from the axis), and the log of the helper calls. -/
structure ViewportParams (K : Type) where
  m_projection : Projection
  m_planetAxis : Quaternion K
  m_radius : Int
  m_width : Int
  m_height : Int
  regionCalls : List (RegionCall K)
deriving DecidableEq, Repr

namespace ViewportParams

variable {K : Type} [LinearOrderedField K]

/-- `currentProjection()`: the projection object `m_projection` stands for. -/
def currentProjection (env : ViewportEnv K) (s : ViewportParams K) : AbstractProjection K :=
  env.projections s.m_projection

/-- The record of a call `function( this )` to the helper made while the
camera holds `s`. -/
def seenBy (function : RegionFunction) (s : ViewportParams K) : RegionCall K :=
  ⟨function, s.m_projection, s.m_planetAxis, s.m_radius, s.m_width, s.m_height⟩

/-- The two helper calls every setter ends with,
`createActiveRegion( this )` then `createProjectedRegion( this )`. -/
def adjustRegions (s : ViewportParams K) : ViewportParams K :=
  { s with regionCalls := s.regionCalls ++
      [seenBy RegionFunction.createActiveRegion s,
        seenBy RegionFunction.createProjectedRegion s] }

/-- `centerCoordinates( centerLon, centerLat )`: the centre derived from the
stored axis; returns `(centerLon, centerLat)`. -/
def centerCoordinates (env : ViewportEnv K) (s : ViewportParams K) : K × K :=
  let centerLat := - s.m_planetAxis.pitch
  let centerLat := if centerLat > env.M_PI then centerLat - 2 * env.M_PI else centerLat
  let centerLon := s.m_planetAxis.yaw
  let centerLon := if centerLon > env.M_PI then centerLon - 2 * env.M_PI else centerLon
  (centerLon, centerLat)

/-- `setPlanetAxis( newAxis )`: returns the flag `valid` and the new state. -/
def setPlanetAxis (env : ViewportEnv K) (s : ViewportParams K) (newAxis : Quaternion K) :
    Bool × ViewportParams K :=
  let maxLat := (currentProjection env s).maxLat
  if (currentProjection env s).traversableMaxLat = false ∧ |newAxis.pitch| > maxLat then
    let center := centerCoordinates env s
    let centerLat := env.normalizeLat center.2
    if |centerLat| > maxLat then
      let clamped := maxLat * centerLat / |centerLat|
      let axis := Quaternion.createFromEuler (-clamped) center.1 newAxis.roll
      (false, adjustRegions { s with m_planetAxis := axis })
    else
      let axis := Quaternion.createFromEuler (-centerLat) center.1 newAxis.roll
      (true, adjustRegions { s with m_planetAxis := axis })
  else
    (true, adjustRegions { s with m_planetAxis := newAxis })

/-- `setProjection( newProjection )`: the projection is stored, the regions
are adjusted, and the stored axis is set again. -/
def setProjection (env : ViewportEnv K) (s : ViewportParams K) (newProjection : Projection) :
    ViewportParams K :=
  let s1 := adjustRegions { s with m_projection := newProjection }
  (setPlanetAxis env s1 s1.m_planetAxis).2

/-- The constructor: the spherical projection, the default axis, radius 2000,
size 100 by 100, then `setPlanetAxis( Quaternion( 1.0, 0.0, 0.0, 0.0 ) )`; the
default axis and the unit quaternion are the orientation of angles 0. -/
def create (env : ViewportEnv K) : ViewportParams K :=
  (setPlanetAxis env
    { m_projection := Projection.Spherical, m_planetAxis := ⟨0, 0, 0⟩, m_radius := 2000,
      m_width := 100, m_height := 100, regionCalls := [] }
    ⟨0, 0, 0⟩).2

/-- `setRadius( newRadius )`. -/
def setRadius (s : ViewportParams K) (newRadius : Int) : ViewportParams K :=
  adjustRegions { s with m_radius := newRadius }

/-- `setWidth( newWidth )`. -/
def setWidth (s : ViewportParams K) (newWidth : Int) : ViewportParams K :=
  adjustRegions { s with m_width := newWidth }

/-- `setHeight( newHeight )`. -/
def setHeight (s : ViewportParams K) (newHeight : Int) : ViewportParams K :=
  adjustRegions { s with m_height := newHeight }

/-- `setSize( newSize )`. -/
def setSize (s : ViewportParams K) (newWidth newHeight : Int) : ViewportParams K :=
  adjustRegions { s with m_width := newWidth, m_height := newHeight }

/-- The centre latitude derived from the stored orientation: minus its
pitch. -/
def centerLatitude (s : ViewportParams K) : K :=
  - s.m_planetAxis.pitch

/-- The camera latitude invariant: under a projection whose maximum latitude
is not traversable, the centre latitude is within the maximum latitude. -/
def LatitudeInRange (env : ViewportEnv K) (s : ViewportParams K) : Prop :=
  (currentProjection env s).traversableMaxLat = false →
    |centerLatitude s| ≤ (currentProjection env s).maxLat

/-- `polarity()`, from what the forward transform reported for the north pole
(`yN`, `globeHidesN`) and for the south pole (`yS`, `globeHidesS`), and the
canvas height. -/
def polarity (globeHidesN globeHidesS : Bool) (yN yS height : Int) : Int :=
  if globeHidesN = false ∧ globeHidesS = false then
    let polarity : Int := if yN < yS then 1 else 0
    if yS < yN then -1 else polarity
  else
    let polarity : Int := if globeHidesN = false ∧ yN < Int.tdiv height 2 then 1 else 0
    let polarity : Int := if globeHidesN = false ∧ yN > Int.tdiv height 2 then -1 else polarity
    let polarity : Int := if globeHidesS = false ∧ yS > Int.tdiv height 2 then 1 else polarity
    if globeHidesS = false ∧ yS < Int.tdiv height 2 then -1 else polarity

end ViewportParams

/-- A camera environment over the rationals: `M_PI` to fifteen decimals, a
`normalizeLat` that leaves a latitude as it is (as the real one does within a
quarter turn of the equator), a traversable sphere and two flat projections,
the Mercator one with a maximum latitude of 1.4844 (85.05 degrees). -/
def envQ : ViewportEnv ℚ :=
  { M_PI := 3141592653589793 / 1000000000000000,
    normalizeLat := fun lat => lat,
    projections := fun p =>
      match p with
      | Projection.Spherical => ⟨3141592653589793 / 2000000000000000, true⟩
      | Projection.Equirectangular => ⟨3141592653589793 / 2000000000000000, false⟩
      | Projection.Mercator => ⟨14844 / 10000, false⟩ }

/-- A camera under the Mercator projection, centred on latitude 0 and
longitude 1/2. -/
def mercatorCamera : ViewportParams ℚ :=
  { m_projection := Projection.Mercator, m_planetAxis := ⟨0, 1 / 2, 0⟩, m_radius := 2000,
    m_width := 100, m_height := 100, regionCalls := [] }

/-- An orientation beyond the Mercator maximum: latitude -3/2 (pitch 3/2),
longitude 1, roll 1/4. -/
def axisBeyond : Quaternion ℚ :=
  ⟨3 / 2, 1, 1 / 4⟩

/-! ## The vertical perspective projection of
`src/lib/marble/projections/VerticalPerspectiveProjection.cpp`

As for the camera, `K` stands for `qreal` and its arithmetic is read as exact;
the functions of `<qmath.h>` are taken as given. -/

/-- The functions of `<qmath.h>` and the two constants the projection uses,
over the number type `K`. `qAtan2 y x` takes the ordinate first. -/
structure QMath (K : Type) where
  M_PI : K
  RAD2DEG : K
  qSin : K → K
  qCos : K → K
  qAsin : K → K
  qAtan2 : K → K → K
  qSqrt : K → K

/-- Modelled from the spec: the class `GeoDataCoordinates` is declared in a
header that is not among the sources; the projection reads its `longitude()`
and `latitude()`, in radians. -/
structure GeoDataCoordinates (K : Type) where
  longitude : K
  latitude : K
deriving DecidableEq, Repr

/-- What the projection reads of the viewport it is handed:
`centerLongitude()`, `centerLatitude()`, and the `int`s `radius()`, `width()`,
`height()`. -/
structure Viewport (K : Type) where
  centerLongitude : K
  centerLatitude : K
  radius : Int
  width : Int
  height : Int
deriving DecidableEq, Repr

/-- The footprint `QSizeF` of the wrapped transform. -/
structure QSizeF (K : Type) where
  width : K
  height : K
deriving DecidableEq, Repr

/-- The enumeration `GeoDataCoordinates::Unit`. -/
inductive GeoUnit where
  | Radian
  | Degree
deriving DecidableEq, Repr

/-- An `int` product that leaves the 32-bit range wraps around. -/
def wrapInt32 (n : Int) : Int :=
  (n + 2 ^ 31) % 2 ^ 32 - 2 ^ 31

/-- The conversion of a `qreal` to `qint64`: the fraction is dropped. -/
def toInt64 {K : Type} [LinearOrderedField K] [FloorRing K] (v : K) : Int :=
  if 0 ≤ v then ⌊v⌋ else ⌈v⌉

/-- What the plain forward transform leaves behind: the value it returns, the
contents of `x`, `y` and `globeHidesPoint` after the call, and the perspective
factor `k` if the call computed it. -/
structure ScreenResult (K : Type) where
  visible : Bool
  x : K
  y : K
  globeHidesPoint : Bool
  k : Option K
deriving DecidableEq, Repr

/-- What the wrapped forward transform leaves behind. -/
structure RepeatResult (K : Type) where
  visible : Bool
  x : K
  y : K
  pointRepeatNum : Int
  globeHidesPoint : Bool
deriving DecidableEq, Repr

/-- What the inverse transform leaves behind: the value it returns and the
contents of `lon` and `lat` after the call. -/
structure GeoResult (K : Type) where
  ok : Bool
  lon : K
  lat : K
deriving DecidableEq, Repr

namespace VerticalPerspectiveProjection

variable {K : Type} [LinearOrderedField K] [FloorRing K]

/-- `clippingRadius()`. -/
def clippingRadius : K :=
  1

/-- The cosine of the angular distance of the point from the centre, `cosC`. -/
def cosC (m : QMath K) (coordinates : GeoDataCoordinates K) (viewport : Viewport K) : K :=
  m.qSin viewport.centerLatitude * m.qSin coordinates.latitude +
    m.qCos viewport.centerLatitude * m.qCos coordinates.latitude *
      m.qCos (coordinates.longitude - viewport.centerLongitude)

/-- The perspective factor `k = (P - 1) / (P - cosC)` for `P = 5`. -/
def perspectiveFactor (m : QMath K) (coordinates : GeoDataCoordinates K)
    (viewport : Viewport K) : K :=
  (5 - 1) / (5 - cosC m coordinates viewport)

/-- The value of `x` after `x *= 4 * viewport->radius() / M_PI`: the horizontal
offset of the point from the canvas centre. The product `4 * radius` is an
`int`. -/
def projectedX (m : QMath K) (coordinates : GeoDataCoordinates K) (viewport : Viewport K) : K :=
  (m.qCos coordinates.latitude *
      m.qSin (coordinates.longitude - viewport.centerLongitude)) *
    perspectiveFactor m coordinates viewport *
    (((wrapInt32 (4 * viewport.radius) : Int) : K) / m.M_PI)

/-- The value of `y` after `y *= 4 * viewport->radius() / M_PI`: the vertical
offset of the point from the canvas centre, upwards. -/
def projectedY (m : QMath K) (coordinates : GeoDataCoordinates K) (viewport : Viewport K) : K :=
  (m.qCos viewport.centerLatitude * m.qSin coordinates.latitude -
      m.qSin viewport.centerLatitude * m.qCos coordinates.latitude *
        m.qCos (coordinates.longitude - viewport.centerLongitude)) *
    perspectiveFactor m coordinates viewport *
    (((wrapInt32 (4 * viewport.radius) : Int) : K) / m.M_PI)

/-- The local `const qint64 radius = clippingRadius() * viewport->radius()`. -/
def clipRadius (viewport : Viewport K) : Int :=
  toInt64 ((clippingRadius : K) * (viewport.radius : K))

/-- The plain `screenCoordinates( coordinates, viewport, x, y, globeHidesPoint )`;
`x` and `y` are the contents of the caller's variables before the call.
`assertsEnabled` tells whether `Q_ASSERT` is compiled in; a failed assertion
aborts the program and the call returns nothing. -/
def screenCoordinates (assertsEnabled : Bool) (m : QMath K)
    (coordinates : GeoDataCoordinates K) (viewport : Viewport K) (x y : K) :
    Option (ScreenResult K) :=
  let P : K := 5
  if assertsEnabled = true ∧ ¬ P = 0 then none
  else if cosC m coordinates viewport < 1 / P then
    some ⟨false, x, y, true, none⟩
  else
    let k := perspectiveFactor m coordinates viewport
    let x := projectedX m coordinates viewport
    let y := projectedY m coordinates viewport
    let radius := clipRadius viewport
    if x * x + y * y > ((radius * radius : Int) : K) then
      some ⟨false, x, y, true, some k⟩
    else
      let x := x + ((Int.tdiv viewport.width 2 : Int) : K)
      let y := ((Int.tdiv viewport.height 2 : Int) : K) - y
      if x < 0 ∨ x ≥ (viewport.width : K) ∨ y < 0 ∨ y ≥ (viewport.height : K) then
        some ⟨false, x, y, false, some k⟩
      else
        some ⟨true, x, y, false, some k⟩

/-- The test of the wrapped transform for a position off the screen area
widened by half the footprint. -/
def offScreen (viewport : Viewport K) (size : QSizeF K) (x y : K) : Prop :=
  x + size.width / 2 < 0 ∨ x ≥ (viewport.width : K) + size.width / 2 ∨
    y + size.height / 2 < 0 ∨ y ≥ (viewport.height : K) + size.height / 2

instance (viewport : Viewport K) (size : QSizeF K) (x y : K) :
    Decidable (offScreen viewport size x y) := by
  unfold offScreen
  infer_instance

/-- The wrapped `screenCoordinates( coordinates, viewport, x, y, pointRepeatNum,
size, globeHidesPoint )`; `x` and `y` are the contents of the caller's
variables before the call. -/
def screenCoordinatesRepeat (assertsEnabled : Bool) (m : QMath K)
    (coordinates : GeoDataCoordinates K) (viewport : Viewport K) (x y : K)
    (size : QSizeF K) : Option (RepeatResult K) :=
  match screenCoordinates assertsEnabled m coordinates viewport x y with
  | none => none
  | some r =>
      if offScreen viewport size r.x r.y then
        some ⟨false, r.x, r.y, 0, r.globeHidesPoint⟩
      else
        some ⟨r.visible, r.x, r.y, 1, r.globeHidesPoint⟩

/-- The local `radius` of `geoCoordinates`: the `int` product
`2 * viewport->radius()`, widened to `qint64`. -/
def radius2 (viewport : Viewport K) : Int :=
  wrapInt32 (2 * viewport.radius)

/-- The local `rad2Pixel = ( 2 * radius ) / M_PI`. -/
def rad2Pixel (m : QMath K) (viewport : Viewport K) : K :=
  ((2 * radius2 viewport : Int) : K) / m.M_PI

/-- The `int` value `- viewport->width() / 2 + x`: the horizontal offset of the
pixel from the canvas centre. -/
def pixelX (viewport : Viewport K) (x : Int) : Int :=
  Int.tdiv (-viewport.width) 2 + x

/-- The `int` value `viewport->height() / 2 - y`: the vertical offset of the
pixel from the canvas centre, upwards. -/
def pixelY (viewport : Viewport K) (y : Int) : Int :=
  Int.tdiv viewport.height 2 - y

/-- The local `rx`. -/
def rx (m : QMath K) (viewport : Viewport K) (x : Int) : K :=
  (pixelX viewport x : K) / rad2Pixel m viewport

/-- The local `ry`. -/
def ry (m : QMath K) (viewport : Viewport K) (y : Int) : K :=
  (pixelY viewport y : K) / rad2Pixel m viewport

/-- The local `p = qMax( qSqrt( rx*rx + ry*ry ), 0.0001 )`. -/
def pDist (m : QMath K) (viewport : Viewport K) (x y : Int) : K :=
  max (m.qSqrt (rx m viewport x * rx m viewport x + ry m viewport y * ry m viewport y))
    (1 / 10000)

/-- The value the domain check compares with 1: `p*p*(P+1)/(P-1)`. -/
def domainValue (m : QMath K) (viewport : Viewport K) (x y : Int) : K :=
  pDist m viewport x y * pDist m viewport x y * (5 + 1) / (5 - 1)

/-- The argument of the `qAsin` that yields `c`. -/
def sinArg (m : QMath K) (viewport : Viewport K) (x y : Int) : K :=
  (5 - m.qSqrt (1 - domainValue m viewport x y)) /
    ((5 - 1) / pDist m viewport x y + pDist m viewport x y / (5 - 1))

/-- The local `c`, the angular distance of the pixel from the centre. -/
def angularDistance (m : QMath K) (viewport : Viewport K) (x y : Int) : K :=
  m.qAsin (sinArg m viewport x y)

/-- The argument of the `qAsin` that yields `lat`. -/
def latArg (m : QMath K) (viewport : Viewport K) (x y : Int) : K :=
  m.qCos (angularDistance m viewport x y) * m.qSin viewport.centerLatitude +
    (ry m viewport y * m.qSin (angularDistance m viewport x y) *
      m.qCos viewport.centerLatitude) / pDist m viewport x y

/-- The value of `lon` before the two `while` loops. -/
def rawLongitude (m : QMath K) (viewport : Viewport K) (x y : Int) : K :=
  viewport.centerLongitude +
    m.qAtan2 (rx m viewport x * m.qSin (angularDistance m viewport x y))
      (pDist m viewport x y * m.qCos viewport.centerLatitude *
          m.qCos (angularDistance m viewport x y) -
        ry m viewport y * m.qSin viewport.centerLatitude *
          m.qSin (angularDistance m viewport x y))

/-- The loop `while ( lon < -M_PI ) lon += 2 * M_PI`, with at most `fuel`
passes; `none` when the passes run out before the loop ends. -/
def raiseLon (m : QMath K) : Nat → K → Option K
  | 0, lon => if lon < -m.M_PI then none else some lon
  | fuel + 1, lon => if lon < -m.M_PI then raiseLon m fuel (lon + 2 * m.M_PI) else some lon

/-- The loop `while ( lon > M_PI ) lon -= 2 * M_PI`, with at most `fuel`
passes; `none` when the passes run out before the loop ends. -/
def lowerLon (m : QMath K) : Nat → K → Option K
  | 0, lon => if lon > m.M_PI then none else some lon
  | fuel + 1, lon => if lon > m.M_PI then lowerLon m fuel (lon - 2 * m.M_PI) else some lon

/-- `geoCoordinates( x, y, viewport, lon, lat, unit )`; `lon` and `lat` are the
contents of the caller's variables before the call, `fuel` bounds the passes of
each `while` loop. -/
def geoCoordinates (fuel : Nat) (m : QMath K) (x y : Int) (viewport : Viewport K)
    (lon lat : K) (unit : GeoUnit) : Option (GeoResult K) :=
  if domainValue m viewport x y > 1 then some ⟨false, lon, lat⟩
  else
    match raiseLon m fuel (rawLongitude m viewport x y) with
    | none => none
    | some lon1 =>
        match lowerLon m fuel lon1 with
        | none => none
        | some lon2 =>
            let lat2 := m.qAsin (latArg m viewport x y)
            if unit = GeoUnit.Degree then
              some ⟨true, lon2 * m.RAD2DEG, lat2 * m.RAD2DEG⟩
            else
              some ⟨true, lon2, lat2⟩

/-- The square of the distance of a pixel from the canvas centre. -/
def centreDistanceSq (viewport : Viewport K) (x y : Int) : Int :=
  pixelX viewport x * pixelX viewport x + pixelY viewport y * pixelY viewport y

end VerticalPerspectiveProjection

/-- The functions of `<qmath.h>` over the real numbers, with `M_PI` read as
the number pi. -/
noncomputable def realMath : QMath ℝ :=
  { M_PI := Real.pi,
    RAD2DEG := 180 / Real.pi,
    qSin := Real.sin,
    qCos := Real.cos,
    qAsin := Real.arcsin,
    qAtan2 := fun y x => Complex.arg ⟨x, y⟩,
    qSqrt := Real.sqrt }

/-- A viewport of radius 100 on a canvas of 300 by 300, centred on longitude 0
and latitude 0. -/
def viewportR : Viewport ℝ :=
  ⟨0, 0, 100, 300, 300⟩

/-- The point on the equator half a turn away from the centre of
`viewportR`. -/
noncomputable def antipode : GeoDataCoordinates ℝ :=
  ⟨Real.pi, 0⟩

/-- The point on the equator at the angular distance from the centre of
`viewportR` whose cosine is 1/5: on the horizon of the perspective. -/
noncomputable def horizonPoint : GeoDataCoordinates ℝ :=
  ⟨Real.arccos (1 / 5), 0⟩

/-- A footprint of no extent. -/
def pointSize : QSizeF ℝ :=
  ⟨0, 0⟩

/-! ## The operations of the camera and its size test -/

namespace ViewportParams

variable {K : Type} [LinearOrderedField K]

/-- The operations of `ViewportParams` that write to the camera.
`setBoundingBox` writes the bounding box only, which is no part of the state
kept here. -/
inductive Op (K : Type) where
  | setProjection (newProjection : Projection)
  | setRadius (newRadius : Int)
  | setPlanetAxis (newAxis : Quaternion K)
  | setWidth (newWidth : Int)
  | setHeight (newHeight : Int)
  | setSize (newWidth newHeight : Int)
  | setBoundingBox

/-- One operation on the camera. -/
def apply (env : ViewportEnv K) (s : ViewportParams K) : Op K → ViewportParams K
  | Op.setProjection newProjection => setProjection env s newProjection
  | Op.setRadius newRadius => setRadius s newRadius
  | Op.setPlanetAxis newAxis => (setPlanetAxis env s newAxis).2
  | Op.setWidth newWidth => setWidth s newWidth
  | Op.setHeight newHeight => setHeight s newHeight
  | Op.setSize newWidth newHeight => setSize s newWidth newHeight
  | Op.setBoundingBox => s

/-- A sequence of operations on the camera, from left to right. -/
def run (env : ViewportEnv K) (s : ViewportParams K) (ops : List (Op K)) : ViewportParams K :=
  ops.foldl (apply env) s

/-- A log of helper calls in which the two functions always go together: it
is made of pairs, `createActiveRegion` then `createProjectedRegion`, both on
the same contents of the camera. -/
def PairedCalls : List (RegionCall K) → Prop
  | [] => True
  | [_] => False
  | a :: b :: rest =>
      a.function = RegionFunction.createActiveRegion ∧
      b = { a with function := RegionFunction.createProjectedRegion } ∧
      PairedCalls rest

end ViewportParams

/-- The body of `globeCoversViewport()` on the radius, width and height of the
camera; every `int` result goes through `narrow`: `wrapInt32` is the 32-bit
`int`, the identity reads the arithmetic over exact integers. -/
def globeCoversViewportWith (narrow : Int → Int) (radius width height : Int) : Bool :=
  if radius > narrow (width + height) then true
  else if narrow (narrow (4 * radius) * radius) ≥
      narrow (narrow (width * width) + narrow (height * height)) then true
  else false

/-- `globeCoversViewport()` with the 32-bit `int` of the code. -/
def ViewportParams.globeCoversViewport {K : Type} (s : ViewportParams K) : Bool :=
  globeCoversViewportWith wrapInt32 s.m_radius s.m_width s.m_height

/-- A camera on a canvas of 20000 by 10000 with radius 25000. -/
def wideCamera : ViewportParams ℚ :=
  { m_projection := Projection.Spherical, m_planetAxis := ⟨0, 0, 0⟩, m_radius := 25000,
    m_width := 20000, m_height := 10000, regionCalls := [] }

/-! ## The probe of the base tiles -/

namespace TileLoader

/-- The inner loop of `baseTilesAvailable`,
`for ( row = 0; noerr && row < levelZeroRows; ++row )`, from `row` on with the
flag `noerr`; `n` bounds the iterations left. Returns the flag. -/
def baseRowLoop (files : TileFiles) (column levelZeroRows : Int) : Nat → Int → Bool → Bool
  | 0, _, noerr => noerr
  | n + 1, row, noerr =>
      if noerr = true ∧ row < levelZeroRows then
        baseRowLoop files column levelZeroRows n (row + 1) (files 0 column row)
      else noerr

/-- The outer loop of `baseTilesAvailable`,
`for ( column = 0; noerr && column < levelZeroColumns; ++column )`, from
`column` on with the flag `noerr`; `n` bounds the iterations left. -/
def baseColumnLoop (files : TileFiles) (layer : GeoSceneTexture) : Nat → Int → Bool → Bool
  | 0, _, noerr => noerr
  | n + 1, column, noerr =>
      if noerr = true ∧ column < layer.levelZeroColumns then
        baseColumnLoop files layer n (column + 1)
          (baseRowLoop files column layer.levelZeroRows layer.levelZeroRows.toNat 0 noerr)
      else noerr

/-- `baseTilesAvailable( textureLayer )` on the disk state `files`. -/
def baseTilesAvailable (files : TileFiles) (layer : GeoSceneTexture) : Bool :=
  baseColumnLoop files layer layer.levelZeroColumns.toNat 0 true

/-- The disk holds finitely many tile files. -/
def FiniteDisk (files : TileFiles) : Prop :=
  Set.Finite {t : Nat × Int × Int | files t.1 t.2.1 t.2.2 = true}

/-- A disk without any tile file. -/
def noFiles : TileFiles :=
  fun _ _ _ => false

/-- A layer of no column and one row at level zero. -/
def layerNoColumns : GeoSceneTexture :=
  ⟨0, 1, 100⟩

end TileLoader

/-! ## The arguments of the inverse transform as functions of `rx`, `ry` -/

namespace VerticalPerspectiveProjection

variable {K : Type} [LinearOrderedField K]

/-- The local `p = qMax( qSqrt( rx*rx + ry*ry ), 0.0001 )` of `geoCoordinates`,
from the locals `rx` and `ry`. -/
def clampedDistance (m : QMath K) (rx ry : K) : K :=
  max (m.qSqrt (rx * rx + ry * ry)) (1 / 10000)

/-- The argument of the `qAsin` that yields `c`, from the local `p`. -/
def asinArgC (m : QMath K) (p : K) : K :=
  (5 - m.qSqrt (1 - p * p * (5 + 1) / (5 - 1))) / ((5 - 1) / p + p / (5 - 1))

/-- The argument of the `qAsin` that yields `lat`, from the centre latitude
and the locals `ry`, `p` and `c`. -/
def asinArgLat (m : QMath K) (centerLat ry p c : K) : K :=
  m.qCos c * m.qSin centerLat + (ry * m.qSin c * m.qCos centerLat) / p

end VerticalPerspectiveProjection

/-- A viewport of radius 0 on a canvas of 300 by 300. -/
def viewportZero : Viewport ℝ :=
  ⟨0, 0, 0, 300, 300⟩

/-- The point at the centre of `viewportR`. -/
def centrePoint : GeoDataCoordinates ℝ :=
  ⟨0, 0⟩

/-- A footprint of 10 by 10. -/
def footprint : QSizeF ℝ :=
  ⟨10, 10⟩

/-- A disk that holds the two tiles of level 0 of `layerB` and nothing else. -/
def TileLoader.baseDisk : TileFiles :=
  fun level column row =>
    decide (level = 0) && decide (0 ≤ column) && decide (column < 2) && decide (row = 0)

/-! ## An oversized tile at the end of a frame -/

namespace TileLoader

/-- The limit is set to 1 kilobyte, a tile of 2000 bytes is loaded, and the
next frame, in which it is not requested, ends with the clean-up. -/
def opsOversized : List Op :=
  [.setVolatileCacheLimit 1,
   .loadTile 0 0 3 10 ⟨true, 10, 2000⟩,
   .resetTilehash,
   .cleanupTilehash]

/-- The same tile of 2000 bytes under the limit of 1 kilobyte, then
`flush()`. -/
def opsOversizedFlush : List Op :=
  [.setVolatileCacheLimit 1,
   .loadTile 0 0 3 10 ⟨true, 10, 2000⟩,
   .flush]

end TileLoader

/-! ## `OsmWay`: the ways of the OSM runner, `src/plugins/runner/osm/OsmWay.cpp`

The classes the file works with (`OsmPlacemarkData`, `GeoDataCoordinates`,
`StyleBuilder`, `QString`) are declared outside the sources; their types are
type parameters (`D` for `OsmPlacemarkData`, `C` for the coordinates) and
their functions are the fields of an environment. `double` is read as exact
rational arithmetic. -/

/-- `StyleBuilder::OsmTag`: a key and a value. -/
abbrev OsmTag := String × String

/-- What `OsmWay.cpp` calls of the classes declared outside the sources. -/
structure OsmEnv (D C : Type) where
  containsTag : D → String → String → Bool
  containsTagKey : D → String → Bool
  tags : D → List OsmTag
  findTag : D → String → Option String
  tagValue : D → String → String
  id : D → Int
  addNodeReference : D → C → D → D
  nodeReferences : D → List (C × D)
  buildingTags : List OsmTag
  determineVisualCategory : D → Nat
  optimized : List C → List C
  setAltitude : C → ℚ → C
  toDouble : String → Option ℚ
  toInt : String → Int
  remove : String → String → String

/-- An `OsmNode`, as far as `create` reads it. -/
structure OsmNode (D C : Type) where
  coordinates : C
  osmData : D

/-- `OsmNodes`, the map from node ids to nodes, as `constFind` reads it. -/
abbrev OsmNodes (D C : Type) := Int → Option (OsmNode D C)

/-- The altitude modes a geometry can have. -/
inductive AltitudeMode where
  | ClampToGround
  | RelativeToGround
deriving DecidableEq, Repr

/-- The geometries `create` builds: a linear ring, a line string, or the point
of a named entry. -/
inductive GeoDataGeometry (C : Type) where
  | linearRing (points : List C) (altitudeMode : AltitudeMode)
  | lineString (points : List C) (altitudeMode : AltitudeMode)
  | point (coordinates : C)

/-- A `GeoDataPlacemark`, with the properties `create` sets. -/
structure GeoDataPlacemark (D C : Type) where
  geometry : GeoDataGeometry C
  visualCategory : Nat
  name : String
  osmData : D
  visible : Bool

/-- An `OsmWay`: its data and its node references. -/
structure OsmWay (D : Type) where
  m_osmData : D
  m_references : List Int

/-- What `create` can write to: the document, the set `usedNodes`, the static
set `s_areaTags`, and the ids handed to `OsmObjectManager::registerId`. -/
structure OsmWorld (D C : Type) where
  document : List (GeoDataPlacemark D C)
  usedNodes : List Int
  s_areaTags : List OsmTag
  registeredIds : List Int

/-- The statement `usedNodes << nodeId` on a `QSet`: an id the set holds
already leaves it as it is. -/
def usedInsert (nodeId : Int) (usedNodes : List Int) : List Int :=
  if nodeId ∈ usedNodes then usedNodes else usedNodes ++ [nodeId]

/-- `qBound( min, val, max )`. -/
def qBound {α : Type} [LinearOrder α] (min val max : α) : α :=
  Max.max min (Min.min max val)

/-- The value `GeoDataPlacemark::None` of the visual category. -/
def visualCategoryNone : Nat :=
  0

namespace OsmWay

variable {D C : Type}

/-- The tags `isAreaTag` inserts into `s_areaTags` when it finds the set
empty, in the order of the insertions. -/
def areaTagList (buildingTags : List OsmTag) : List OsmTag :=
  [("natural", "water"), ("natural", "wood"), ("natural", "beach"), ("natural", "wetland"),
   ("natural", "glacier"), ("natural", "scrub"), ("natural", "cliff"), ("area", "yes"),
   ("waterway", "riverbank")] ++
  buildingTags ++
  [("man_made", "bridge"),
   ("amenity", "graveyard"), ("amenity", "parking"), ("amenity", "parking_space"),
   ("amenity", "bicycle_parking"), ("amenity", "college"), ("amenity", "hospital"),
   ("amenity", "kindergarten"), ("amenity", "school"), ("amenity", "university"),
   ("leisure", "common"), ("leisure", "garden"), ("leisure", "golf_course"),
   ("leisure", "marina"), ("leisure", "playground"), ("leisure", "pitch"),
   ("leisure", "park"), ("leisure", "sports_centre"), ("leisure", "stadium"),
   ("leisure", "swimming_pool"), ("leisure", "track"),
   ("military", "danger_area"),
   ("marble_land", "landmass"), ("settlement", "yes")]

/-- `isAreaTag( keyValue )` on the static set `s_areaTags`: returns the answer
and the set after the call. -/
def isAreaTag (env : OsmEnv D C) (s_areaTags : List OsmTag) (keyValue : OsmTag) :
    Bool × List OsmTag :=
  let filled := if s_areaTags.isEmpty then areaTagList env.buildingTags else s_areaTags
  (decide (keyValue ∈ filled), filled)

/-- The loop of `isArea` over the tags, from `tagsBegin()` to `tagsEnd()`:
`true` when it returns from inside the loop, and the static set after it. -/
def areaTagLoop (env : OsmEnv D C) : List OsmTag → List OsmTag → Bool × List OsmTag
  | [], s_areaTags => (false, s_areaTags)
  | tag :: rest, s_areaTags =>
      if (isAreaTag env s_areaTags tag).1 = true then (true, (isAreaTag env s_areaTags tag).2)
      else areaTagLoop env rest (isAreaTag env s_areaTags tag).2

/-- `isArea()` on the static set `s_areaTags`: returns the answer and the set
after the call. -/
def isArea (env : OsmEnv D C) (way : OsmWay D) (s_areaTags : List OsmTag) :
    Bool × List OsmTag :=
  let isLinearFeature :=
    env.containsTag way.m_osmData "area" "no" ||
    env.containsTagKey way.m_osmData "highway" ||
    env.containsTagKey way.m_osmData "barrier"
  if isLinearFeature = true then (false, s_areaTags)
  else
    let isAreaFeature := env.containsTagKey way.m_osmData "landuse"
    if isAreaFeature = true then (true, s_areaTags)
    else
      let loop := areaTagLoop env (env.tags way.m_osmData) s_areaTags
      if loop.1 = true then (true, loop.2)
      else
        let isImplicitlyClosed :=
          decide (way.m_references.length > 1) &&
          decide (way.m_references.head? = way.m_references.getLast?)
        (isImplicitlyClosed, loop.2)

/-- `extractBuildingHeight( osmData )`. -/
def extractBuildingHeight (env : OsmEnv D C) (osmData : D) : ℚ :=
  let height : ℚ :=
    match env.findTag osmData "height" with
    | some value =>
        let heightValue := env.remove (env.remove value " meters") " m"
        match env.toDouble heightValue with
        | some extractedHeight => extractedHeight
        | none => 8
    | none =>
        match env.findTag osmData "building:levels" with
        | some value =>
            let levels := env.toInt value
            let skipLevels := env.toInt (env.tagValue osmData "building:min_level")
            3 * ((qBound 1 (wrapInt32 (wrapInt32 (1 + levels) - skipLevels)) 35 : Int) : ℚ)
        | none => 8
  qBound 1 height 1000

/-- `extractNamedEntries( osmData )`: of every node reference with a tag
`addr:housenumber`, the coordinates, the label and the data. -/
def extractNamedEntries (env : OsmEnv D C) (osmData : D) : List (C × String × D) :=
  (env.nodeReferences osmData).filterMap fun e =>
    match env.findTag e.2 "addr:housenumber" with
    | some label => some (e.1, label, e.2)
    | none => none

/-- What the `foreach` loop of `create` over the references leaves behind:
whether it ran to its end (`false` when the function returned from inside the
loop), the local `osmData`, the points of the local geometry, and
`usedNodes`. -/
structure Collected (D C : Type) where
  completed : Bool
  osmData : D
  points : List C
  usedNodes : List Int

/-- The loop `foreach( qint64 nodeId, m_references )` of `create`, the same in
both branches. -/
def collect (env : OsmEnv D C) (nodes : OsmNodes D C) :
    List Int → D → List C → List Int → Collected D C
  | [], osmData, points, usedNodes => ⟨true, osmData, points, usedNodes⟩
  | nodeId :: rest, osmData, points, usedNodes =>
      match nodes nodeId with
      | none => ⟨false, osmData, points, usedNodes⟩
      | some node =>
          collect env nodes rest (env.addNodeReference osmData node.coordinates node.osmData)
            (points ++ [node.coordinates]) (usedInsert nodeId usedNodes)

/-- The statement `if ( !isEmpty() && height != 0 ) first().setAltitude( height )`
on the points of the local geometry. -/
def raiseFirst (env : OsmEnv D C) (height : ℚ) : List C → List C
  | [] => []
  | first :: rest => if height ≠ 0 then env.setAltitude first height :: rest else first :: rest

/-- The name of the placemark: the tag `name`, else `ref`, else
`addr:housename`, else `addr:housenumber`. -/
def placemarkName (env : OsmEnv D C) (osmData : D) : String :=
  let name := env.tagValue osmData "name"
  let name := if name.isEmpty then env.tagValue osmData "ref" else name
  let name := if name.isEmpty then env.tagValue osmData "addr:housename" else name
  if name.isEmpty then env.tagValue osmData "addr:housenumber" else name

/-- The statement `geometry->setAltitudeMode( mode )`. -/
def setAltitudeMode (geometry : GeoDataGeometry C) (mode : AltitudeMode) : GeoDataGeometry C :=
  match geometry with
  | GeoDataGeometry.linearRing points _ => GeoDataGeometry.linearRing points mode
  | GeoDataGeometry.lineString points _ => GeoDataGeometry.lineString points mode
  | GeoDataGeometry.point coordinates => GeoDataGeometry.point coordinates

/-- The part of `create` after the two branches, from `Q_ASSERT(geometry !=
nullptr)` on (the geometry was just allocated, the assertion holds): the id is
registered, the placemark of the way is appended to the document, and after it
one placemark for every named entry. -/
def finish (env : OsmEnv D C) (way : OsmWay D) (w : OsmWorld D C) (height : ℚ)
    (geometry : GeoDataGeometry C) (osmData : D) : OsmWorld D C :=
  let geometry :=
    if height ≠ 0 then setAltitudeMode geometry AltitudeMode.RelativeToGround else geometry
  let visualCategory := env.determineVisualCategory way.m_osmData
  let visible := decide (visualCategory ≠ visualCategoryNone)
  let placemark : GeoDataPlacemark D C :=
    ⟨geometry, visualCategory, placemarkName env way.m_osmData, osmData, visible⟩
  let entries := (extractNamedEntries env osmData).map fun namedEntry =>
    (⟨GeoDataGeometry.point namedEntry.1, visualCategory, namedEntry.2.1, namedEntry.2.2,
      visible⟩ : GeoDataPlacemark D C)
  { w with
    document := w.document ++ [placemark] ++ entries,
    registeredIds := w.registeredIds ++ [env.id way.m_osmData] }

/-- `create( document, nodes, usedNodes )`. -/
def create (env : OsmEnv D C) (way : OsmWay D) (nodes : OsmNodes D C) (w : OsmWorld D C) :
    OsmWorld D C :=
  let height := extractBuildingHeight env way.m_osmData
  let area := isArea env way w.s_areaTags
  let w := { w with s_areaTags := area.2 }
  if area.1 = true then
    let loop := collect env nodes way.m_references way.m_osmData [] w.usedNodes
    let w := { w with usedNodes := loop.usedNodes }
    if loop.completed = false then w
    else
      let linearRing := raiseFirst env height (env.optimized loop.points)
      finish env way w height
        (GeoDataGeometry.linearRing linearRing AltitudeMode.ClampToGround) loop.osmData
  else
    let loop := collect env nodes way.m_references way.m_osmData [] w.usedNodes
    let w := { w with usedNodes := loop.usedNodes }
    if loop.completed = false then w
    else
      let lineString := raiseFirst env height (env.optimized loop.points)
      finish env way w height
        (GeoDataGeometry.lineString lineString AltitudeMode.ClampToGround) loop.osmData

/-- The references of a way that come before its first reference absent from
the nodes map. -/
def foundPrefix (nodes : OsmNodes D C) (references : List Int) : List Int :=
  references.takeWhile fun nodeId => (nodes nodeId).isSome

end OsmWay

/-! ## A concrete environment for ways -/

/-- Data of a way or node for concrete runs: an id, the tags (the entry of a
key is its first pair), and of each node reference the coordinates and the
tags of the node. -/
structure PlainData where
  id : Int
  tags : List OsmTag
  references : List ((Int × Int × ℚ) × List OsmTag)

/-- The tag of a key in plain data. -/
def PlainData.findTag (d : PlainData) (key : String) : Option String :=
  (d.tags.find? fun t => t.1 == key).map Prod.snd

/-- An environment over plain data; coordinates are a longitude, a latitude
and an altitude. The only building tag is `building=yes`, every way is of
visual category 1, `optimized` keeps every point, and no string parses as a
number. -/
def plainEnv : OsmEnv PlainData (Int × Int × ℚ) :=
  { containsTag := fun d key value => d.findTag key == some value,
    containsTagKey := fun d key => (d.findTag key).isSome,
    tags := fun d => d.tags,
    findTag := fun d key => d.findTag key,
    tagValue := fun d key => (d.findTag key).getD "",
    id := fun d => d.id,
    addNodeReference := fun d c n =>
      { d with references := (d.references.filter fun e => e.1 ≠ c) ++ [(c, n.tags)] },
    nodeReferences := fun d => d.references.map fun e => (e.1, ⟨0, e.2, []⟩),
    buildingTags := [("building", "yes")],
    determineVisualCategory := fun _ => 1,
    optimized := fun points => points,
    setAltitude := fun c altitude => (c.1, c.2.1, altitude),
    toDouble := fun _ => none,
    toInt := fun _ => 0,
    remove := fun text _ => text }

/-- A nodes map that holds the nodes 1 and 3 and not the node 2. -/
def nodesGap : OsmNodes PlainData (Int × Int × ℚ) :=
  fun nodeId =>
    if nodeId = 1 then some ⟨(10, 20, 0), ⟨1, [], []⟩⟩
    else if nodeId = 3 then some ⟨(30, 40, 0), ⟨3, [], []⟩⟩
    else none

/-- A way of the references 1, 2, 3 without tags. -/
def wayGap : OsmWay PlainData :=
  ⟨⟨7, [], []⟩, [1, 2, 3]⟩

/-- A way whose first reference, 2, is absent from `nodesGap`. -/
def wayAbsentFirst : OsmWay PlainData :=
  ⟨⟨8, [], []⟩, [2, 1]⟩

/-- A closed way tagged both `highway=residential` and `landuse=grass`. -/
def wayRoad : OsmWay PlainData :=
  ⟨⟨9, [("highway", "residential"), ("landuse", "grass")], []⟩, [1, 3, 1]⟩

/-- An open way tagged `natural=water`. -/
def wayWater : OsmWay PlainData :=
  ⟨⟨10, [("natural", "water")], []⟩, [1, 3]⟩

/-- An empty document, no used node, and the static set not yet filled. -/
def emptyWorld : OsmWorld PlainData (Int × Int × ℚ) :=
  ⟨[], [], [], []⟩

/-! ## What the clean-up offers to the cache -/

namespace TileLoader

/-- The cache entries the clean-up makes of the tiles of a hash snapshot that
are unused and whose `numBytes` is within the maximum cost `mx`, in the order
of the snapshot. -/
def acceptedNodes (mx : Int) (l : TileHash) : List CacheNode :=
  (l.filter fun e => decide (e.2.used = false) && decide ((e.2.numBytes : Int) ≤ mx)).map
    fun e => ⟨e.1, e.2, (e.2.numBytes : Int)⟩

/-- The deletions of the tiles of a hash snapshot that are unused and whose
`numBytes` is above the maximum cost `mx`: each address twice, once for the
`delete` inside `insert` and once for the `delete` of the loop. -/
def rejectedAddrs (mx : Int) (l : TileHash) : List Nat :=
  ((l.filter fun e => decide (e.2.used = false) && decide ((e.2.numBytes : Int) > mx)).map
    fun e => [e.2.addr, e.2.addr]).flatten

end TileLoader

/-! ## `double` arithmetic for the clamp of the latitude

The statement `centerLat = maxLat * centerLat / fabs( centerLat )` of
`setPlanetAxis` is computed in `double`: the product is rounded, and then the
quotient is. The numbers here are the finite non-zero doubles of the normal
range, and every result is rounded to the nearest double, ties to the even
significand (the default rounding of IEEE 754); overflow and underflow of the
exponent are left out, the latitudes at hand are of the size of 1. -/

/-- A finite, non-zero `double` of the normal range: its value is
`significand * 2 ^ exponent`, negated when `negative`, with
`2^52 <= significand < 2^53`. -/
structure Double where
  negative : Bool
  significand : Nat
  exponent : Int
deriving DecidableEq, Repr

namespace Double

/-- The value of a double as a rational number. -/
def toRat (a : Double) : ℚ :=
  (if a.negative then -1 else 1) * (a.significand : ℚ) * (2 : ℚ) ^ a.exponent

/-- The quotient `num / den` of two natural numbers rounded to the nearest
natural number, a tie to the even one. -/
def roundRatio (num den : Nat) : Nat :=
  if 2 * (num % den) > den ∨ (2 * (num % den) = den ∧ num / den % 2 = 1) then num / den + 1
  else num / den

/-- A rounded significand that reached `2^53` is `2^52` at the next
exponent. -/
def normalize (negative : Bool) (significand : Nat) (exponent : Int) : Double :=
  if significand = 2 ^ 53 then ⟨negative, 2 ^ 52, exponent + 1⟩
  else ⟨negative, significand, exponent⟩

/-- The product `a * b` in `double`: the exact product of the significands
has 105 or 106 bits and is rounded to 53. -/
def mul (a b : Double) : Double :=
  let product := a.significand * b.significand
  let shift : Nat := if product < 2 ^ 105 then 52 else 53
  normalize (a.negative != b.negative) (roundRatio product (2 ^ shift))
    (a.exponent + b.exponent + shift)

/-- The quotient `a / b` in `double`: the quotient of the significands lies
between 1/2 and 2 and is rounded to 53 bits. -/
def div (a b : Double) : Double :=
  let shift : Nat := if a.significand ≥ b.significand then 52 else 53
  normalize (a.negative != b.negative) (roundRatio (a.significand * 2 ^ shift) b.significand)
    (a.exponent - b.exponent - shift)

/-- `fabs( a )`. -/
def fabs (a : Double) : Double :=
  { a with negative := false }

/-- The significand with the sign of the double. -/
def signed (a : Double) : Int :=
  if a.negative then -(a.significand : Int) else (a.significand : Int)

/-- The comparison `a > b`, on the two values brought to the smaller of the
two exponents. -/
def gt (a b : Double) : Prop :=
  a.signed * 2 ^ (a.exponent - min a.exponent b.exponent).toNat >
    b.signed * 2 ^ (b.exponent - min a.exponent b.exponent).toNat

instance (a b : Double) : Decidable (gt a b) := by
  unfold gt
  infer_instance

/-- The double nearest to `num / den`, for a quotient from 1 up to 2. -/
def nearUnit (num den : Nat) : Double :=
  normalize false (roundRatio (num * 2 ^ 52) den) (-52)

end Double

/-- The statement `centerLat = maxLat * centerLat / fabs( centerLat )` of
`setPlanetAxis` in `double` arithmetic. -/
def clampLatitude (maxLat centerLat : Double) : Double :=
  Double.div (Double.mul maxLat centerLat) (Double.fabs centerLat)

/-- The double `1.4844`: the maximum latitude of the Mercator projection of
`envQ`. -/
def maxLatMercator : Double :=
  Double.nearUnit 14844 10000

/-- The double `1.53`: a centre latitude above `maxLatMercator`. -/
def latitudeBeyond : Double :=
  Double.nearUnit 153 100

/-! ## The inverse transform with the special values of `double`

`geoCoordinates` divides by `rad2Pixel`, which is zero on a viewport of radius
0, and hands computed arguments to `qSqrt` and `qAsin`. Here a `qreal` is a
number of `K` or one of the special values of IEEE 754; the arithmetic on
numbers is exact, a division by zero gives an infinity or NaN, and `qSqrt` and
`qAsin` give NaN outside their domains. The sign of a zero is left out: a zero
is `+0`, as the zero `rad2Pixel` of radius 0 is. -/

/-- A `qreal`: a number, plus or minus infinity, or NaN. -/
inductive Fp (K : Type) where
  | finite (x : K)
  | posInf
  | negInf
  | nan

namespace Fp

variable {K : Type} [LinearOrderedField K]

/-- An infinity of the sign of the number `a`, NaN for zero: the product of
`a` and plus infinity. -/
def infinityOfSign (a : K) : Fp K :=
  if a = 0 then nan else if 0 < a then posInf else negInf

/-- The product `a * b`. -/
def mul : Fp K → Fp K → Fp K
  | finite a, finite b => finite (a * b)
  | finite a, posInf => infinityOfSign a
  | finite a, negInf => infinityOfSign (-a)
  | posInf, finite b => infinityOfSign b
  | negInf, finite b => infinityOfSign (-b)
  | posInf, posInf => posInf
  | negInf, negInf => posInf
  | posInf, negInf => negInf
  | negInf, posInf => negInf
  | nan, _ => nan
  | _, nan => nan

/-- The quotient `a / b`; a number divided by zero is an infinity of its sign,
and zero divided by zero is NaN. -/
def div : Fp K → Fp K → Fp K
  | finite a, finite b => if b = 0 then infinityOfSign a else finite (a / b)
  | finite _, posInf => finite 0
  | finite _, negInf => finite 0
  | posInf, finite b => if 0 ≤ b then posInf else negInf
  | negInf, finite b => if 0 ≤ b then negInf else posInf
  | posInf, posInf => nan
  | posInf, negInf => nan
  | negInf, posInf => nan
  | negInf, negInf => nan
  | nan, _ => nan
  | _, nan => nan

/-- `qSqrt`: NaN for a negative number. -/
def sqrt (m : QMath K) : Fp K → Fp K
  | finite a => if a < 0 then nan else finite (m.qSqrt a)
  | posInf => posInf
  | negInf => nan
  | nan => nan

/-- `qSin`: NaN for an infinity. -/
def sin (m : QMath K) : Fp K → Fp K
  | finite a => finite (m.qSin a)
  | _ => nan

/-- `qCos`: NaN for an infinity. -/
def cos (m : QMath K) : Fp K → Fp K
  | finite a => finite (m.qCos a)
  | _ => nan

end Fp

namespace VerticalPerspectiveProjection

variable {K : Type} [LinearOrderedField K]

end VerticalPerspectiveProjection

end Marble

namespace Marble

/-! ## Facts about costs and trimming -/

theorem totalCost_append (a b : List CacheNode) :
    totalCost (a ++ b) = totalCost a + totalCost b := by
  induction a with
  | nil => simp [totalCost]
  | cons n ns ih => simp [totalCost, ih, add_assoc]

theorem totalCost_nonneg {a : List CacheNode} (ha : ∀ n ∈ a, 0 ≤ n.c) : 0 ≤ totalCost a := by
  induction a with
  | nil => simp [totalCost]
  | cons n ns ih =>
    have h1 : 0 ≤ n.c := ha n (List.mem_cons_self _ _)
    have h2 : 0 ≤ totalCost ns := ih (fun x hx => ha x (List.mem_cons_of_mem _ hx))
    simp only [totalCost]
    omega

theorem totalCost_sublist {a b : List CacheNode} (h : a.Sublist b)
    (hb : ∀ n ∈ b, 0 ≤ n.c) : totalCost a ≤ totalCost b := by
  induction h with
  | slnil => exact le_refl _
  | cons n _ ih =>
    have h1 : 0 ≤ n.c := hb n (List.mem_cons_self _ _)
    have h2 := ih (fun x hx => hb x (List.mem_cons_of_mem _ hx))
    simp only [totalCost]
    omega
  | cons₂ n _ ih =>
    have h2 := ih (fun x hx => hb x (List.mem_cons_of_mem _ hx))
    simp only [totalCost]
    omega

theorem trimDrop_append_trimKeep (m : Int) (ns : List CacheNode) :
    trimDrop m ns ++ trimKeep m ns = ns := by
  induction ns with
  | nil => simp [trimDrop, trimKeep]
  | cons n ns ih =>
    by_cases h : totalCost (n :: ns) > m
    · simp [trimDrop, trimKeep, h, ih]
    · simp [trimDrop, trimKeep, h]

theorem trimKeep_suffix (m : Int) (ns : List CacheNode) : trimKeep m ns <:+ ns :=
  ⟨trimDrop m ns, trimDrop_append_trimKeep m ns⟩

theorem trimKeep_sublist (m : Int) (ns : List CacheNode) : (trimKeep m ns).Sublist ns :=
  (trimKeep_suffix m ns).sublist

theorem trimKeep_bound (m : Int) (ns : List CacheNode) :
    totalCost (trimKeep m ns) ≤ m ∨ trimKeep m ns = [] := by
  induction ns with
  | nil => right; simp [trimKeep]
  | cons n ns ih =>
    by_cases h : totalCost (n :: ns) > m
    · simpa [trimKeep, h] using ih
    · left
      simp only [trimKeep, h, if_false]
      omega

theorem trimKeep_of_le {m : Int} {ns : List CacheNode} (h : totalCost ns ≤ m) :
    trimKeep m ns = ns := by
  cases ns with
  | nil => simp [trimKeep]
  | cons n ns =>
    have h1 : ¬ totalCost (n :: ns) > m := by omega
    simp [trimKeep, h1]

theorem trimDrop_of_le {m : Int} {ns : List CacheNode} (h : totalCost ns ≤ m) :
    trimDrop m ns = [] := by
  cases ns with
  | nil => simp [trimDrop]
  | cons n ns =>
    have h1 : ¬ totalCost (n :: ns) > m := by omega
    simp [trimDrop, h1]

end Marble

namespace Marble

/-! ## The paths of `loadTile` -/

open TileLoader

theorem take_nodes (q : QCache) (k : TileId) :
    (q.take k).2.nodes = q.nodes.filter (fun n => decide (n.key ≠ k)) := by
  unfold QCache.take
  cases hf : q.find k with
  | some n => rfl
  | none =>
    simp only [QCache.find, List.find?_eq_none] at hf
    symm
    apply List.filter_eq_self.mpr
    intro a ha
    simpa using hf a ha

theorem take_mx (q : QCache) (k : TileId) : (q.take k).2.mx = q.mx := by
  unfold QCache.take
  cases q.find k <;> rfl

theorem take_fst (q : QCache) (k : TileId) : (q.take k).1 = (q.find k).map (fun n => n.t) := by
  unfold QCache.take
  cases q.find k <;> rfl

theorem loadTile_hit {s : TileLoader} {tilx tily tileLevel : Int} {tile : TextureTile}
    (h : hashValue s.m_tileHash ⟨tileLevel, tilx, tily⟩ = some tile) (now : Int) (raw : RawTile) :
    s.loadTile tilx tily tileLevel now raw =
      (tile.setUsed true,
       { s with m_tileHash := hashInsert ⟨tileLevel, tilx, tily⟩ (tile.setUsed true)
                  s.m_tileHash }) := by
  simp only [TileLoader.loadTile, h]

theorem loadTile_promote {s : TileLoader} {tilx tily tileLevel : Int} {n : CacheNode}
    (h : hashValue s.m_tileHash ⟨tileLevel, tilx, tily⟩ = none)
    (hc : s.m_tileCache.find ⟨tileLevel, tilx, tily⟩ = some n) {now : Int}
    (hf : now - n.t.created < s.m_textureLayer.expire) (raw : RawTile) :
    s.loadTile tilx tily tileLevel now raw =
      (n.t.setUsed true,
       { s with m_tileCache := (s.m_tileCache.take ⟨tileLevel, tilx, tily⟩).2,
                m_tileHash := hashInsert ⟨tileLevel, tilx, tily⟩ (n.t.setUsed true)
                  s.m_tileHash }) := by
  simp only [TileLoader.loadTile, h, QCache.take, hc, hf, if_true]

theorem loadTile_stale {s : TileLoader} {tilx tily tileLevel : Int} {n : CacheNode}
    (h : hashValue s.m_tileHash ⟨tileLevel, tilx, tily⟩ = none)
    (hc : s.m_tileCache.find ⟨tileLevel, tilx, tily⟩ = some n) {now : Int}
    (hf : ¬ now - n.t.created < s.m_textureLayer.expire) (raw : RawTile) :
    s.loadTile tilx tily tileLevel now raw =
      loadFromDisk { s with m_tileCache := (s.m_tileCache.take ⟨tileLevel, tilx, tily⟩).2,
                            deleted := s.deleted ++ [n.t.addr] }
        ⟨tileLevel, tilx, tily⟩ raw := by
  simp only [TileLoader.loadTile, h, QCache.take, hc, hf, if_false]

theorem loadTile_miss {s : TileLoader} {tilx tily tileLevel : Int}
    (h : hashValue s.m_tileHash ⟨tileLevel, tilx, tily⟩ = none)
    (hc : s.m_tileCache.find ⟨tileLevel, tilx, tily⟩ = none) (now : Int) (raw : RawTile) :
    s.loadTile tilx tily tileLevel now raw = loadFromDisk s ⟨tileLevel, tilx, tily⟩ raw := by
  simp only [TileLoader.loadTile, h, QCache.take, hc]

theorem loadTile_cache (s : TileLoader) (tilx tily tileLevel now : Int) (raw : RawTile) :
    (s.loadTile tilx tily tileLevel now raw).2.m_tileCache = s.m_tileCache ∨
    (s.loadTile tilx tily tileLevel now raw).2.m_tileCache =
      (s.m_tileCache.take ⟨tileLevel, tilx, tily⟩).2 := by
  cases h : hashValue s.m_tileHash ⟨tileLevel, tilx, tily⟩ with
  | some tile => left; rw [loadTile_hit h]
  | none =>
    cases hc : s.m_tileCache.find ⟨tileLevel, tilx, tily⟩ with
    | none => left; rw [loadTile_miss h hc]; rfl
    | some n =>
      right
      by_cases hf : now - n.t.created < s.m_textureLayer.expire
      · rw [loadTile_promote h hc hf]
      · rw [loadTile_stale h hc hf]; rfl

/-! ## The cache stays within its allowance -/

theorem cacheInv_of_sublist {q q1 : QCache} (h : CacheInv q) (hmx : q1.mx = q.mx)
    (hs : q1.nodes.Sublist q.nodes) : CacheInv q1 := by
  refine ⟨fun n hn => h.1 n (hs.subset hn), ?_⟩
  rcases h.2 with h2 | h2
  · left
    have := totalCost_sublist hs h.1
    simp only [QCache.total] at *
    omega
  · right
    rw [h2] at hs
    exact List.sublist_nil.mp hs

theorem cacheInv_remove {q : QCache} (h : CacheInv q) (k : TileId) : CacheInv (q.remove k).1 :=
  cacheInv_of_sublist h rfl (List.filter_sublist _)

theorem cacheInv_insert {q : QCache} (h : CacheInv q) (k : TileId) (obj : TextureTile)
    (cost : Int) (hc : 0 ≤ cost) : CacheInv (q.insert k obj cost).cache := by
  unfold QCache.insert
  by_cases hr : cost > q.mx
  · simp only [hr, if_true]
    exact cacheInv_remove h k
  · simp only [hr, if_false]
    have hf : CacheInv (q.remove k).1 := cacheInv_remove h k
    constructor
    · intro n hn
      simp only [List.mem_append, List.mem_singleton] at hn
      rcases hn with hn | hn
      · exact hf.1 n ((trimKeep_sublist _ _).subset hn)
      · rw [hn]; exact hc
    · left
      simp only [QCache.total, totalCost_append, totalCost]
      have hmx : (q.remove k).1.mx = q.mx := rfl
      rw [hmx]
      rcases trimKeep_bound (q.mx - cost) (q.remove k).1.nodes with hb | hb
      · omega
      · rw [hb]; simp only [totalCost]; omega

theorem cacheInv_setMaxCost {q : QCache} (h : CacheInv q) (m : Int) :
    CacheInv (q.setMaxCost m).1 := by
  refine ⟨fun n hn => h.1 n ((trimKeep_sublist _ _).subset hn), ?_⟩
  exact trimKeep_bound m q.nodes

theorem cacheInv_demote {s : TileLoader} (h : CacheInv s.m_tileCache)
    (e : TileId × TextureTile) : CacheInv (demote s e).m_tileCache :=
  cacheInv_insert h e.1 e.2 _ (Int.natCast_nonneg _)

theorem cacheInv_foldl_demote (l : TileHash) {s : TileLoader} (h : CacheInv s.m_tileCache) :
    CacheInv (l.foldl demote s).m_tileCache := by
  induction l generalizing s with
  | nil => exact h
  | cons e l ih => exact ih (cacheInv_demote h e)

theorem cacheInv_foldl_cleanup (l : TileHash) {s : TileLoader} (h : CacheInv s.m_tileCache) :
    CacheInv (l.foldl (fun acc e => if e.2.used = false then demote acc e else acc)
      s).m_tileCache := by
  induction l generalizing s with
  | nil => exact h
  | cons e l ih =>
    simp only [List.foldl_cons]
    by_cases hu : e.2.used = false
    · simp only [hu, if_true]; exact ih (cacheInv_demote h e)
    · simp only [hu, if_false]; exact ih h

theorem cacheInv_take {q : QCache} (h : CacheInv q) (k : TileId) : CacheInv (q.take k).2 :=
  cacheInv_of_sublist h (take_mx q k) (by rw [take_nodes]; exact List.filter_sublist _)

theorem cacheInv_step {s : TileLoader} (h : CacheInv s.m_tileCache) (op : Op) :
    CacheInv (step s op).m_tileCache := by
  cases op with
  | loadTile tilx tily tileLevel now raw =>
    rcases loadTile_cache s tilx tily tileLevel now raw with hc | hc
    · simp only [step]; rw [hc]; exact h
    · simp only [step]; rw [hc]; exact cacheInv_take h _
  | resetTilehash => exact h
  | cleanupTilehash => exact cacheInv_foldl_cleanup _ h
  | flush => exact cacheInv_foldl_demote _ h
  | reloadTile id raw =>
    simp only [step, TileLoader.reloadTile]
    cases hashValue s.m_tileHash id with
    | some tile => exact h
    | none => exact cacheInv_remove h id
  | update =>
    exact ⟨fun n hn => by simp [step, TileLoader.update, clearCache, QCache.clear] at hn,
      Or.inr rfl⟩
  | setVolatileCacheLimit kiloBytes => exact cacheInv_setMaxCost h _
  | setTextureLayer layer =>
    exact ⟨fun n hn => by
      simp [step, TileLoader.setTextureLayer, clearCache, QCache.clear] at hn, Or.inr rfl⟩

theorem cacheInv_of_reachable {s : TileLoader} (h : Reachable s) : CacheInv s.m_tileCache := by
  induction h with
  | create layer =>
    exact ⟨fun n hn => by simp [TileLoader.create] at hn, Or.inr rfl⟩
  | step op _ ih => exact cacheInv_step ih op

end Marble

namespace Marble

open TileLoader

theorem reachable_run {s : TileLoader} (h : Reachable s) (ops : List Op) :
    Reachable (run s ops) := by
  induction ops generalizing s with
  | nil => exact h
  | cons op ops ih => exact ih (Reachable.step op h)

/-! ## C1: the cache bound -/

/-- Away from the narrowing of the limit the cache keeps its bound: in every
reachable state whose maximum cost is not negative, the sum of the costs of the
tiles the recency cache holds is at most the maximum cost. -/
theorem cache_bound_invariant (s : TileLoader) (h : Reachable s)
    (hmx : 0 ≤ s.m_tileCache.mx) : s.m_tileCache.total ≤ s.m_tileCache.mx := by
  rcases (cacheInv_of_reachable h).2 with h2 | h2
  · exact h2
  · simpa [QCache.total, h2, totalCost] using hmx

/-- The bound at the end of the run that offers 25000000 bytes to the cache of
20480000 bytes: the least recently used tile is gone, 20000000 bytes remain. -/
theorem cache_bound_invariant_witness :
    Reachable (run (create layerA) opsFiveTiles) ∧
    0 ≤ (run (create layerA) opsFiveTiles).m_tileCache.mx ∧
    (run (create layerA) opsFiveTiles).m_tileCache.total ≤
      (run (create layerA) opsFiveTiles).m_tileCache.mx ∧
    (run (create layerA) opsFiveTiles).m_tileCache.total = 20000000 ∧
    (run (create layerA) opsFiveTiles).m_tileCache.keys =
      [⟨3, 1, 0⟩, ⟨3, 2, 0⟩, ⟨3, 3, 0⟩, ⟨3, 4, 0⟩] :=
  ⟨reachable_run (Reachable.create layerA) opsFiveTiles, by decide,
   cache_bound_invariant _ (reachable_run (Reachable.create layerA) opsFiveTiles) (by decide),
   by decide, by decide⟩

/-- A reachable state whose maximum cost is negative has an empty cache. -/
theorem cache_empty_of_negative_maximum (s : TileLoader) (h : Reachable s)
    (hmx : s.m_tileCache.mx < 0) : s.m_tileCache.nodes = [] := by
  rcases (cacheInv_of_reachable h).2 with h2 | h2
  · have h0 := totalCost_nonneg (cacheInv_of_reachable h).1
    unfold QCache.total at h2
    omega
  · exact h2

/-- Right after `setVolatileCacheLimit( kiloBytes )` on a reachable state, the
total cost of the cache is at most the byte count `kiloBytes * 1024` asked
for, whatever the narrowing made of it. -/
theorem cache_total_le_configured (s : TileLoader) (h : Reachable s) (kiloBytes : Nat) :
    (setVolatileCacheLimit s kiloBytes).m_tileCache.total ≤ ((kiloBytes * 1024 : Nat) : Int) := by
  have hr : Reachable (setVolatileCacheLimit s kiloBytes) :=
    Reachable.step (Op.setVolatileCacheLimit kiloBytes) h
  have hmx : (setVolatileCacheLimit s kiloBytes).m_tileCache.mx =
      toInt32 (kiloBytes % 2 ^ 64 * 1024 % 2 ^ 64) := rfl
  have hle : toInt32 (kiloBytes % 2 ^ 64 * 1024 % 2 ^ 64) ≤ ((kiloBytes * 1024 : Nat) : Int) := by
    unfold toInt32
    have h1 : kiloBytes % 2 ^ 64 * 1024 % 2 ^ 64 % 2 ^ 32 ≤ kiloBytes * 1024 :=
      le_trans (Nat.mod_le _ _) (le_trans (Nat.mod_le _ _)
        (Nat.mul_le_mul_right _ (Nat.mod_le _ _)))
    split_ifs <;> omega
  rcases (cacheInv_of_reachable hr).2 with h2 | h2
  · rw [hmx] at h2
    exact le_trans h2 hle
  · unfold QCache.total
    rw [h2]
    simp [totalCost]

end Marble

namespace Marble

open TileLoader

/-! ## Keys of the two containers -/

theorem mem_hashKeys_hashInsert {k k1 : TileId} {t : TextureTile} {h : TileHash} :
    k1 ∈ hashKeys (hashInsert k t h) ↔ k1 = k ∨ k1 ∈ hashKeys h := by
  induction h with
  | nil => simp [hashInsert, hashKeys]
  | cons e h ih =>
    by_cases he : e.1 = k
    · simp only [hashInsert, he, if_true, hashKeys, List.map_cons, List.mem_cons]
      tauto
    · simp only [hashInsert, he, if_false, hashKeys, List.map_cons, List.mem_cons]
      simp only [hashKeys] at ih
      rw [ih]
      tauto

theorem mem_hashKeys_hashRemove {k k1 : TileId} {h : TileHash} :
    k1 ∈ hashKeys (hashRemove k h) ↔ k1 ≠ k ∧ k1 ∈ hashKeys h := by
  simp only [hashKeys, hashRemove, List.mem_map, List.mem_filter, decide_eq_true_eq]
  constructor
  · rintro ⟨e, ⟨he, hne⟩, rfl⟩
    exact ⟨hne, e, he, rfl⟩
  · rintro ⟨hne, e, he, rfl⟩
    exact ⟨e, ⟨he, hne⟩, rfl⟩

theorem hashValue_eq_none {h : TileHash} {k : TileId} :
    hashValue h k = none ↔ k ∉ hashKeys h := by
  induction h with
  | nil => simp [hashValue, hashKeys]
  | cons e h ih =>
    by_cases he : e.1 = k
    · simp [hashValue, hashKeys, he]
    · simp only [hashValue, he, if_false, hashKeys, List.map_cons, List.mem_cons]
      simp only [hashKeys] at ih
      rw [ih]
      constructor
      · intro h1 h2
        rcases h2 with h2 | h2
        · exact he h2.symm
        · exact h1 h2
      · intro h1 h2
        exact h1 (Or.inr h2)

theorem mem_hashKeys_of_hashValue {h : TileHash} {k : TileId} {t : TextureTile}
    (hv : hashValue h k = some t) : k ∈ hashKeys h := by
  by_contra hn
  rw [hashValue_eq_none.mpr hn] at hv
  exact Option.noConfusion hv

theorem mem_keys_filter_ne {ns : List CacheNode} {k k1 : TileId} :
    k1 ∈ (ns.filter (fun n => decide (n.key ≠ k))).map (fun n => n.key) ↔
      k1 ≠ k ∧ k1 ∈ ns.map (fun n => n.key) := by
  simp only [List.mem_map, List.mem_filter, decide_eq_true_eq]
  constructor
  · rintro ⟨n, ⟨hn, hne⟩, rfl⟩
    exact ⟨hne, n, hn, rfl⟩
  · rintro ⟨hne, n, hn, rfl⟩
    exact ⟨n, ⟨hn, hne⟩, rfl⟩

theorem mem_keys_take {q : QCache} {k k1 : TileId} :
    k1 ∈ (q.take k).2.keys ↔ k1 ≠ k ∧ k1 ∈ q.keys := by
  simp only [QCache.keys, take_nodes]
  exact mem_keys_filter_ne

theorem mem_keys_remove {q : QCache} {k k1 : TileId} :
    k1 ∈ (q.remove k).1.keys ↔ k1 ≠ k ∧ k1 ∈ q.keys := by
  simp only [QCache.keys, QCache.remove]
  exact mem_keys_filter_ne

theorem mem_keys_of_sublist {a b : List CacheNode} (h : a.Sublist b) {k : TileId}
    (hk : k ∈ a.map (fun n => n.key)) : k ∈ b.map (fun n => n.key) :=
  (h.map _).subset hk

theorem mem_keys_insert {q : QCache} {k k1 : TileId} {obj : TextureTile} {cost : Int}
    (h : k1 ∈ (q.insert k obj cost).cache.keys) : k1 = k ∨ k1 ∈ q.keys := by
  unfold QCache.insert at h
  by_cases hr : cost > q.mx
  · simp only [hr, if_true] at h
    exact Or.inr (mem_keys_remove.mp h).2
  · simp only [hr, if_false, QCache.keys, List.map_append, List.mem_append, List.map_cons,
      List.map_nil, List.mem_singleton] at h
    rcases h with h | h
    · exact Or.inr (mem_keys_remove.mp (mem_keys_of_sublist (trimKeep_sublist _ _) h)).2
    · exact Or.inl h

theorem find_eq_none {q : QCache} {k : TileId} : q.find k = none ↔ k ∉ q.keys := by
  simp only [QCache.find, List.find?_eq_none, QCache.keys, List.mem_map, decide_eq_true_eq,
    not_exists, not_and]

/-! ## C2: no key in both containers -/

theorem keysDisjoint_demote {s : TileLoader} (h : KeysDisjoint s) (e : TileId × TextureTile) :
    KeysDisjoint (demote s e) := by
  intro k hk hc
  have hk1 := mem_hashKeys_hashRemove.mp hk
  rcases mem_keys_insert hc with h1 | h1
  · exact hk1.1 h1
  · exact h k hk1.2 h1

theorem keysDisjoint_foldl_demote (l : TileHash) {s : TileLoader} (h : KeysDisjoint s) :
    KeysDisjoint (l.foldl demote s) := by
  induction l generalizing s with
  | nil => exact h
  | cons e l ih => exact ih (keysDisjoint_demote h e)

theorem keysDisjoint_foldl_cleanup (l : TileHash) {s : TileLoader} (h : KeysDisjoint s) :
    KeysDisjoint (l.foldl (fun acc e => if e.2.used = false then demote acc e else acc) s) := by
  induction l generalizing s with
  | nil => exact h
  | cons e l ih =>
    simp only [List.foldl_cons]
    by_cases hu : e.2.used = false
    · simp only [hu, if_true]; exact ih (keysDisjoint_demote h e)
    · simp only [hu, if_false]; exact ih h

theorem keysDisjoint_loadTile {s : TileLoader} (h : KeysDisjoint s)
    (tilx tily tileLevel now : Int) (raw : RawTile) :
    KeysDisjoint (s.loadTile tilx tily tileLevel now raw).2 := by
  cases hv : hashValue s.m_tileHash ⟨tileLevel, tilx, tily⟩ with
  | some tile =>
    rw [loadTile_hit hv]
    intro k hk hc
    rcases mem_hashKeys_hashInsert.mp hk with h1 | h1
    · rw [h1] at hc
      exact h _ (mem_hashKeys_of_hashValue hv) hc
    · exact h k h1 hc
  | none =>
    have key : ∀ (t : TextureTile) (s1 : TileLoader),
        s1.m_tileHash = hashInsert ⟨tileLevel, tilx, tily⟩ t s.m_tileHash →
        s1.m_tileCache = (s.m_tileCache.take ⟨tileLevel, tilx, tily⟩).2 → KeysDisjoint s1 := by
      intro t s1 h1 h2 k hk hc
      rw [h1] at hk
      rw [h2] at hc
      have hc1 := mem_keys_take.mp hc
      rcases mem_hashKeys_hashInsert.mp hk with h3 | h3
      · exact hc1.1 h3
      · exact h k h3 hc1.2
    cases hc : s.m_tileCache.find ⟨tileLevel, tilx, tily⟩ with
    | none =>
      rw [loadTile_miss hv hc]
      refine key _ _ rfl ?_
      simp only [loadFromDisk, QCache.take, hc]
    | some n =>
      by_cases hf : now - n.t.created < s.m_textureLayer.expire
      · rw [loadTile_promote hv hc hf]
        exact key _ _ rfl rfl
      · rw [loadTile_stale hv hc hf]
        exact key _ _ rfl rfl

theorem keysDisjoint_of_hash_nil {s : TileLoader} (h : s.m_tileHash = []) : KeysDisjoint s := by
  intro k hk
  rw [h] at hk
  simp [hashKeys] at hk

theorem keysDisjoint_step {s : TileLoader} (h : KeysDisjoint s) (op : Op) :
    KeysDisjoint (step s op) := by
  cases op with
  | loadTile tilx tily tileLevel now raw => exact keysDisjoint_loadTile h _ _ _ _ _
  | resetTilehash =>
    intro k hk hc
    refine h k ?_ hc
    simpa [TileLoader.resetTilehash, step, hashKeys, Function.comp_def] using hk
  | cleanupTilehash => exact keysDisjoint_foldl_cleanup _ h
  | flush => exact keysDisjoint_of_hash_nil rfl
  | reloadTile id raw =>
    simp only [step, TileLoader.reloadTile]
    cases hv : hashValue s.m_tileHash id with
    | some tile =>
      intro k hk hc
      rcases mem_hashKeys_hashInsert.mp hk with h1 | h1
      · rw [h1] at hc
        exact h _ (mem_hashKeys_of_hashValue hv) hc
      · exact h k h1 hc
    | none =>
      intro k hk hc
      exact h k hk (mem_keys_remove.mp hc).2
  | update => exact keysDisjoint_of_hash_nil rfl
  | setVolatileCacheLimit kiloBytes =>
    intro k hk hc
    exact h k hk (mem_keys_of_sublist (trimKeep_sublist _ _) hc)
  | setTextureLayer layer => exact keysDisjoint_of_hash_nil rfl

theorem keysDisjoint_of_reachable {s : TileLoader} (h : Reachable s) : KeysDisjoint s := by
  induction h with
  | create layer => exact keysDisjoint_of_hash_nil rfl
  | step op _ ih => exact keysDisjoint_step ih op

end Marble

namespace Marble

open TileLoader

/-- C2: in every state reachable from a new loader through `loadTile`,
`resetTilehash`, `cleanupTilehash`, `flush`, `reloadTile`, `update`,
`setVolatileCacheLimit` (and `setTextureLayer`), no `TileId` is a key of both
the active set `m_tileHash` and the recency cache `m_tileCache`. -/
theorem no_duplication_invariant (s : TileLoader) (h : Reachable s) (k : TileId) :
    ¬ (k ∈ hashKeys s.m_tileHash ∧ k ∈ s.m_tileCache.keys) :=
  fun hk => keysDisjoint_of_reachable h k hk.1 hk.2

/-- The invariant at a state whose two containers both hold a tile. -/
theorem no_duplication_invariant_witness :
    Reachable mixedState ∧
    hashKeys mixedState.m_tileHash = [⟨3, 0, 0⟩] ∧
    mixedState.m_tileCache.keys = [⟨3, 1, 0⟩] ∧
    ¬ ((⟨3, 1, 0⟩ : TileId) ∈ hashKeys mixedState.m_tileHash ∧
       (⟨3, 1, 0⟩ : TileId) ∈ mixedState.m_tileCache.keys) :=
  ⟨reachable_run (Reachable.create layerA) opsMixed, by decide, by decide,
   no_duplication_invariant mixedState (reachable_run (Reachable.create layerA) opsMixed)
     ⟨3, 1, 0⟩⟩

end Marble

namespace Marble

open TileLoader

/-! ## Lookups after `hashInsert` -/

theorem hashValue_hashInsert_self (k : TileId) (t : TextureTile) (h : TileHash) :
    hashValue (hashInsert k t h) k = some t := by
  induction h with
  | nil => simp [hashInsert, hashValue]
  | cons e h ih =>
    by_cases he : e.1 = k
    · simp [hashInsert, hashValue, he]
    · simp [hashInsert, hashValue, he, ih]

theorem hashValue_hashInsert_of_ne {k k1 : TileId} (hne : k1 ≠ k) (t : TextureTile)
    (h : TileHash) : hashValue (hashInsert k t h) k1 = hashValue h k1 := by
  induction h with
  | nil =>
    have : ¬ k = k1 := fun e => hne e.symm
    simp [hashInsert, hashValue, this]
  | cons e h ih =>
    by_cases he : e.1 = k
    · have h1 : ¬ e.1 = k1 := fun e1 => hne (e1.symm.trans he)
      have h2 : ¬ k = k1 := fun e1 => hne e1.symm
      simp [hashInsert, hashValue, he, h1, h2]
    · by_cases he1 : e.1 = k1
      · simp [hashInsert, hashValue, he, he1, hne]
      · simp [hashInsert, hashValue, he, he1, ih]

theorem not_mem_keys_take_self (q : QCache) (k : TileId) : k ∉ (q.take k).2.keys :=
  fun h => (mem_keys_take.mp h).1 rfl

end Marble

namespace Marble

open TileLoader

/-! ## C5: `loadTile` never evicts -/

theorem loadTile_hash (s : TileLoader) (tilx tily tileLevel now : Int) (raw : RawTile) :
    (s.loadTile tilx tily tileLevel now raw).2.m_tileHash =
      hashInsert ⟨tileLevel, tilx, tily⟩ (s.loadTile tilx tily tileLevel now raw).1
        s.m_tileHash := by
  cases hv : hashValue s.m_tileHash ⟨tileLevel, tilx, tily⟩ with
  | some tile => rw [loadTile_hit hv]
  | none =>
    cases hc : s.m_tileCache.find ⟨tileLevel, tilx, tily⟩ with
    | none => rw [loadTile_miss hv hc]; rfl
    | some n =>
      by_cases hf : now - n.t.created < s.m_textureLayer.expire
      · rw [loadTile_promote hv hc hf]
      · rw [loadTile_stale hv hc hf]; rfl

theorem loadTile_hashValue_self (s : TileLoader) (tilx tily tileLevel now : Int)
    (raw : RawTile) :
    hashValue (s.loadTile tilx tily tileLevel now raw).2.m_tileHash ⟨tileLevel, tilx, tily⟩ =
      some (s.loadTile tilx tily tileLevel now raw).1 := by
  rw [loadTile_hash]
  exact hashValue_hashInsert_self _ _ _

/-- C5: `loadTile` never evicts. Whatever path the call takes, a tile that was
in the active set before the call is in the active set after it, as the same
object (under a key other than the requested one it is untouched); and when the
requested id is active the call returns that very tile, marked used, and leaves
the recency cache as it was. -/
theorem loadTile_never_evicts (s : TileLoader) (tilx tily tileLevel now : Int) (raw : RawTile)
    (k : TileId) (t : TextureTile) (hk : hashValue s.m_tileHash k = some t) :
    (∃ t1, hashValue (s.loadTile tilx tily tileLevel now raw).2.m_tileHash k = some t1 ∧
        t1.addr = t.addr ∧ (k ≠ ⟨tileLevel, tilx, tily⟩ → t1 = t)) ∧
    (k = ⟨tileLevel, tilx, tily⟩ →
        (s.loadTile tilx tily tileLevel now raw).1 = t.setUsed true ∧
        (s.loadTile tilx tily tileLevel now raw).1.used = true ∧
        hashValue (s.loadTile tilx tily tileLevel now raw).2.m_tileHash k =
          some (t.setUsed true) ∧
        (s.loadTile tilx tily tileLevel now raw).2.m_tileCache = s.m_tileCache) := by
  by_cases hkid : k = ⟨tileLevel, tilx, tily⟩
  · subst hkid
    rw [loadTile_hit hk]
    refine ⟨⟨t.setUsed true, hashValue_hashInsert_self _ _ _, rfl, fun h => absurd rfl h⟩,
      fun _ => ⟨rfl, rfl, hashValue_hashInsert_self _ _ _, rfl⟩⟩
  · refine ⟨⟨t, ?_, rfl, fun _ => rfl⟩, fun h => absurd h hkid⟩
    rw [loadTile_hash, hashValue_hashInsert_of_ne hkid]
    exact hk

/-- The active tile `(3, 0, 0)` of `mixedState` stays active, untouched, when
`(3, 1, 0)` is promoted from the cache. -/
theorem loadTile_never_evicts_witness :
    hashValue mixedState.m_tileHash ⟨3, 0, 0⟩ = some ⟨0, ⟨3, 0, 0⟩, true, 10, 600⟩ ∧
    hashValue (mixedState.loadTile 1 0 3 50 rawB).2.m_tileHash ⟨3, 0, 0⟩ =
      some ⟨0, ⟨3, 0, 0⟩, true, 10, 600⟩ ∧
    ∃ t1, hashValue (mixedState.loadTile 1 0 3 50 rawB).2.m_tileHash ⟨3, 0, 0⟩ = some t1 ∧
      t1.addr = 0 ∧ (((⟨3, 0, 0⟩ : TileId) ≠ ⟨3, 1, 0⟩) → t1 = ⟨0, ⟨3, 0, 0⟩, true, 10, 600⟩) :=
  ⟨by decide, by decide,
   (loadTile_never_evicts mixedState 1 0 3 50 rawB ⟨3, 0, 0⟩ ⟨0, ⟨3, 0, 0⟩, true, 10, 600⟩
     (by decide)).1⟩

end Marble

namespace Marble

open TileLoader

/-! ## C6: what `cleanupTilehash` does to the active set -/

theorem unusedKeys_cons_unused {e : TileId × TextureTile} (hu : e.2.used = false)
    (l : TileHash) : unusedKeys (e :: l) = e.1 :: unusedKeys l := by
  simp [unusedKeys, List.filter_cons, hu]

theorem unusedKeys_cons_used {e : TileId × TextureTile} (hu : ¬ e.2.used = false)
    (l : TileHash) : unusedKeys (e :: l) = unusedKeys l := by
  simp [unusedKeys, List.filter_cons, hu]

theorem cleanup_fold_hash (l : TileHash) (acc : TileLoader) :
    (l.foldl (fun acc e => if e.2.used = false then demote acc e else acc) acc).m_tileHash =
      acc.m_tileHash.filter (fun e => decide (e.1 ∉ unusedKeys l)) := by
  induction l generalizing acc with
  | nil => simp [unusedKeys]
  | cons e l ih =>
    simp only [List.foldl_cons]
    by_cases hu : e.2.used = false
    · simp only [hu, if_true]
      rw [ih, unusedKeys_cons_unused hu]
      simp only [demote, hashRemove, List.filter_filter]
      apply List.filter_congr
      intro x _
      by_cases h1 : x.1 = e.1 <;> by_cases h2 : x.1 ∈ unusedKeys l <;> simp [h1, h2]
    · rw [if_neg hu, ih, unusedKeys_cons_used hu]

theorem cleanupTilehash_hash {s : TileLoader} (hwf : HashWF s.m_tileHash) :
    (cleanupTilehash s).m_tileHash = s.m_tileHash.filter (fun e => e.2.used) := by
  unfold cleanupTilehash
  rw [cleanup_fold_hash]
  apply List.filter_congr
  intro x hx
  have hinj := List.inj_on_of_nodup_map hwf
  by_cases hu : x.2.used = true
  · simp only [hu, decide_eq_true_eq]
    intro hmem
    simp only [unusedKeys, List.mem_map, List.mem_filter, decide_eq_true_eq] at hmem
    obtain ⟨y, ⟨hy, hyu⟩, hxy⟩ := hmem
    have := hinj hy hx hxy
    rw [this] at hyu
    rw [hu] at hyu
    exact Bool.noConfusion hyu
  · have hu1 : x.2.used = false := by simpa using hu
    simp only [hu1, decide_eq_false_iff_not, not_not]
    simp only [unusedKeys, List.mem_map, List.mem_filter, decide_eq_true_eq]
    exact ⟨x, ⟨hx, hu1⟩, rfl⟩

theorem insert_keeps_or_deletes (q : QCache) (k : TileId) (obj : TextureTile) (cost : Int)
    {n : CacheNode} (hn : n ∈ q.nodes) :
    n ∈ (q.insert k obj cost).cache.nodes ∨ n.t.addr ∈ (q.insert k obj cost).deleted := by
  by_cases hk : n.key = k
  · right
    have h1 : n.t.addr ∈ (q.remove k).2 := by
      simp only [QCache.remove, nodeAddrs, List.mem_map, List.mem_filter, decide_eq_true_eq]
      exact ⟨n, ⟨hn, hk⟩, rfl⟩
    unfold QCache.insert
    by_cases hr : cost > q.mx
    · simp only [hr, if_true]; exact List.mem_append_left _ h1
    · simp only [hr, if_false]; exact List.mem_append_left _ h1
  · have h1 : n ∈ (q.remove k).1.nodes := by
      simp only [QCache.remove, List.mem_filter, decide_eq_true_eq]
      exact ⟨hn, hk⟩
    unfold QCache.insert
    by_cases hr : cost > q.mx
    · simp only [hr, if_true]; exact Or.inl h1
    · simp only [hr, if_false]
      rw [← trimDrop_append_trimKeep (q.mx - cost) (q.remove k).1.nodes] at h1
      rcases List.mem_append.mp h1 with h2 | h2
      · right
        apply List.mem_append_right
        simp only [nodeAddrs, List.mem_map]
        exact ⟨n, h2, rfl⟩
      · left
        exact List.mem_append_left _ h2

theorem insert_holds_or_deletes (q : QCache) (k : TileId) (obj : TextureTile) (cost : Int) :
    (⟨k, obj, cost⟩ : CacheNode) ∈ (q.insert k obj cost).cache.nodes ∨
      obj.addr ∈ (q.insert k obj cost).deleted := by
  unfold QCache.insert
  by_cases hr : cost > q.mx
  · right; simp only [hr, if_true]; simp
  · left; simp only [hr, if_false]; simp

theorem demote_deleted (s : TileLoader) (e : TileId × TextureTile) :
    ∃ D, (demote s e).deleted = s.deleted ++ D ∧
      (∀ a ∈ (s.m_tileCache.insert e.1 e.2 (e.2.numBytes : Int)).deleted, a ∈ D) :=
  ⟨_, List.append_assoc _ _ _, fun _ ha => List.mem_append_left _ ha⟩

theorem cleanup_fold_fate (l : TileHash) (acc : TileLoader) :
    ∃ D, (l.foldl (fun acc e => if e.2.used = false then demote acc e else acc) acc).deleted =
        acc.deleted ++ D ∧
      (∀ n ∈ acc.m_tileCache.nodes,
        n ∈ (l.foldl (fun acc e => if e.2.used = false then demote acc e else acc)
          acc).m_tileCache.nodes ∨ n.t.addr ∈ D) ∧
      (∀ e ∈ l, e.2.used = false →
        (⟨e.1, e.2, (e.2.numBytes : Int)⟩ : CacheNode) ∈
          (l.foldl (fun acc e => if e.2.used = false then demote acc e else acc)
            acc).m_tileCache.nodes ∨ e.2.addr ∈ D) := by
  induction l generalizing acc with
  | nil => exact ⟨[], by simp, fun n hn => Or.inl hn, fun e he => by simp at he⟩
  | cons e l ih =>
    simp only [List.foldl_cons]
    by_cases hu : e.2.used = false
    · simp only [hu, if_true]
      obtain ⟨D2, hD2, hn2, he2⟩ := ih (demote acc e)
      obtain ⟨D1, hD1, hsub⟩ := demote_deleted acc e
      refine ⟨D1 ++ D2, by rw [hD2, hD1, List.append_assoc], ?_, ?_⟩
      · intro n hn
        rcases insert_keeps_or_deletes acc.m_tileCache e.1 e.2 (e.2.numBytes : Int) hn
          with h1 | h1
        · rcases hn2 n h1 with h2 | h2
          · exact Or.inl h2
          · exact Or.inr (List.mem_append_right _ h2)
        · exact Or.inr (List.mem_append_left _ (hsub _ h1))
      · intro x hx hxu
        rcases List.mem_cons.mp hx with hx1 | hx1
        · subst hx1
          rcases insert_holds_or_deletes acc.m_tileCache x.1 x.2 (x.2.numBytes : Int)
            with h1 | h1
          · rcases hn2 _ h1 with h2 | h2
            · exact Or.inl h2
            · exact Or.inr (List.mem_append_right _ h2)
          · exact Or.inr (List.mem_append_left _ (hsub _ h1))
        · rcases he2 x hx1 hxu with h2 | h2
          · exact Or.inl h2
          · exact Or.inr (List.mem_append_right _ h2)
    · rw [if_neg hu]
      obtain ⟨D2, hD2, hn2, he2⟩ := ih acc
      refine ⟨D2, hD2, hn2, ?_⟩
      intro x hx hxu
      rcases List.mem_cons.mp hx with hx1 | hx1
      · subst hx1; exact absurd hxu hu
      · exact he2 x hx1 hxu

theorem deletedSince_of_append {s s1 : TileLoader} {D : List Nat}
    (h : s1.deleted = s.deleted ++ D) : deletedSince s s1 = D := by
  simp [deletedSince, h]

/-- C6, as stated, fails: in `tightState` the tiles `(3, 0, 0)` and `(3, 1, 0)`
are active and unused. `cleanupTilehash` inserts the first into the cache (600
bytes fit the maximum of 1024, `insert` returns `true`), and the insert of the
second evicts it again: after the call the first tile is not held by the cache,
and the cache had not rejected it. When the iterator visits the two tiles in the
other order, the same happens to the second tile. -/
theorem cleanup_evicts_accepted_tile :
    Reachable tightState ∧
    tightState.m_tileHash = [(⟨3, 0, 0⟩, tightTile), (⟨3, 1, 0⟩, tightTileB)] ∧
    tightTile.used = false ∧
    (tightState.m_tileCache.insert ⟨3, 0, 0⟩ tightTile (tightTile.numBytes : Int)).inCache
      = true ∧
    ¬ ((⟨⟨3, 0, 0⟩, tightTile, (tightTile.numBytes : Int)⟩ : CacheNode) ∈
          (cleanupTilehash tightState).m_tileCache.nodes ∨
        (tightTile.numBytes : Int) > tightState.m_tileCache.mx) ∧
    (⟨3, 0, 0⟩ : TileId) ∉ (cleanupTilehash tightState).m_tileCache.keys ∧
    deletedSince tightState (cleanupTilehash tightState) = [0] ∧
    ¬ ((⟨⟨3, 1, 0⟩, tightTileB, (tightTileB.numBytes : Int)⟩ : CacheNode) ∈
          (cleanupTilehash { tightState with
            m_tileHash := tightState.m_tileHash.reverse }).m_tileCache.nodes ∨
        (tightTileB.numBytes : Int) > tightState.m_tileCache.mx) :=
  ⟨reachable_run (Reachable.create layerA) opsTight, by decide, by decide, by decide,
   by decide, by decide, by decide, by decide⟩

end Marble

namespace Marble

open TileLoader

/-! ## C7: full invalidation -/

theorem loadTile_of_empty {s : TileLoader} (hh : s.m_tileHash = [])
    (hc : s.m_tileCache.nodes = []) (tilx tily tileLevel now : Int) (raw : RawTile) :
    hashValue s.m_tileHash ⟨tileLevel, tilx, tily⟩ = none ∧
    s.m_tileCache.find ⟨tileLevel, tilx, tily⟩ = none ∧
    (s.loadTile tilx tily tileLevel now raw).1 =
      (TextureTile.new s.nextAddr ⟨tileLevel, tilx, tily⟩).loadRawTile raw := by
  have h1 : hashValue s.m_tileHash ⟨tileLevel, tilx, tily⟩ = none := by
    rw [hh]; rfl
  have h2 : s.m_tileCache.find ⟨tileLevel, tilx, tily⟩ = none := by
    simp only [QCache.find, hc, List.find?_nil]
  refine ⟨h1, h2, ?_⟩
  rw [loadTile_miss h1 h2]
  rfl

/-- C7: after `update()`, and after the flush and clear that `setTextureLayer`
performs, the active set and the recency cache are both empty whatever they held
before; the next `loadTile`, for any id, finds the id in neither container and
returns a newly constructed tile. -/
theorem full_invalidation (s : TileLoader) (layer : GeoSceneTexture)
    (tilx tily tileLevel now : Int) (raw : RawTile) :
    ((update s).m_tileHash = [] ∧ (update s).m_tileCache.nodes = [] ∧
      hashValue (update s).m_tileHash ⟨tileLevel, tilx, tily⟩ = none ∧
      (update s).m_tileCache.find ⟨tileLevel, tilx, tily⟩ = none ∧
      ((update s).loadTile tilx tily tileLevel now raw).1 =
        (TextureTile.new (update s).nextAddr ⟨tileLevel, tilx, tily⟩).loadRawTile raw) ∧
    ((setTextureLayer s layer).m_tileHash = [] ∧
      (setTextureLayer s layer).m_tileCache.nodes = [] ∧
      hashValue (setTextureLayer s layer).m_tileHash ⟨tileLevel, tilx, tily⟩ = none ∧
      (setTextureLayer s layer).m_tileCache.find ⟨tileLevel, tilx, tily⟩ = none ∧
      ((setTextureLayer s layer).loadTile tilx tily tileLevel now raw).1 =
        (TextureTile.new (setTextureLayer s layer).nextAddr
          ⟨tileLevel, tilx, tily⟩).loadRawTile raw) :=
  ⟨⟨rfl, rfl, loadTile_of_empty rfl rfl tilx tily tileLevel now raw⟩,
   ⟨rfl, rfl, loadTile_of_empty rfl rfl tilx tily tileLevel now raw⟩⟩

/-! ## C8: changing the cache limit -/

/-- C8, as stated, fails: `mixedState` holds the tile `(3, 1, 0)` of 600 bytes
in its cache; `setVolatileCacheLimit( 0 )` sets the maximum cost to 0 and the
trim that `setMaxCost` performs deletes the tile. -/
theorem cache_limit_change_evicts :
    Reachable mixedState ∧
    mixedState.m_tileCache.nodes = [mixedNode] ∧
    (setVolatileCacheLimit mixedState 0).m_tileCache.mx = 0 ∧
    (setVolatileCacheLimit mixedState 0).m_tileCache.nodes = [] ∧
    ¬ (setVolatileCacheLimit mixedState 0).m_tileCache.nodes = mixedState.m_tileCache.nodes ∧
    deletedSince mixedState (setVolatileCacheLimit mixedState 0) = [mixedNode.t.addr] :=
  ⟨reachable_run (Reachable.create layerA) opsMixed, by decide, by decide, by decide,
   by decide, by decide⟩

theorem trimDrop_forced (m : Int) (ns : List CacheNode) :
    ∀ (d1 : List CacheNode) (x : CacheNode) (d2 : List CacheNode),
      trimDrop m ns = d1 ++ x :: d2 → totalCost (x :: d2 ++ trimKeep m ns) > m := by
  induction ns with
  | nil =>
    intro d1 x d2 h
    simp [trimDrop] at h
  | cons n ns ih =>
    intro d1 x d2 h
    by_cases hgt : totalCost (n :: ns) > m
    · simp only [trimDrop, hgt, if_true] at h
      simp only [trimKeep, hgt, if_true]
      cases d1 with
      | nil =>
        simp only [List.nil_append, List.cons.injEq] at h
        obtain ⟨hx, hd⟩ := h
        rw [← hx, ← hd, List.cons_append, trimDrop_append_trimKeep]
        exact hgt
      | cons y d1 =>
        simp only [List.cons_append, List.cons.injEq] at h
        exact ih d1 x d2 h.2
    · simp only [trimDrop, hgt, if_false] at h
      cases d1 <;> simp at h

theorem trimKeep_eq_self_iff (m : Int) (ns : List CacheNode) :
    trimKeep m ns = ns ↔ (totalCost ns ≤ m ∨ ns = []) := by
  constructor
  · intro h
    have hb := trimKeep_bound m ns
    rw [h] at hb
    exact hb
  · rintro (h | h)
    · exact trimKeep_of_le h
    · rw [h]; rfl

/-- C8, amended: `setVolatileCacheLimit` leaves the active set as it is and
stores `kiloBytes * 1024`, converted to `int`, as the maximum cost; the cache
is trimmed at once: the entries it held are the entries dropped, least
recently used first, followed by the entries kept; the tiles of the dropped
entries are deleted in that order; every entry was dropped while the total
cost of it and the entries after it was still above the new maximum, and what
is kept is within the new maximum or nothing. The cache holds the same entries
after the call as before it exactly when their total cost was within the new
maximum already or the cache was empty. -/
theorem setVolatileCacheLimit_trims (s : TileLoader) (kiloBytes : Nat) :
    (setVolatileCacheLimit s kiloBytes).m_tileHash = s.m_tileHash ∧
    (setVolatileCacheLimit s kiloBytes).m_tileCache.mx =
      toInt32 (kiloBytes % 2 ^ 64 * 1024 % 2 ^ 64) ∧
    (∃ dropped, s.m_tileCache.nodes =
        dropped ++ (setVolatileCacheLimit s kiloBytes).m_tileCache.nodes ∧
      (setVolatileCacheLimit s kiloBytes).deleted = s.deleted ++ nodeAddrs dropped ∧
      (∀ (d1 : List CacheNode) (x : CacheNode) (d2 : List CacheNode),
        dropped = d1 ++ x :: d2 →
        totalCost (x :: d2 ++ (setVolatileCacheLimit s kiloBytes).m_tileCache.nodes) >
          toInt32 (kiloBytes % 2 ^ 64 * 1024 % 2 ^ 64))) ∧
    ((setVolatileCacheLimit s kiloBytes).m_tileCache.total ≤
        (setVolatileCacheLimit s kiloBytes).m_tileCache.mx ∨
      (setVolatileCacheLimit s kiloBytes).m_tileCache.nodes = []) ∧
    ((setVolatileCacheLimit s kiloBytes).m_tileCache.nodes = s.m_tileCache.nodes ↔
      (s.m_tileCache.total ≤ toInt32 (kiloBytes % 2 ^ 64 * 1024 % 2 ^ 64) ∨
        s.m_tileCache.nodes = [])) ∧
    (s.m_tileCache.total ≤ toInt32 (kiloBytes % 2 ^ 64 * 1024 % 2 ^ 64) →
      (setVolatileCacheLimit s kiloBytes).m_tileCache.nodes = s.m_tileCache.nodes ∧
      (setVolatileCacheLimit s kiloBytes).deleted = s.deleted) := by
  refine ⟨rfl, rfl, ⟨trimDrop _ s.m_tileCache.nodes, ?_, rfl, ?_⟩, ?_, ?_, fun h => ⟨?_, ?_⟩⟩
  · exact (trimDrop_append_trimKeep _ _).symm
  · exact trimDrop_forced _ _
  · exact trimKeep_bound _ _
  · exact trimKeep_eq_self_iff _ _
  · exact trimKeep_of_le h
  · simp only [setVolatileCacheLimit, QCache.setMaxCost, trimDrop_of_le h, nodeAddrs,
      List.map_nil, List.append_nil]

/-! ## C9: tiles of zero bytes -/

/-- C10: for an id that is not in the active set, `reloadTile` leaves the
active set unchanged and decodes into no tile; afterwards the id is not a key
of the recency cache, and every other cache entry is as before, in the same
order. -/
theorem reloadTile_of_inactive (s : TileLoader) (id : TileId) (raw : RawTile)
    (h : hashContains s.m_tileHash id = false) :
    (reloadTile s id raw).m_tileHash = s.m_tileHash ∧
    id ∉ (reloadTile s id raw).m_tileCache.keys ∧
    (reloadTile s id raw).m_tileCache.nodes =
      s.m_tileCache.nodes.filter (fun n => decide (n.key ≠ id)) ∧
    (∀ n ∈ s.m_tileCache.nodes, n.key ≠ id → n ∈ (reloadTile s id raw).m_tileCache.nodes) ∧
    (∀ n ∈ (reloadTile s id raw).m_tileCache.nodes, n ∈ s.m_tileCache.nodes) ∧
    (reloadTile s id raw).m_tileCache.mx = s.m_tileCache.mx := by
  have hv : hashValue s.m_tileHash id = none := by
    simpa [hashContains] using h
  have hr : reloadTile s id raw =
      { s with m_tileCache := (s.m_tileCache.remove id).1,
               deleted := s.deleted ++ (s.m_tileCache.remove id).2 } := by
    simp only [reloadTile, hv]
  rw [hr]
  refine ⟨rfl, fun hk => (mem_keys_remove.mp hk).1 rfl, rfl, fun n hn hne => ?_,
    fun n hn => ?_, rfl⟩
  · simp only [QCache.remove, List.mem_filter, decide_eq_true_eq]
    exact ⟨hn, hne⟩
  · exact (List.mem_filter.mp hn).1

/-- A reload for the cached, inactive tile `(3, 1, 0)` of `mixedState`: the
active set is as before and the cache loses the entry. -/
theorem reloadTile_of_inactive_witness :
    hashContains mixedState.m_tileHash ⟨3, 1, 0⟩ = false ∧
    (reloadTile mixedState ⟨3, 1, 0⟩ rawB).m_tileHash = mixedState.m_tileHash ∧
    (⟨3, 1, 0⟩ : TileId) ∉ (reloadTile mixedState ⟨3, 1, 0⟩ rawB).m_tileCache.keys ∧
    (reloadTile mixedState ⟨3, 1, 0⟩ rawB).m_tileCache.nodes = [] :=
  ⟨by decide,
   (reloadTile_of_inactive mixedState ⟨3, 1, 0⟩ rawB (by decide)).1,
   (reloadTile_of_inactive mixedState ⟨3, 1, 0⟩ rawB (by decide)).2.1,
   by decide⟩

end Marble

namespace Marble

open TileLoader

/-! ## Well-formedness is kept by `resetTilehash` and `loadTile` -/

theorem hashInsert_of_hashValue_none {h : TileHash} {k : TileId} (hv : hashValue h k = none)
    (t : TextureTile) : hashInsert k t h = h ++ [(k, t)] := by
  induction h with
  | nil => rfl
  | cons e h ih =>
    by_cases he : e.1 = k
    · simp [hashValue, he] at hv
    · simp only [hashValue, he, if_false] at hv
      simp only [hashInsert, he, if_false, ih hv, List.cons_append]

theorem hashKeys_hashInsert_of_some {h : TileHash} {k : TileId} {t0 : TextureTile}
    (hv : hashValue h k = some t0) (t : TextureTile) :
    hashKeys (hashInsert k t h) = hashKeys h := by
  induction h with
  | nil => simp [hashValue] at hv
  | cons e h ih =>
    by_cases he : e.1 = k
    · simp [hashInsert, hashKeys, he]
    · simp only [hashValue, he, if_false] at hv
      simp only [hashInsert, he, if_false, hashKeys, List.map_cons, List.cons.injEq, true_and]
      exact ih hv

theorem map_addr_hashInsert_of_some {h : TileHash} {k : TileId} {t0 : TextureTile}
    (hv : hashValue h k = some t0) {t : TextureTile} (ht : t.addr = t0.addr) :
    (hashInsert k t h).map (fun e => e.2.addr) = h.map (fun e => e.2.addr) := by
  induction h with
  | nil => simp [hashValue] at hv
  | cons e h ih =>
    by_cases he : e.1 = k
    · simp only [hashValue, he, if_true, Option.some.injEq] at hv
      simp [hashInsert, he, ht, hv]
    · simp only [hashValue, he, if_false] at hv
      simp only [hashInsert, he, if_false, List.map_cons, List.cons.injEq, true_and]
      exact ih hv

theorem hashWF_hashInsert {h : TileHash} (hwf : HashWF h) (k : TileId) (t : TextureTile) :
    HashWF (hashInsert k t h) := by
  unfold HashWF at *
  cases hv : hashValue h k with
  | some t0 => rw [hashKeys_hashInsert_of_some hv]; exact hwf
  | none =>
    rw [hashInsert_of_hashValue_none hv]
    simp only [hashKeys, List.map_append, List.map_cons, List.map_nil]
    rw [List.nodup_append]
    refine ⟨hwf, List.nodup_singleton _, ?_⟩
    intro a ha hb
    rw [List.mem_singleton] at hb
    subst hb
    exact hashValue_eq_none.mp hv ha

theorem hashWF_loadTile {s : TileLoader} (hwf : HashWF s.m_tileHash)
    (tilx tily tileLevel now : Int) (raw : RawTile) :
    HashWF (s.loadTile tilx tily tileLevel now raw).2.m_tileHash := by
  rw [loadTile_hash]
  exact hashWF_hashInsert hwf _ _

theorem hashWF_resetTilehash {s : TileLoader} (hwf : HashWF s.m_tileHash) :
    HashWF (resetTilehash s).m_tileHash := by
  unfold HashWF at *
  simpa [resetTilehash, hashKeys, Function.comp_def] using hwf

theorem keysDisjoint_resetTilehash {s : TileLoader} (h : KeysDisjoint s) :
    KeysDisjoint (resetTilehash s) :=
  keysDisjoint_step h Op.resetTilehash

theorem addrWF_resetTilehash {s : TileLoader} (h : AddrWF s) : AddrWF (resetTilehash s) := by
  have e : liveAddrs (resetTilehash s) = liveAddrs s := by
    simp [liveAddrs, resetTilehash, TextureTile.setUsed, Function.comp_def]
  unfold AddrWF
  rw [e]
  exact h

theorem find_some_mem {q : QCache} {k : TileId} {n : CacheNode} (h : q.find k = some n) :
    n ∈ q.nodes ∧ n.key = k := by
  have h1 := List.find?_some h
  have h2 := List.mem_of_find?_eq_some h
  exact ⟨h2, by simpa using h1⟩

theorem nodeAddrs_filter_sublist (ns : List CacheNode) (p : CacheNode → Bool) :
    (nodeAddrs (ns.filter p)).Sublist (nodeAddrs ns) :=
  (List.filter_sublist ns).map _

theorem addrWF_append_new {s : TileLoader} (h : AddrWF s) (k : TileId) (t : TextureTile)
    (ht : t.addr = s.nextAddr) (q : QCache) (hq : (nodeAddrs q.nodes).Sublist
      (nodeAddrs s.m_tileCache.nodes)) (d : List Nat) :
    AddrWF { s with m_tileHash := s.m_tileHash ++ [(k, t)], m_tileCache := q,
                    nextAddr := s.nextAddr + 1, deleted := d } := by
  obtain ⟨hnd, hlt⟩ := h
  simp only [liveAddrs, List.nodup_append, List.mem_append] at hnd hlt
  obtain ⟨hh, hc, hdisj⟩ := hnd
  constructor
  · simp only [liveAddrs, List.map_append, List.map_cons, List.map_nil, List.nodup_append]
    refine ⟨⟨hh, List.nodup_singleton _, ?_⟩, hc.sublist hq, ?_⟩
    · intro a ha hb
      rw [List.mem_singleton] at hb
      have := hlt a (Or.inl ha)
      omega
    · intro a ha hb
      rcases List.mem_append.mp ha with h1 | h1
      · exact hdisj h1 (hq.subset hb)
      · rw [List.mem_singleton] at h1
        have := hlt a (Or.inr (hq.subset hb))
        omega
  · intro a ha
    simp only [liveAddrs, List.map_append, List.map_cons, List.map_nil, List.mem_append,
      List.mem_singleton] at ha
    show a < s.nextAddr + 1
    rcases ha with (h1 | h1) | h1
    · have := hlt a (Or.inl h1); omega
    · omega
    · have := hlt a (Or.inr (hq.subset h1)); omega

theorem addrWF_promote {s : TileLoader} (h : AddrWF s) {k : TileId} {n : CacheNode}
    (hc : s.m_tileCache.find k = some n) (t : TextureTile) (ht : t.addr = n.t.addr) :
    AddrWF { s with m_tileHash := s.m_tileHash ++ [(k, t)],
                    m_tileCache := (s.m_tileCache.take k).2 } := by
  obtain ⟨hnd, hlt⟩ := h
  obtain ⟨hn, hnk⟩ := find_some_mem hc
  have hnd0 := hnd
  simp only [liveAddrs, List.nodup_append, List.mem_append] at hnd hlt
  obtain ⟨hh, hcn, hdisj⟩ := hnd
  have hsub : (nodeAddrs (s.m_tileCache.take k).2.nodes).Sublist
      (nodeAddrs s.m_tileCache.nodes) := by
    rw [take_nodes]; exact nodeAddrs_filter_sublist _ _
  have hna : n.t.addr ∈ nodeAddrs s.m_tileCache.nodes := by
    simp only [nodeAddrs, List.mem_map]; exact ⟨n, hn, rfl⟩
  constructor
  · simp only [liveAddrs, List.map_append, List.map_cons, List.map_nil, List.nodup_append]
    refine ⟨⟨hh, List.nodup_singleton _, ?_⟩, hcn.sublist hsub, ?_⟩
    · intro a ha hb
      rw [List.mem_singleton] at hb
      rw [hb, ht] at ha
      exact hdisj ha hna
    · intro a ha hb
      rcases List.mem_append.mp ha with h1 | h1
      · exact hdisj h1 (hsub.subset hb)
      · rw [List.mem_singleton] at h1
        rw [take_nodes] at hb
        simp only [nodeAddrs, List.mem_map, List.mem_filter, decide_eq_true_eq] at hb
        obtain ⟨m, ⟨hm, hmk⟩, hma⟩ := hb
        have hinj := List.inj_on_of_nodup_map hcn
        have : m = n := hinj hm hn (by rw [hma, h1, ht])
        exact hmk (this ▸ hnk)
  · intro a ha
    simp only [liveAddrs, List.map_append, List.map_cons, List.map_nil, List.mem_append,
      List.mem_singleton] at ha
    rcases ha with (h1 | h1) | h1
    · exact hlt a (Or.inl h1)
    · rw [h1, ht]; exact hlt _ (Or.inr hna)
    · exact hlt a (Or.inr (hsub.subset h1))

theorem addrWF_loadTile {s : TileLoader} (h : AddrWF s)
    (tilx tily tileLevel now : Int) (raw : RawTile) :
    AddrWF (s.loadTile tilx tily tileLevel now raw).2 := by
  cases hv : hashValue s.m_tileHash ⟨tileLevel, tilx, tily⟩ with
  | some tile =>
    rw [loadTile_hit hv]
    have e : liveAddrs { s with
        m_tileHash := hashInsert ⟨tileLevel, tilx, tily⟩ (tile.setUsed true) s.m_tileHash } =
          liveAddrs s := by
      simp only [liveAddrs]
      rw [map_addr_hashInsert_of_some hv (show (tile.setUsed true).addr = tile.addr from rfl)]
    exact ⟨by rw [e]; exact h.1, by rw [e]; exact h.2⟩
  | none =>
    cases hc : s.m_tileCache.find ⟨tileLevel, tilx, tily⟩ with
    | none =>
      rw [loadTile_miss hv hc]
      simp only [loadFromDisk]
      rw [hashInsert_of_hashValue_none hv]
      exact addrWF_append_new h _ _ rfl _ (List.Sublist.refl _) _
    | some n =>
      by_cases hf : now - n.t.created < s.m_textureLayer.expire
      · rw [loadTile_promote hv hc hf]
        simp only
        rw [hashInsert_of_hashValue_none hv]
        exact addrWF_promote h hc _ rfl
      · rw [loadTile_stale hv hc hf]
        simp only [loadFromDisk]
        rw [hashInsert_of_hashValue_none hv]
        refine addrWF_append_new h _ _ rfl _ ?_ _
        rw [take_nodes]
        exact nodeAddrs_filter_sublist _ _

end Marble

namespace Marble

open TileLoader

/-! ## What `cleanupTilehash` deletes -/

theorem insert_deleted_subset {q : QCache} {k : TileId} {obj : TextureTile} {cost : Int}
    {a : Nat} (ha : a ∈ (q.insert k obj cost).deleted) :
    a = obj.addr ∨ a ∈ nodeAddrs q.nodes := by
  unfold QCache.insert at ha
  have hrem : ∀ b ∈ (q.remove k).2, b ∈ nodeAddrs q.nodes :=
    fun b hb => (nodeAddrs_filter_sublist _ _).subset hb
  by_cases hr : cost > q.mx
  · simp only [hr, if_true, List.mem_append, List.mem_singleton] at ha
    rcases ha with h1 | h1
    · exact Or.inr (hrem a h1)
    · exact Or.inl h1
  · simp only [hr, if_false, List.mem_append] at ha
    rcases ha with h1 | h1
    · exact Or.inr (hrem a h1)
    · right
      have h2 : (trimDrop (q.mx - cost) (q.remove k).1.nodes).Sublist (q.remove k).1.nodes := by
        have := List.sublist_append_left (trimDrop (q.mx - cost) (q.remove k).1.nodes)
          (trimKeep (q.mx - cost) (q.remove k).1.nodes)
        rwa [trimDrop_append_trimKeep] at this
      have h3 : (nodeAddrs (trimDrop (q.mx - cost) (q.remove k).1.nodes)).Sublist
          (nodeAddrs q.nodes) := (h2.trans (List.filter_sublist _)).map _
      exact h3.subset h1

theorem insert_nodes_subset {q : QCache} {k : TileId} {obj : TextureTile} {cost : Int}
    {n : CacheNode} (hn : n ∈ (q.insert k obj cost).cache.nodes) :
    n = ⟨k, obj, cost⟩ ∨ n ∈ q.nodes := by
  unfold QCache.insert at hn
  by_cases hr : cost > q.mx
  · simp only [hr, if_true] at hn
    exact Or.inr ((List.filter_sublist _).subset hn)
  · simp only [hr, if_false, List.mem_append, List.mem_singleton] at hn
    rcases hn with h1 | h1
    · exact Or.inr ((List.filter_sublist _).subset ((trimKeep_sublist _ _).subset h1))
    · exact Or.inl h1

theorem demote_deleted_subset (s : TileLoader) (e : TileId × TextureTile) :
    ∃ D, (demote s e).deleted = s.deleted ++ D ∧
      (∀ a ∈ D, a = e.2.addr ∨ a ∈ nodeAddrs s.m_tileCache.nodes) ∧
      (∀ a ∈ nodeAddrs (demote s e).m_tileCache.nodes,
        a = e.2.addr ∨ a ∈ nodeAddrs s.m_tileCache.nodes) := by
  refine ⟨_, List.append_assoc _ _ _, ?_, ?_⟩
  · intro a ha
    rcases List.mem_append.mp ha with h1 | h1
    · exact insert_deleted_subset h1
    · split at h1
      · exact Or.inl (List.mem_singleton.mp h1)
      · simp at h1
  · intro a ha
    simp only [nodeAddrs, List.mem_map] at ha
    obtain ⟨n, hn, hna⟩ := ha
    rcases insert_nodes_subset hn with h1 | h1
    · left; rw [← hna, h1]
    · right; simp only [nodeAddrs, List.mem_map]; exact ⟨n, h1, hna⟩

theorem unusedAddrs_cons_unused {e : TileId × TextureTile} (hu : e.2.used = false)
    (l : TileHash) : unusedAddrs (e :: l) = e.2.addr :: unusedAddrs l := by
  simp [unusedAddrs, List.filter_cons, hu]

theorem unusedAddrs_cons_used {e : TileId × TextureTile} (hu : ¬ e.2.used = false)
    (l : TileHash) : unusedAddrs (e :: l) = unusedAddrs l := by
  simp [unusedAddrs, List.filter_cons, hu]

theorem cleanup_fold_deleted_subset (l : TileHash) (acc : TileLoader) :
    ∃ D, (l.foldl (fun acc e => if e.2.used = false then demote acc e else acc) acc).deleted =
        acc.deleted ++ D ∧
      ∀ a ∈ D, a ∈ unusedAddrs l ∨ a ∈ nodeAddrs acc.m_tileCache.nodes := by
  induction l generalizing acc with
  | nil => exact ⟨[], by simp, fun a ha => by simp at ha⟩
  | cons e l ih =>
    simp only [List.foldl_cons]
    by_cases hu : e.2.used = false
    · simp only [hu, if_true]
      obtain ⟨D2, hD2, hsub2⟩ := ih (demote acc e)
      obtain ⟨D1, hD1, hsub1, hnodes⟩ := demote_deleted_subset acc e
      refine ⟨D1 ++ D2, by rw [hD2, hD1, List.append_assoc], ?_⟩
      intro a ha
      rw [unusedAddrs_cons_unused hu]
      rcases List.mem_append.mp ha with h1 | h1
      · rcases hsub1 a h1 with h2 | h2
        · exact Or.inl (List.mem_cons.mpr (Or.inl h2))
        · exact Or.inr h2
      · rcases hsub2 a h1 with h2 | h2
        · exact Or.inl (List.mem_cons_of_mem _ h2)
        · rcases hnodes a h2 with h3 | h3
          · exact Or.inl (List.mem_cons.mpr (Or.inl h3))
          · exact Or.inr h3
    · rw [if_neg hu, unusedAddrs_cons_used hu]
      exact ih acc

theorem hashValue_filter_used {h : TileHash} {k : TileId} {t : TextureTile}
    (hv : hashValue h k = some t) (hu : t.used = true) :
    hashValue (h.filter (fun e => e.2.used)) k = some t := by
  induction h with
  | nil => simp [hashValue] at hv
  | cons e h ih =>
    by_cases he : e.1 = k
    · simp only [hashValue, he, if_true, Option.some.injEq] at hv
      have heu : e.2.used = true := by rw [hv]; exact hu
      simp [List.filter_cons, hu, hashValue, he, hv]
    · simp only [hashValue, he, if_false] at hv
      by_cases heu : e.2.used = true
      · simp [List.filter_cons, heu, hashValue, he, ih hv]
      · simp [List.filter_cons, heu, ih hv]

theorem mem_of_hashValue {h : TileHash} {k : TileId} {t : TextureTile}
    (hv : hashValue h k = some t) : (k, t) ∈ h := by
  induction h with
  | nil => simp [hashValue] at hv
  | cons e h ih =>
    by_cases he : e.1 = k
    · simp only [hashValue, he, if_true, Option.some.injEq] at hv
      have : e = (k, t) := Prod.ext he hv
      rw [this]; exact List.mem_cons_self _ _
    · simp only [hashValue, he, if_false] at hv
      exact List.mem_cons_of_mem _ (ih hv)

theorem used_tile_survives_cleanup {s : TileLoader} (hwf : HashWF s.m_tileHash)
    (hdis : KeysDisjoint s) (haddr : AddrWF s) {k : TileId} {t : TextureTile}
    (hv : hashValue s.m_tileHash k = some t) (hu : t.used = true) :
    hashValue (cleanupTilehash s).m_tileHash k = some t ∧
    k ∉ (cleanupTilehash s).m_tileCache.keys ∧
    t.addr ∉ deletedSince s (cleanupTilehash s) := by
  have h1 : hashValue (cleanupTilehash s).m_tileHash k = some t := by
    rw [cleanupTilehash_hash hwf]; exact hashValue_filter_used hv hu
  refine ⟨h1, ?_, ?_⟩
  · exact keysDisjoint_foldl_cleanup _ hdis k (mem_hashKeys_of_hashValue h1)
  · obtain ⟨D, hD, hsub⟩ := cleanup_fold_deleted_subset s.m_tileHash s
    have hds : deletedSince s (cleanupTilehash s) = D := deletedSince_of_append hD
    rw [hds]
    intro ha
    have hmem := mem_of_hashValue hv
    have hnd := haddr.1
    simp only [liveAddrs, List.nodup_append] at hnd
    obtain ⟨hh, _, hdisj⟩ := hnd
    have hta : t.addr ∈ s.m_tileHash.map (fun e => e.2.addr) :=
      List.mem_map.mpr ⟨(k, t), hmem, rfl⟩
    rcases hsub _ ha with h2 | h2
    · simp only [unusedAddrs, List.mem_map, List.mem_filter, decide_eq_true_eq] at h2
      obtain ⟨e, ⟨he, heu⟩, hea⟩ := h2
      have := List.inj_on_of_nodup_map hh he hmem hea
      rw [this] at heu
      simp only at heu
      rw [hu] at heu
      exact Bool.noConfusion heu
    · exact hdisj hta h2

end Marble

namespace Marble

open TileLoader

/-! ## Every reachable state is well-formed -/

theorem hashWF_filter {h : TileHash} (hwf : HashWF h) (p : TileId × TextureTile → Bool) :
    HashWF (h.filter p) :=
  List.Nodup.sublist ((List.filter_sublist h).map _) hwf

theorem addrWF_of_sublist {s s1 : TileLoader} (h : AddrWF s)
    (hs : (liveAddrs s1).Sublist (liveAddrs s)) (hn : s.nextAddr ≤ s1.nextAddr) : AddrWF s1 :=
  ⟨h.1.sublist hs, fun a ha => lt_of_lt_of_le (h.2 a (hs.subset ha)) hn⟩

theorem insert_nodeAddrs_sublist (q : QCache) (k : TileId) (obj : TextureTile) (cost : Int) :
    (nodeAddrs (q.insert k obj cost).cache.nodes).Sublist (nodeAddrs q.nodes ++ [obj.addr]) := by
  unfold QCache.insert
  by_cases hr : cost > q.mx
  · simp only [hr, if_true]
    exact (nodeAddrs_filter_sublist _ _).trans (List.sublist_append_left _ _)
  · simp only [hr, if_false, nodeAddrs, List.map_append, List.map_cons, List.map_nil]
    apply List.Sublist.append _ (List.Sublist.refl _)
    exact ((trimKeep_sublist _ _).trans (List.filter_sublist _)).map _

theorem addrWF_demote {s : TileLoader} (h : AddrWF s) {e : TileId × TextureTile}
    (he : e ∈ s.m_tileHash) : AddrWF (demote s e) := by
  obtain ⟨hnd, hlt⟩ := h
  have hnd0 := hnd
  simp only [liveAddrs, List.nodup_append] at hnd
  obtain ⟨hh, hc, hdisj⟩ := hnd
  have hea : e.2.addr ∈ s.m_tileHash.map (fun x => x.2.addr) := List.mem_map.mpr ⟨e, he, rfl⟩
  have hsubh : ((hashRemove e.1 s.m_tileHash).map (fun x => x.2.addr)).Sublist
      (s.m_tileHash.map (fun x => x.2.addr)) := (List.filter_sublist _).map _
  have hsubc := insert_nodeAddrs_sublist s.m_tileCache e.1 e.2 (e.2.numBytes : Int)
  have hnotin : e.2.addr ∉ (hashRemove e.1 s.m_tileHash).map (fun x => x.2.addr) := by
    intro hm
    simp only [hashRemove, List.mem_map, List.mem_filter, decide_eq_true_eq] at hm
    obtain ⟨m, ⟨hm1, hm2⟩, hm3⟩ := hm
    have := List.inj_on_of_nodup_map hh hm1 he hm3
    exact hm2 (by rw [this])
  have hcn : (nodeAddrs s.m_tileCache.nodes ++ [e.2.addr]).Nodup := by
    rw [List.nodup_append]
    refine ⟨hc, List.nodup_singleton _, ?_⟩
    intro a ha hb
    rw [List.mem_singleton] at hb
    rw [hb] at ha
    exact hdisj hea ha
  constructor
  · show (List.map (fun x => x.2.addr) (hashRemove e.1 s.m_tileHash) ++
      nodeAddrs (s.m_tileCache.insert e.1 e.2 (e.2.numBytes : Int)).cache.nodes).Nodup
    rw [List.nodup_append]
    refine ⟨hh.sublist hsubh, hcn.sublist hsubc, ?_⟩
    intro a ha hb
    have hb1 := hsubc.subset hb
    rcases List.mem_append.mp hb1 with h1 | h1
    · exact hdisj (hsubh.subset ha) h1
    · rw [List.mem_singleton] at h1
      rw [h1] at ha
      exact hnotin ha
  · intro a ha
    show a < s.nextAddr
    have ha1 : a ∈ List.map (fun x => x.2.addr) (hashRemove e.1 s.m_tileHash) ++
        nodeAddrs (s.m_tileCache.insert e.1 e.2 (e.2.numBytes : Int)).cache.nodes := ha
    rcases List.mem_append.mp ha1 with h1 | h1
    · exact hlt a (List.mem_append_left _ (hsubh.subset h1))
    · rcases List.mem_append.mp (hsubc.subset h1) with h2 | h2
      · exact hlt a (List.mem_append_right _ h2)
      · rw [List.mem_singleton] at h2
        rw [h2]
        exact hlt _ (List.mem_append_left _ hea)

theorem mem_hashRemove_of_ne {h : TileHash} {e : TileId × TextureTile} {k : TileId}
    (he : e ∈ h) (hne : e.1 ≠ k) : e ∈ hashRemove k h := by
  simp only [hashRemove, List.mem_filter, decide_eq_true_eq]
  exact ⟨he, hne⟩

theorem addrWF_fold (p : TileId × TextureTile → Bool) (l : TileHash) (acc : TileLoader)
    (hl : (hashKeys l).Nodup) (hmem : ∀ e ∈ l, e ∈ acc.m_tileHash) (h : AddrWF acc) :
    AddrWF (l.foldl (fun acc e => if p e = true then demote acc e else acc) acc) := by
  induction l generalizing acc with
  | nil => exact h
  | cons e l ih =>
    simp only [List.foldl_cons]
    simp only [hashKeys, List.map_cons, List.nodup_cons] at hl
    have hrest : ∀ x ∈ l, x ∈ acc.m_tileHash := fun x hx => hmem x (List.mem_cons_of_mem _ hx)
    by_cases hp : p e = true
    · rw [if_pos hp]
      apply ih _ hl.2
      · intro x hx
        apply mem_hashRemove_of_ne (hrest x hx)
        intro hxe
        exact hl.1 (List.mem_map.mpr ⟨x, hx, hxe⟩)
      · exact addrWF_demote h (hmem e (List.mem_cons_self _ _))
    · rw [if_neg hp]
      exact ih _ hl.2 hrest h

theorem addrWF_cleanupTilehash {s : TileLoader} (hwf : HashWF s.m_tileHash) (h : AddrWF s) :
    AddrWF (cleanupTilehash s) := by
  have := addrWF_fold (fun e => decide (e.2.used = false)) s.m_tileHash s hwf
    (fun e he => he) h
  simpa [cleanupTilehash] using this

theorem addrWF_foldl_demote {s : TileLoader} (hwf : HashWF s.m_tileHash) (h : AddrWF s) :
    AddrWF (s.m_tileHash.foldl demote s) := by
  have := addrWF_fold (fun _ => true) s.m_tileHash s hwf (fun e he => he) h
  simpa using this

theorem addrWF_flush {s : TileLoader} (hwf : HashWF s.m_tileHash) (h : AddrWF s) :
    AddrWF (flush s) := by
  refine addrWF_of_sublist (addrWF_foldl_demote hwf h) ?_ (le_refl _)
  simp only [flush, liveAddrs, List.map_nil, List.nil_append]
  exact List.sublist_append_right _ _

theorem addrWF_clearCache {s : TileLoader} (h : AddrWF s) : AddrWF (clearCache s) := by
  refine addrWF_of_sublist h ?_ (le_refl _)
  simp only [clearCache, QCache.clear, liveAddrs, nodeAddrs, List.map_nil, List.append_nil]
  exact List.sublist_append_left _ _

theorem hashWF_step {s : TileLoader} (h : HashWF s.m_tileHash) (op : Op) :
    HashWF (step s op).m_tileHash := by
  cases op with
  | loadTile tilx tily tileLevel now raw => exact hashWF_loadTile h _ _ _ _ _
  | resetTilehash => exact hashWF_resetTilehash h
  | cleanupTilehash =>
    simp only [step]
    rw [cleanupTilehash_hash h]
    exact hashWF_filter h _
  | flush => exact List.nodup_nil
  | reloadTile id raw =>
    simp only [step, TileLoader.reloadTile]
    cases hashValue s.m_tileHash id with
    | some tile => exact hashWF_hashInsert h _ _
    | none => exact h
  | update => exact List.nodup_nil
  | setVolatileCacheLimit kiloBytes => exact h
  | setTextureLayer layer => exact List.nodup_nil

theorem addrWF_step {s : TileLoader} (hwf : HashWF s.m_tileHash) (h : AddrWF s) (op : Op) :
    AddrWF (step s op) := by
  cases op with
  | loadTile tilx tily tileLevel now raw => exact addrWF_loadTile h _ _ _ _ _
  | resetTilehash => exact addrWF_resetTilehash h
  | cleanupTilehash => exact addrWF_cleanupTilehash hwf h
  | flush => exact addrWF_flush hwf h
  | reloadTile id raw =>
    simp only [step, TileLoader.reloadTile]
    cases hv : hashValue s.m_tileHash id with
    | some tile =>
      refine addrWF_of_sublist h ?_ (le_refl _)
      simp only [liveAddrs]
      rw [map_addr_hashInsert_of_some hv
        (show (tile.loadRawTile raw).addr = tile.addr from rfl)]
    | none =>
      refine addrWF_of_sublist h ?_ (le_refl _)
      simp only [liveAddrs]
      exact List.Sublist.append (List.Sublist.refl _) (nodeAddrs_filter_sublist _ _)
  | update => exact addrWF_clearCache (addrWF_flush hwf h)
  | setVolatileCacheLimit kiloBytes =>
    refine addrWF_of_sublist h ?_ (le_refl _)
    simp only [step, setVolatileCacheLimit, QCache.setMaxCost, liveAddrs]
    exact List.Sublist.append (List.Sublist.refl _) ((trimKeep_sublist _ _).map _)
  | setTextureLayer layer =>
    exact addrWF_of_sublist (addrWF_clearCache (addrWF_flush hwf h)) (List.Sublist.refl _)
      (le_refl _)

theorem wf_of_reachable {s : TileLoader} (h : Reachable s) :
    HashWF s.m_tileHash ∧ KeysDisjoint s ∧ AddrWF s := by
  induction h with
  | create layer =>
    refine ⟨List.nodup_nil, keysDisjoint_of_hash_nil rfl, List.nodup_nil, ?_⟩
    intro a ha
    simp [liveAddrs, TileLoader.create, nodeAddrs] at ha
  | step op _ ih =>
    exact ⟨hashWF_step ih.1 op, keysDisjoint_step ih.2.1 op, addrWF_step ih.1 ih.2.2 op⟩

end Marble

namespace Marble

open TileLoader

/-! ## C3: staleness on promotion -/

/-- C3: when `loadTile` finds the requested id in the recency cache only, it
returns the cached tile if and only if `created.secsTo( now ) < expire`; when
`now - created >= expire` the cached tile is deleted, its entry is gone from the
cache, it is not put into the active set, and the call returns a newly
constructed tile, which the active set then holds under the id. -/
theorem staleness_law (s : TileLoader) (tilx tily tileLevel now : Int) (raw : RawTile)
    (n : CacheNode) (hs : Reachable s)
    (hhash : hashValue s.m_tileHash ⟨tileLevel, tilx, tily⟩ = none)
    (hcache : s.m_tileCache.find ⟨tileLevel, tilx, tily⟩ = some n) :
    ((s.loadTile tilx tily tileLevel now raw).1.addr = n.t.addr ↔
        now - n.t.created < s.m_textureLayer.expire) ∧
    (now - n.t.created < s.m_textureLayer.expire →
        (s.loadTile tilx tily tileLevel now raw).1 = n.t.setUsed true) ∧
    (s.m_textureLayer.expire ≤ now - n.t.created →
        (s.loadTile tilx tily tileLevel now raw).1 =
          (TextureTile.new s.nextAddr ⟨tileLevel, tilx, tily⟩).loadRawTile raw ∧
        (s.loadTile tilx tily tileLevel now raw).2.m_tileCache.nodes =
          s.m_tileCache.nodes.filter (fun m => decide (m.key ≠ ⟨tileLevel, tilx, tily⟩)) ∧
        (⟨tileLevel, tilx, tily⟩ : TileId) ∉
          (s.loadTile tilx tily tileLevel now raw).2.m_tileCache.keys ∧
        (s.loadTile tilx tily tileLevel now raw).2.m_tileHash =
          hashInsert ⟨tileLevel, tilx, tily⟩ (s.loadTile tilx tily tileLevel now raw).1
            s.m_tileHash ∧
        hashValue (s.loadTile tilx tily tileLevel now raw).2.m_tileHash
            ⟨tileLevel, tilx, tily⟩ = some (s.loadTile tilx tily tileLevel now raw).1 ∧
        (s.loadTile tilx tily tileLevel now raw).2.deleted = s.deleted ++ [n.t.addr]) := by
  have halloc : n.t.addr < s.nextAddr := by
    apply (wf_of_reachable hs).2.2.2
    apply List.mem_append_right
    simp only [nodeAddrs, List.mem_map]
    exact ⟨n, (find_some_mem hcache).1, rfl⟩
  by_cases hf : now - n.t.created < s.m_textureLayer.expire
  · rw [loadTile_promote hhash hcache hf]
    refine ⟨⟨fun _ => hf, fun _ => rfl⟩, fun _ => rfl, fun h => ?_⟩
    omega
  · rw [loadTile_stale hhash hcache hf]
    refine ⟨⟨fun h => ?_, fun h => absurd h hf⟩, fun h => absurd h hf, fun _ => ?_⟩
    · simp only [loadFromDisk, TextureTile.loadRawTile, TextureTile.new] at h
      omega
    · refine ⟨rfl, ?_, ?_, rfl, ?_, rfl⟩
      · exact take_nodes _ _
      · exact not_mem_keys_take_self _ _
      · exact hashValue_hashInsert_self _ _ _

/-- The law at the cached tile of `mixedState`, created at second 10 under an
expiry of 100 seconds, requested at second 200: a new tile at address 2 is
returned and the cached one (address 1) is deleted. -/
theorem staleness_law_witness :
    Reachable mixedState ∧
    hashValue mixedState.m_tileHash ⟨3, 1, 0⟩ = none ∧
    mixedState.m_tileCache.find ⟨3, 1, 0⟩ = some mixedNode ∧
    ((mixedState.loadTile 1 0 3 200 rawB).1.addr = mixedNode.t.addr ↔
        200 - mixedNode.t.created < mixedState.m_textureLayer.expire) ∧
    (mixedState.loadTile 1 0 3 200 rawB).1.addr = 2 ∧
    (mixedState.loadTile 1 0 3 200 rawB).2.deleted = [1] :=
  ⟨reachable_run (Reachable.create layerA) opsMixed, by decide, by decide,
   (staleness_law mixedState 1 0 3 200 rawB mixedNode
     (reachable_run (Reachable.create layerA) opsMixed) (by decide) (by decide)).1,
   by decide, by decide⟩

/-! ## C4: two requests in one frame -/

theorem same_frame_requests_of_wf (s : TileLoader)
    (tilx tily tileLevel now1 : Int) (raw1 : RawTile) (now2 : Int) (raw2 : RawTile)
    (hwf : HashWF s.m_tileHash) (hdis : KeysDisjoint s) (haddr : AddrWF s) :
    (frameSecond s tilx tily tileLevel now1 raw1 now2 raw2).1.addr =
      (frameFirst s tilx tily tileLevel now1 raw1).1.addr ∧
    (frameSecond s tilx tily tileLevel now1 raw1 now2 raw2).1.used = true ∧
    hashValue (frameSecond s tilx tily tileLevel now1 raw1 now2 raw2).2.m_tileHash
      ⟨tileLevel, tilx, tily⟩ =
        some (frameSecond s tilx tily tileLevel now1 raw1 now2 raw2).1 ∧
    hashValue (frameEnd s tilx tily tileLevel now1 raw1 now2 raw2).m_tileHash
      ⟨tileLevel, tilx, tily⟩ =
        some (frameSecond s tilx tily tileLevel now1 raw1 now2 raw2).1 ∧
    (⟨tileLevel, tilx, tily⟩ : TileId) ∉
      (frameEnd s tilx tily tileLevel now1 raw1 now2 raw2).m_tileCache.keys ∧
    (frameSecond s tilx tily tileLevel now1 raw1 now2 raw2).1.addr ∉
      deletedSince (frameSecond s tilx tily tileLevel now1 raw1 now2 raw2).2
        (frameEnd s tilx tily tileLevel now1 raw1 now2 raw2) := by
  have hv1 := loadTile_hashValue_self (resetTilehash s) tilx tily tileLevel now1 raw1
  have hsecond : frameSecond s tilx tily tileLevel now1 raw1 now2 raw2 =
      ((frameFirst s tilx tily tileLevel now1 raw1).1.setUsed true,
       { (frameFirst s tilx tily tileLevel now1 raw1).2 with
         m_tileHash := hashInsert ⟨tileLevel, tilx, tily⟩
           ((frameFirst s tilx tily tileLevel now1 raw1).1.setUsed true)
           (frameFirst s tilx tily tileLevel now1 raw1).2.m_tileHash }) := by
    unfold frameSecond
    exact loadTile_hit hv1 now2 raw2
  have hv2 := loadTile_hashValue_self (frameFirst s tilx tily tileLevel now1 raw1).2
    tilx tily tileLevel now2 raw2
  have hu2 : (frameSecond s tilx tily tileLevel now1 raw1 now2 raw2).1.used = true := by
    rw [hsecond]; rfl
  have hwf2 : HashWF (frameSecond s tilx tily tileLevel now1 raw1 now2 raw2).2.m_tileHash :=
    hashWF_loadTile (hashWF_loadTile (hashWF_resetTilehash hwf) _ _ _ _ _) _ _ _ _ _
  have hdis2 : KeysDisjoint (frameSecond s tilx tily tileLevel now1 raw1 now2 raw2).2 :=
    keysDisjoint_loadTile (keysDisjoint_loadTile (keysDisjoint_resetTilehash hdis) _ _ _ _ _)
      _ _ _ _ _
  have haddr2 : AddrWF (frameSecond s tilx tily tileLevel now1 raw1 now2 raw2).2 :=
    addrWF_loadTile (addrWF_loadTile (addrWF_resetTilehash haddr) _ _ _ _ _) _ _ _ _ _
  obtain ⟨h1, h2, h3⟩ := used_tile_survives_cleanup hwf2 hdis2 haddr2 hv2 hu2
  refine ⟨?_, hu2, hv2, h1, h2, h3⟩
  rw [hsecond]; rfl

/-- C4: for every tile id and every state the loader can be in, after
`resetTilehash()` two consecutive `loadTile` calls for that id return the same
tile object; that tile is marked used after the second call; and a following
`cleanupTilehash()` leaves it in the active set: it is not moved to the cache
and it is not deleted. -/
theorem same_frame_requests_keep_tile (s : TileLoader)
    (tilx tily tileLevel now1 : Int) (raw1 : RawTile) (now2 : Int) (raw2 : RawTile)
    (hs : Reachable s) :
    (frameSecond s tilx tily tileLevel now1 raw1 now2 raw2).1.addr =
      (frameFirst s tilx tily tileLevel now1 raw1).1.addr ∧
    (frameSecond s tilx tily tileLevel now1 raw1 now2 raw2).1.used = true ∧
    hashValue (frameSecond s tilx tily tileLevel now1 raw1 now2 raw2).2.m_tileHash
      ⟨tileLevel, tilx, tily⟩ =
        some (frameSecond s tilx tily tileLevel now1 raw1 now2 raw2).1 ∧
    hashValue (frameEnd s tilx tily tileLevel now1 raw1 now2 raw2).m_tileHash
      ⟨tileLevel, tilx, tily⟩ =
        some (frameSecond s tilx tily tileLevel now1 raw1 now2 raw2).1 ∧
    (⟨tileLevel, tilx, tily⟩ : TileId) ∉
      (frameEnd s tilx tily tileLevel now1 raw1 now2 raw2).m_tileCache.keys ∧
    (frameSecond s tilx tily tileLevel now1 raw1 now2 raw2).1.addr ∉
      deletedSince (frameSecond s tilx tily tileLevel now1 raw1 now2 raw2).2
        (frameEnd s tilx tily tileLevel now1 raw1 now2 raw2) :=
  same_frame_requests_of_wf s tilx tily tileLevel now1 raw1 now2 raw2
    (wf_of_reachable hs).1 (wf_of_reachable hs).2.1 (wf_of_reachable hs).2.2

/-- The statement at `mixedState` for the cached tile `(3, 1, 0)`: the first
request promotes it, the second finds it active, the clean-up keeps it and
moves the other tile, now unused, to the cache. -/
theorem same_frame_requests_keep_tile_witness :
    Reachable mixedState ∧
    (frameSecond mixedState 1 0 3 50 rawB 51 rawB).1.addr =
      (frameFirst mixedState 1 0 3 50 rawB).1.addr ∧
    (frameSecond mixedState 1 0 3 50 rawB 51 rawB).1.addr = 1 ∧
    hashKeys (frameEnd mixedState 1 0 3 50 rawB 51 rawB).m_tileHash = [⟨3, 1, 0⟩] ∧
    (frameEnd mixedState 1 0 3 50 rawB 51 rawB).m_tileCache.keys = [⟨3, 0, 0⟩] :=
  ⟨reachable_run (Reachable.create layerA) opsMixed,
   (same_frame_requests_keep_tile mixedState 1 0 3 50 rawB 51 rawB
     (reachable_run (Reachable.create layerA) opsMixed)).1,
   by decide, by decide, by decide⟩

end Marble

namespace Marble

open TileLoader

/-! ## C11: the first incomplete level stops the probe -/

theorem columnLoop_false (files : TileFiles) (trylevel : Nat) (row maxColumn : Int) (n : Nat)
    (column : Int) : columnLoop files trylevel row maxColumn n column false = false := by
  cases n <;> simp [columnLoop]

theorem columnLoop_true_iff (files : TileFiles) (trylevel : Nat) (row maxColumn : Int) (n : Nat)
    (column : Int) :
    columnLoop files trylevel row maxColumn n column true = true ↔
      ∀ c : Int, column ≤ c → c < maxColumn → c < column + n → files trylevel c row = true := by
  induction n generalizing column with
  | zero =>
    simp only [columnLoop, true_iff]
    intro c h1 _ h3
    simp only [Nat.cast_zero, add_zero] at h3
    omega
  | succ n ih =>
    by_cases hlt : column < maxColumn
    · simp only [columnLoop, hlt, and_self, if_true]
      cases hf : files trylevel column row with
      | false =>
        rw [columnLoop_false]
        constructor
        · intro h; exact Bool.noConfusion h
        · intro h
          have := h column (le_refl _) hlt (by push_cast; omega)
          rw [hf] at this
          exact this
      | true =>
        rw [ih]
        constructor
        · intro h c h1 h2 h3
          by_cases hc : c = column
          · rw [hc]; exact hf
          · exact h c (by omega) h2 (by push_cast at h3; omega)
        · intro h c h1 h2 h3
          exact h c (by omega) h2 (by push_cast; omega)
    · simp only [columnLoop, hlt, and_false, if_false, true_iff]
      intro c h1 h2 _
      omega

theorem rowLoop_false (files : TileFiles) (layer : GeoSceneTexture) (trylevel : Nat)
    (maxRow : Int) (n : Nat) (row : Int) :
    rowLoop files layer trylevel maxRow n row false = false := by
  cases n <;> simp [rowLoop]

theorem columns_complete_iff (files : TileFiles) (trylevel : Nat) (row maxColumn : Int) :
    columnLoop files trylevel row maxColumn maxColumn.toNat 0 true = true ↔
      ∀ c : Int, 0 ≤ c → c < maxColumn → files trylevel c row = true := by
  rw [columnLoop_true_iff]
  constructor
  · intro h c h1 h2
    exact h c h1 h2 (by have := Int.self_le_toNat maxColumn; omega)
  · intro h c h1 h2 _
    exact h c h1 h2

theorem rowLoop_true_iff (files : TileFiles) (layer : GeoSceneTexture) (trylevel : Nat)
    (maxRow : Int) (n : Nat) (row : Int) :
    rowLoop files layer trylevel maxRow n row true = true ↔
      ∀ r : Int, row ≤ r → r < maxRow → r < row + n →
        ∀ c : Int, 0 ≤ c →
          c < TileLoaderHelper.levelToColumn layer.levelZeroColumns trylevel →
          files trylevel c r = true := by
  induction n generalizing row with
  | zero =>
    simp only [rowLoop, true_iff]
    intro r h1 _ h3
    simp only [Nat.cast_zero, add_zero] at h3
    omega
  | succ n ih =>
    by_cases hlt : row < maxRow
    · simp only [rowLoop, hlt, and_self, if_true]
      cases hf : columnLoop files trylevel row
          (TileLoaderHelper.levelToColumn layer.levelZeroColumns trylevel)
          (TileLoaderHelper.levelToColumn layer.levelZeroColumns trylevel).toNat 0 true with
      | false =>
        rw [rowLoop_false]
        constructor
        · intro h; exact Bool.noConfusion h
        · intro h
          have h1 := (columns_complete_iff files trylevel row _).mpr
            (h row (le_refl _) hlt (by push_cast; omega))
          rw [hf] at h1
          exact h1
      | true =>
        rw [ih]
        have hrow := (columns_complete_iff files trylevel row _).mp hf
        constructor
        · intro h r h1 h2 h3
          by_cases hr : r = row
          · rw [hr]; exact hrow
          · exact h r (by omega) h2 (by push_cast at h3; omega)
        · intro h r h1 h2 h3
          exact h r (by omega) h2 (by push_cast; omega)
    · simp only [rowLoop, hlt, and_false, if_false, true_iff]
      intro r h1 h2 _
      omega

theorem scanLevel_iff (files : TileFiles) (layer : GeoSceneTexture) (trylevel : Nat) :
    scanLevel files layer trylevel = true ↔ LevelComplete files layer trylevel := by
  unfold scanLevel LevelComplete
  rw [rowLoop_true_iff]
  constructor
  · intro h r c h1 h2 h3 h4
    exact h r h1 h2
      (by have := Int.self_le_toNat (TileLoaderHelper.levelToRow layer.levelZeroRows trylevel)
          omega) c h3 h4
  · intro h r h1 h2 _ c h3 h4
    exact h r c h1 h2 h3 h4

theorem levelLoop_complete_run (files : TileFiles) (layer : GeoSceneTexture) (d : Nat) :
    ∀ (t fuel : Nat) (tl : Int),
      (∀ l, t ≤ l → l < t + d → LevelComplete files layer l) →
      ¬ LevelComplete files layer (t + d) → d < fuel →
      levelLoop files layer fuel t tl = some (if d = 0 then tl else ((t + d : Nat) : Int) - 1) := by
  induction d with
  | zero =>
    intro t fuel tl _ hn hfuel
    cases fuel with
    | zero => omega
    | succ fuel =>
      have hs : ¬ scanLevel files layer t = true := fun h => hn ((scanLevel_iff _ _ _).mp h)
      simp only [levelLoop, if_neg hs, if_true]
  | succ d ih =>
    intro t fuel tl hbelow hn hfuel
    cases fuel with
    | zero => omega
    | succ fuel =>
      have hs : scanLevel files layer t = true :=
        (scanLevel_iff _ _ _).mpr (hbelow t (le_refl _) (by omega))
      simp only [levelLoop, if_pos hs]
      have hn1 : ¬ LevelComplete files layer (t + 1 + d) := by
        have e : t + 1 + d = t + (d + 1) := by omega
        rw [e]; exact hn
      rw [ih (t + 1) fuel (t : Int) (fun l h1 h2 => hbelow l (by omega) (by omega)) hn1
        (by omega)]
      have e : t + 1 + d = t + (d + 1) := by omega
      by_cases hd : d = 0
      · subst hd
        simp
      · simp only [hd, if_false, Nat.succ_ne_zero, e]

/-- C11: on a disk where level `n` is the lowest level with a tile file
missing (every tile file with `0 <= row < levelToRow`,
`0 <= column < levelToColumn` exists at the levels below `n`, one is missing at
level `n`), `maxCompleteTileLevel` returns `n - 1`, whatever the levels above
`n` hold; it returns `-1` exactly when a level-0 tile is missing. -/
theorem maxCompleteTileLevel_first_incomplete (files : TileFiles) (layer : GeoSceneTexture)
    (n fuel : Nat) (hbelow : ∀ l, l < n → LevelComplete files layer l)
    (hn : ¬ LevelComplete files layer n) (hfuel : n < fuel) :
    maxCompleteTileLevel fuel files layer = some ((n : Int) - 1) ∧
    (maxCompleteTileLevel fuel files layer = some (-1) ↔ ¬ LevelComplete files layer 0) := by
  have hrun : maxCompleteTileLevel fuel files layer = some ((n : Int) - 1) := by
    unfold maxCompleteTileLevel
    rw [levelLoop_complete_run files layer n 0 fuel (-1)
      (fun l _ h2 => hbelow l (by omega)) (by simpa using hn) hfuel]
    by_cases h0 : n = 0
    · subst h0; simp
    · simp [h0]
  refine ⟨hrun, ?_⟩
  rw [hrun]
  constructor
  · intro h
    have h0 : n = 0 := by
      have := Option.some.inj h
      omega
    subst h0
    exact hn
  · intro h
    have h0 : n = 0 := by
      by_contra hne
      exact h (hbelow 0 (Nat.pos_of_ne_zero hne))
    subst h0
    rfl

/-- The statement at the disk `filesGap` for the layer of two columns and one
row: level 0 is complete, level 1 is not, level 2 is; the probe returns 0. -/
theorem maxCompleteTileLevel_first_incomplete_witness :
    (∀ l, l < 1 → LevelComplete filesGap layerB l) ∧
    ¬ LevelComplete filesGap layerB 1 ∧
    LevelComplete filesGap layerB 2 ∧
    maxCompleteTileLevel 5 filesGap layerB = some 0 := by
  have h0 : ∀ l, l < 1 → LevelComplete filesGap layerB l := by
    intro l hl row column _ _ _ _
    have : l = 0 := by omega
    subst this
    rfl
  have h1 : ¬ LevelComplete filesGap layerB 1 := by
    intro h
    have := h 0 0 (le_refl _) (by decide) (le_refl _) (by decide)
    exact Bool.noConfusion this
  have h2 : LevelComplete filesGap layerB 2 := by
    intro row column _ _ _ _
    rfl
  exact ⟨h0, h1, h2,
    (maxCompleteTileLevel_first_incomplete filesGap layerB 1 5 h0 h1 (by decide)).1⟩

end Marble

namespace Marble

open ViewportParams

/-! ## The paths of `setPlanetAxis` -/

section Camera

variable {K : Type} [LinearOrderedField K]

theorem setPlanetAxis_of_in_range (env : ViewportEnv K) (s : ViewportParams K)
    (q : Quaternion K)
    (h : (currentProjection env s).traversableMaxLat = true ∨
      |q.pitch| ≤ (currentProjection env s).maxLat) :
    setPlanetAxis env s q = (true, adjustRegions { s with m_planetAxis := q }) := by
  have hc : ¬ ((currentProjection env s).traversableMaxLat = false ∧
      |q.pitch| > (currentProjection env s).maxLat) := by
    rintro ⟨h1, h2⟩
    rcases h with h | h
    · rw [h1] at h; exact Bool.noConfusion h
    · exact absurd h2 (not_lt.mpr h)
  simp only [setPlanetAxis, if_neg hc]

theorem setPlanetAxis_of_stored_in_range (env : ViewportEnv K) (s : ViewportParams K)
    (q : Quaternion K) (h1 : (currentProjection env s).traversableMaxLat = false)
    (h2 : |q.pitch| > (currentProjection env s).maxLat)
    (h3 : |env.normalizeLat (centerCoordinates env s).2| ≤ (currentProjection env s).maxLat) :
    setPlanetAxis env s q =
      (true, adjustRegions { s with m_planetAxis :=
          (Quaternion.createFromEuler (-(env.normalizeLat (centerCoordinates env s).2))
            (centerCoordinates env s).1 q.roll) }) := by
  have hc : (currentProjection env s).traversableMaxLat = false ∧
      |q.pitch| > (currentProjection env s).maxLat := ⟨h1, h2⟩
  have hn : ¬ |env.normalizeLat (centerCoordinates env s).2| >
      (currentProjection env s).maxLat := not_lt.mpr h3
  simp only [setPlanetAxis, if_pos hc, if_neg hn]

theorem setPlanetAxis_of_stored_beyond (env : ViewportEnv K) (s : ViewportParams K)
    (q : Quaternion K) (h1 : (currentProjection env s).traversableMaxLat = false)
    (h2 : |q.pitch| > (currentProjection env s).maxLat)
    (h3 : |env.normalizeLat (centerCoordinates env s).2| > (currentProjection env s).maxLat) :
    setPlanetAxis env s q =
      (false, adjustRegions { s with m_planetAxis :=
          (Quaternion.createFromEuler
            (-((currentProjection env s).maxLat * env.normalizeLat (centerCoordinates env s).2 /
              |env.normalizeLat (centerCoordinates env s).2|))
            (centerCoordinates env s).1 q.roll) }) := by
  have hc : (currentProjection env s).traversableMaxLat = false ∧
      |q.pitch| > (currentProjection env s).maxLat := ⟨h1, h2⟩
  simp only [setPlanetAxis, if_pos hc, if_pos h3]

theorem setPlanetAxis_projection (env : ViewportEnv K) (s : ViewportParams K)
    (q : Quaternion K) : (setPlanetAxis env s q).2.m_projection = s.m_projection := by
  unfold setPlanetAxis
  simp only
  split
  · split <;> rfl
  · rfl

theorem abs_clamped_eq {maxLat c : K} (hm : 0 ≤ maxLat) (hc : |c| > maxLat) :
    abs (maxLat * c / abs c) = maxLat := by
  have hpos : 0 < |c| := lt_of_le_of_lt hm hc
  rw [abs_div, abs_mul, abs_abs, abs_of_nonneg hm, mul_div_assoc, div_self (ne_of_gt hpos),
    mul_one]

theorem latitudeInRange_setPlanetAxis (env : ViewportEnv K)
    (hmax : ∀ p, (env.projections p).traversableMaxLat = false → 0 ≤ (env.projections p).maxLat)
    (s : ViewportParams K) (q : Quaternion K) :
    LatitudeInRange env (setPlanetAxis env s q).2 := by
  intro htrav
  have hproj : currentProjection env (setPlanetAxis env s q).2 = currentProjection env s := by
    unfold currentProjection
    rw [setPlanetAxis_projection]
  rw [hproj] at htrav ⊢
  by_cases h2 : |q.pitch| > (currentProjection env s).maxLat
  · by_cases h3 : |env.normalizeLat (centerCoordinates env s).2| >
        (currentProjection env s).maxLat
    · rw [setPlanetAxis_of_stored_beyond env s q htrav h2 h3]
      simp only [centerLatitude, adjustRegions, Quaternion.createFromEuler, neg_neg]
      exact le_of_eq (abs_clamped_eq (hmax _ htrav) h3)
    · rw [setPlanetAxis_of_stored_in_range env s q htrav h2 (not_lt.mp h3)]
      simp only [centerLatitude, adjustRegions, Quaternion.createFromEuler, neg_neg]
      exact not_lt.mp h3
  · rw [setPlanetAxis_of_in_range env s q (Or.inr (not_lt.mp h2))]
    simp only [centerLatitude, adjustRegions, abs_neg]
    exact not_lt.mp h2

end Camera

/-! ## C12 and C13: an out-of-range orientation -/

/-- C12, at the failing input: under the Mercator projection (maximum latitude
1.4844, not traversable), with the camera centred on latitude 0, the
orientation of pitch 3/2 is out of range and `setPlanetAxis` returns `true`:
the validity check reads the centre of the stored axis, not of the new one. -/
theorem setPlanetAxis_valid_for_out_of_range :
    (currentProjection envQ mercatorCamera).traversableMaxLat = false ∧
    |axisBeyond.pitch| > (currentProjection envQ mercatorCamera).maxLat ∧
    (setPlanetAxis envQ mercatorCamera axisBeyond).1 = true := by
  have h1 : (currentProjection envQ mercatorCamera).traversableMaxLat = false := rfl
  have h2 : |axisBeyond.pitch| > (currentProjection envQ mercatorCamera).maxLat := by
    have : |axisBeyond.pitch| = 3 / 2 := by
      simp only [axisBeyond]; exact abs_of_pos (by norm_num)
    rw [this]
    norm_num [currentProjection, envQ, mercatorCamera]
  have h3 : |envQ.normalizeLat (centerCoordinates envQ mercatorCamera).2| ≤
      (currentProjection envQ mercatorCamera).maxLat := by
    norm_num [currentProjection, envQ, mercatorCamera, centerCoordinates]
  refine ⟨h1, h2, ?_⟩
  rw [setPlanetAxis_of_stored_in_range envQ mercatorCamera axisBeyond h1 h2 h3]

/-- C13, at the failing input: under the Mercator projection, with the camera
centred on latitude 0 and longitude 1/2, `setPlanetAxis` for the out-of-range
orientation of pitch 3/2, yaw 1, roll 1/4 stores pitch 0, yaw 1/2, roll 1/4:
the latitude is the stored one, not the boundary, and the longitude is the
stored one, not the new one; only the roll is the new one. -/
theorem setPlanetAxis_keeps_stored_centre :
    (currentProjection envQ mercatorCamera).traversableMaxLat = false ∧
    |axisBeyond.pitch| > (currentProjection envQ mercatorCamera).maxLat ∧
    (setPlanetAxis envQ mercatorCamera axisBeyond).2.m_planetAxis = ⟨0, 1 / 2, 1 / 4⟩ ∧
    (setPlanetAxis envQ mercatorCamera axisBeyond).2.m_planetAxis.yaw ≠ axisBeyond.yaw ∧
    |centerLatitude (setPlanetAxis envQ mercatorCamera axisBeyond).2| ≠
      (currentProjection envQ mercatorCamera).maxLat := by
  have h1 : (currentProjection envQ mercatorCamera).traversableMaxLat = false := rfl
  have h2 : |axisBeyond.pitch| > (currentProjection envQ mercatorCamera).maxLat := by
    have : |axisBeyond.pitch| = 3 / 2 := by
      simp only [axisBeyond]; exact abs_of_pos (by norm_num)
    rw [this]
    norm_num [currentProjection, envQ, mercatorCamera]
  have h3 : |envQ.normalizeLat (centerCoordinates envQ mercatorCamera).2| ≤
      (currentProjection envQ mercatorCamera).maxLat := by
    norm_num [currentProjection, envQ, mercatorCamera, centerCoordinates]
  refine ⟨h1, h2, ?_⟩
  rw [setPlanetAxis_of_stored_in_range envQ mercatorCamera axisBeyond h1 h2 h3]
  norm_num [currentProjection, envQ, mercatorCamera, centerCoordinates, adjustRegions,
    Quaternion.createFromEuler, axisBeyond, centerLatitude]

/-! ## The camera latitude invariant in exact arithmetic -/

/-- In exact arithmetic (an ordered field standing for `qreal`): after
construction, after every call of `setPlanetAxis` and after
every call of `setProjection`, if the maximum latitude of the active projection
is not traversable, the centre latitude derived from the stored orientation
(minus its pitch) has absolute value at most the projection's `maxLat`; the
maximum latitude of a projection that is not traversable is taken to be
non-negative, and `createFromEuler( -lat, lon, roll )` to yield an orientation
whose pitch is `-lat`. -/
theorem camera_latitude_invariant {K : Type} [LinearOrderedField K] (env : ViewportEnv K)
    (hmax : ∀ p, (env.projections p).traversableMaxLat = false → 0 ≤ (env.projections p).maxLat)
    (s : ViewportParams K) (q : Quaternion K) (p : Projection) :
    LatitudeInRange env (create env) ∧
    LatitudeInRange env (setPlanetAxis env s q).2 ∧
    LatitudeInRange env (setProjection env s p) :=
  ⟨latitudeInRange_setPlanetAxis env hmax _ _, latitudeInRange_setPlanetAxis env hmax s q,
   latitudeInRange_setPlanetAxis env hmax _ _⟩

/-- The invariant for the rational environment: after a switch of the
constructed camera to Mercator, and after the out-of-range request on
`mercatorCamera`. -/
theorem camera_latitude_invariant_witness :
    (∀ p, (envQ.projections p).traversableMaxLat = false → 0 ≤ (envQ.projections p).maxLat) ∧
    LatitudeInRange envQ (setPlanetAxis envQ mercatorCamera axisBeyond).2 ∧
    LatitudeInRange envQ (setProjection envQ (create envQ) Projection.Mercator) := by
  have hmax : ∀ p, (envQ.projections p).traversableMaxLat = false →
      0 ≤ (envQ.projections p).maxLat := by
    intro p _
    cases p <;> norm_num [envQ]
  exact ⟨hmax,
    (camera_latitude_invariant envQ hmax mercatorCamera axisBeyond Projection.Mercator).2.1,
    (camera_latitude_invariant envQ hmax (create envQ) axisBeyond Projection.Mercator).2.2⟩

/-! ## C15: polarity -/

/-- C15: `polarity()` returns 0 whenever the forward transform reports both
poles as hidden by the globe, whatever screen positions it reports for them and
whatever the canvas height; and in every case its result is -1, 0 or +1. -/
theorem polarity_of_hidden_poles (globeHidesN globeHidesS : Bool) (yN yS height : Int) :
    polarity true true yN yS height = 0 ∧
    (polarity globeHidesN globeHidesS yN yS height = -1 ∨
      polarity globeHidesN globeHidesS yN yS height = 0 ∨
      polarity globeHidesN globeHidesS yN yS height = 1) := by
  constructor
  · simp [polarity]
  · unfold polarity
    simp only
    split
    · split
      · exact Or.inl rfl
      · split
        · exact Or.inr (Or.inr rfl)
        · exact Or.inr (Or.inl rfl)
    · split
      · exact Or.inl rfl
      · split
        · exact Or.inr (Or.inr rfl)
        · split
          · exact Or.inl rfl
          · split
            · exact Or.inr (Or.inr rfl)
            · exact Or.inr (Or.inl rfl)

end Marble

namespace Marble

open VerticalPerspectiveProjection

/-! ## The paths of the forward transform -/

section Forward

variable {K : Type} [LinearOrderedField K] [FloorRing K]

theorem toInt64_intCast (n : Int) : toInt64 ((n : Int) : K) = n := by
  unfold toInt64
  split
  · exact Int.floor_intCast n
  · exact Int.ceil_intCast n

theorem clipRadius_eq (viewport : Viewport K) : clipRadius viewport = viewport.radius := by
  unfold clipRadius clippingRadius
  rw [one_mul]
  exact toInt64_intCast _

theorem screenCoordinates_of_behind (m : QMath K) (coordinates : GeoDataCoordinates K)
    (viewport : Viewport K) (x y : K) (h : cosC m coordinates viewport < 1 / 5) :
    screenCoordinates false m coordinates viewport x y = some ⟨false, x, y, true, none⟩ := by
  simp only [screenCoordinates, Bool.false_eq_true, false_and, if_false, if_pos h]

theorem screenCoordinates_of_clipped (m : QMath K) (coordinates : GeoDataCoordinates K)
    (viewport : Viewport K) (x y : K) (h : ¬ cosC m coordinates viewport < 1 / 5)
    (hc : projectedX m coordinates viewport * projectedX m coordinates viewport +
        projectedY m coordinates viewport * projectedY m coordinates viewport >
      ((clipRadius viewport * clipRadius viewport : Int) : K)) :
    screenCoordinates false m coordinates viewport x y =
      some ⟨false, projectedX m coordinates viewport, projectedY m coordinates viewport, true,
        some (perspectiveFactor m coordinates viewport)⟩ := by
  simp only [screenCoordinates, Bool.false_eq_true, false_and, if_false, if_neg h, if_pos hc]

theorem screenCoordinates_isSome_k (m : QMath K) (coordinates : GeoDataCoordinates K)
    (viewport : Viewport K) (x y : K) (h : ¬ cosC m coordinates viewport < 1 / 5) :
    ∃ r, screenCoordinates false m coordinates viewport x y = some r ∧
      r.k = some (perspectiveFactor m coordinates viewport) ∧
      (r.globeHidesPoint = true → r.visible = false) := by
  simp only [screenCoordinates, Bool.false_eq_true, false_and, if_false, if_neg h]
  split
  · exact ⟨_, rfl, rfl, fun _ => rfl⟩
  · split
    · exact ⟨_, rfl, rfl, fun _ => rfl⟩
    · exact ⟨_, rfl, rfl, fun hh => Bool.noConfusion hh⟩

end Forward

/-! ## C16: a point behind the horizon -/

/-- C16: in a build without assertions, for every point and viewport with
`cosC < 1/P` (`P = 5`) the forward transform returns `false` with
`globeHidesPoint = true` and leaves `x` and `y` as they were; and the call
computes the perspective factor `k = (P - 1) / (P - cosC)` exactly when
`cosC >= 1/P`. -/
theorem screenCoordinates_behind_horizon {K : Type} [LinearOrderedField K] [FloorRing K]
    (m : QMath K) (coordinates : GeoDataCoordinates K) (viewport : Viewport K) (x y : K) :
    (cosC m coordinates viewport < 1 / 5 →
      screenCoordinates false m coordinates viewport x y = some ⟨false, x, y, true, none⟩) ∧
    (∀ r, screenCoordinates false m coordinates viewport x y = some r →
      (r.k ≠ none ↔ 1 / 5 ≤ cosC m coordinates viewport)) := by
  refine ⟨screenCoordinates_of_behind m coordinates viewport x y, fun r hr => ?_⟩
  by_cases h : cosC m coordinates viewport < 1 / 5
  · rw [screenCoordinates_of_behind m coordinates viewport x y h] at hr
    have hk : r.k = none := by rw [← Option.some.inj hr]
    rw [hk]
    constructor
    · intro hne; exact absurd rfl hne
    · intro hle; exact absurd h (not_lt.mpr hle)
  · obtain ⟨r1, hr1, hk, _⟩ := screenCoordinates_isSome_k m coordinates viewport x y h
    rw [hr] at hr1
    have : r = r1 := Option.some.inj hr1
    rw [this, hk]
    constructor
    · intro _; exact not_lt.mp h
    · intro _ hn; exact Option.noConfusion hn

theorem cosC_antipode : cosC realMath antipode viewportR = -1 := by
  simp [cosC, realMath, antipode, viewportR]

/-- The statement over the reals for the point opposite the centre, where
`cosC = -1`: the call returns `false`, reports the point hidden and leaves the
caller's `x = 7`, `y = 9`. -/
theorem screenCoordinates_behind_horizon_witness :
    cosC realMath antipode viewportR < 1 / 5 ∧
    screenCoordinates false realMath antipode viewportR 7 9 = some ⟨false, 7, 9, true, none⟩ := by
  have h : cosC realMath antipode viewportR < 1 / 5 := by
    rw [cosC_antipode]; norm_num
  exact ⟨h, (screenCoordinates_behind_horizon realMath antipode viewportR 7 9).1 h⟩

/-! ## C17: the clipping radius -/

/-- C17: `clippingRadius()` is 1, and in a build without assertions the forward
transform reports no point beyond it as visible: for every point whose
projected offset `(x, y)` from the canvas centre has
`x^2 + y^2 > (clippingRadius() * radius)^2`, the call returns `false` with
`globeHidesPoint = true`. -/
theorem screenCoordinates_beyond_clippingRadius {K : Type} [LinearOrderedField K]
    [FloorRing K] (m : QMath K) (coordinates : GeoDataCoordinates K) (viewport : Viewport K)
    (x y : K) :
    (clippingRadius : K) = 1 ∧
    (projectedX m coordinates viewport ^ 2 + projectedY m coordinates viewport ^ 2 >
        ((clippingRadius : K) * (viewport.radius : K)) ^ 2 →
      ∃ r, screenCoordinates false m coordinates viewport x y = some r ∧
        r.visible = false ∧ r.globeHidesPoint = true) := by
  refine ⟨rfl, fun hc => ?_⟩
  by_cases h : cosC m coordinates viewport < 1 / 5
  · exact ⟨_, screenCoordinates_of_behind m coordinates viewport x y h, rfl, rfl⟩
  · refine ⟨_, screenCoordinates_of_clipped m coordinates viewport x y h ?_, rfl, rfl⟩
    rw [clipRadius_eq]
    simp only [clippingRadius, one_mul] at hc
    push_cast
    nlinarith [hc]

end Marble

namespace Marble

open VerticalPerspectiveProjection

theorem cosC_horizonPoint : cosC realMath horizonPoint viewportR = 1 / 5 := by
  have h : Real.cos (Real.arccos (1 / 5)) = 1 / 5 :=
    Real.cos_arccos (by norm_num) (by norm_num)
  simp only [cosC, realMath, horizonPoint, viewportR, sub_zero, h, Real.sin_zero,
    Real.cos_zero]
  norm_num

theorem projectedX_horizonPoint :
    projectedX realMath horizonPoint viewportR =
      Real.sqrt (24 / 25) * (5 / 6) * (400 / Real.pi) := by
  have hs : Real.sin (Real.arccos (1 / 5)) = Real.sqrt (24 / 25) := by
    rw [Real.sin_arccos]; norm_num
  have hk : perspectiveFactor realMath horizonPoint viewportR = 5 / 6 := by
    unfold perspectiveFactor
    rw [cosC_horizonPoint]; norm_num
  have hw : wrapInt32 (4 * viewportR.radius) = 400 := by decide
  unfold projectedX
  rw [hk, hw]
  simp only [realMath, horizonPoint, viewportR, sub_zero, hs, Real.cos_zero, one_mul]
  norm_num

theorem projectedY_horizonPoint : projectedY realMath horizonPoint viewportR = 0 := by
  simp [projectedY, realMath, horizonPoint, viewportR]

/-- The statement over the reals for a point on the horizon of the
perspective: its offset from the centre is about 1.04 times the radius, beyond
the clipping radius, and the call reports it hidden. -/
theorem screenCoordinates_beyond_clippingRadius_witness :
    projectedX realMath horizonPoint viewportR ^ 2 +
        projectedY realMath horizonPoint viewportR ^ 2 >
      ((clippingRadius : ℝ) * (viewportR.radius : ℝ)) ^ 2 ∧
    ∃ r, screenCoordinates false realMath horizonPoint viewportR 0 0 = some r ∧
      r.visible = false ∧ r.globeHidesPoint = true := by
  have hc : projectedX realMath horizonPoint viewportR ^ 2 +
        projectedY realMath horizonPoint viewportR ^ 2 >
      ((clippingRadius : ℝ) * (viewportR.radius : ℝ)) ^ 2 := by
    rw [projectedX_horizonPoint, projectedY_horizonPoint]
    have hpi := Real.pi_lt_d2
    have hpos := Real.pi_pos
    have hsq : Real.sqrt (24 / 25) ^ 2 = 24 / 25 := Real.sq_sqrt (by norm_num)
    have e : (Real.sqrt (24 / 25) * (5 / 6) * (400 / Real.pi)) ^ 2 =
        (24 / 25) * (25 / 36) * (160000 / Real.pi ^ 2) := by
      have e1 : (Real.sqrt (24 / 25) * (5 / 6) * (400 / Real.pi)) ^ 2 =
          Real.sqrt (24 / 25) ^ 2 * ((5 / 6) * (400 / Real.pi)) ^ 2 := by ring
      rw [e1, hsq]
      field_simp
      ring
    rw [e]
    simp only [clippingRadius, viewportR, one_mul]
    have hpi2 : Real.pi ^ 2 < 10 := by nlinarith
    have hpos2 : 0 < Real.pi ^ 2 := by positivity
    rw [gt_iff_lt, show ((0:ℝ)) ^ 2 = 0 from by norm_num, add_zero]
    rw [show (24 / 25 : ℝ) * (25 / 36) * (160000 / Real.pi ^ 2) =
      (320000 / 3) / Real.pi ^ 2 from by field_simp; ring]
    rw [lt_div_iff₀ hpos2]
    push_cast
    nlinarith
  exact ⟨hc, (screenCoordinates_beyond_clippingRadius realMath horizonPoint viewportR 0 0).2 hc⟩

/-! ## C18: the wrapped forward transform -/

/-- C18, as stated, fails: over the reals, for the point opposite the centre of
`viewportR` (which the globe hides) and a caller whose `x` and `y` hold 0
before the call, the wrapped transform returns `false` and reports
`globeHidesPoint = true` but `pointRepeatNum = 1`: the plain transform left `x`
and `y` untouched, and the position (0, 0) passes the test for the screen
area. -/
theorem hidden_point_reported_once :
    cosC realMath antipode viewportR < 1 / 5 ∧
    screenCoordinatesRepeat false realMath antipode viewportR 0 0 pointSize =
      some ⟨false, 0, 0, 1, true⟩ := by
  have h : cosC realMath antipode viewportR < 1 / 5 := by
    rw [cosC_antipode]; norm_num
  refine ⟨h, ?_⟩
  have hoff : ¬ offScreen viewportR pointSize 0 0 := by
    unfold offScreen
    norm_num [viewportR, pointSize]
  simp only [screenCoordinatesRepeat,
    screenCoordinates_of_behind realMath antipode viewportR 0 0 h, if_neg hoff]

/-- C18, amended: in a build without assertions, `pointRepeatNum` is 0 or 1;
for every point the globe hides the wrapped transform returns `false`;
`pointRepeatNum` is 0 exactly when the position the plain transform left in `x`
and `y` is off the screen area widened by half the footprint, and 1 otherwise,
for a hidden point too; for a point behind the horizon (`cosC < 1/P`) that
position is what the caller's `x` and `y` held before the call. -/
theorem screenCoordinatesRepeat_count {K : Type} [LinearOrderedField K] [FloorRing K]
    (m : QMath K) (coordinates : GeoDataCoordinates K) (viewport : Viewport K) (x y : K)
    (size : QSizeF K) :
    ∃ r, screenCoordinatesRepeat false m coordinates viewport x y size = some r ∧
      (r.pointRepeatNum = 0 ∨ r.pointRepeatNum = 1) ∧
      (r.globeHidesPoint = true → r.visible = false) ∧
      (r.pointRepeatNum = 0 ↔ offScreen viewport size r.x r.y) ∧
      (cosC m coordinates viewport < 1 / 5 →
        r.globeHidesPoint = true ∧ r.x = x ∧ r.y = y) := by
  by_cases h : cosC m coordinates viewport < 1 / 5
  · simp only [screenCoordinatesRepeat, screenCoordinates_of_behind m coordinates viewport x y h]
    by_cases hoff : offScreen viewport size x y
    · rw [if_pos hoff]
      exact ⟨_, rfl, Or.inl rfl, fun _ => rfl, ⟨fun _ => hoff, fun _ => rfl⟩,
        fun _ => ⟨rfl, rfl, rfl⟩⟩
    · rw [if_neg hoff]
      refine ⟨_, rfl, Or.inr rfl, fun _ => rfl, ⟨fun h0 => ?_, fun h1 => absurd h1 hoff⟩,
        fun _ => ⟨rfl, rfl, rfl⟩⟩
      exact absurd h0 one_ne_zero
  · obtain ⟨r1, hr1, _, hvis⟩ := screenCoordinates_isSome_k m coordinates viewport x y h
    simp only [screenCoordinatesRepeat, hr1]
    by_cases hoff : offScreen viewport size r1.x r1.y
    · rw [if_pos hoff]
      exact ⟨_, rfl, Or.inl rfl, fun _ => rfl, ⟨fun _ => hoff, fun _ => rfl⟩,
        fun hh => absurd hh h⟩
    · rw [if_neg hoff]
      refine ⟨_, rfl, Or.inr rfl, hvis, ⟨fun h0 => ?_, fun h1 => absurd h1 hoff⟩,
        fun hh => absurd hh h⟩
      exact absurd h0 one_ne_zero

end Marble

namespace Marble

open VerticalPerspectiveProjection

/-! ## The inverse transform returns -/

section Inverse

variable {K : Type} [LinearOrderedField K]

theorem raiseLon_of_steps (m : QMath K) (n : Nat) :
    ∀ (lon : K), -m.M_PI ≤ lon + (n : K) * (2 * m.M_PI) →
      ∀ fuel, n ≤ fuel → ∃ l, raiseLon m fuel lon = some l := by
  induction n with
  | zero =>
    intro lon h fuel _
    have hlon : ¬ lon < -m.M_PI := by
      simp only [Nat.cast_zero, zero_mul, add_zero] at h
      exact not_lt.mpr h
    cases fuel with
    | zero => exact ⟨lon, by simp only [raiseLon, if_neg hlon]⟩
    | succ fuel => exact ⟨lon, by simp only [raiseLon, if_neg hlon]⟩
  | succ n ih =>
    intro lon h fuel hfuel
    cases fuel with
    | zero => omega
    | succ fuel =>
      by_cases hlon : lon < -m.M_PI
      · simp only [raiseLon, if_pos hlon]
        apply ih (lon + 2 * m.M_PI) _ fuel (by omega)
        have e : lon + 2 * m.M_PI + (n : K) * (2 * m.M_PI) =
            lon + ((n + 1 : Nat) : K) * (2 * m.M_PI) := by push_cast; ring
        rw [e]; exact h
      · exact ⟨lon, by simp only [raiseLon, if_neg hlon]⟩

theorem lowerLon_of_steps (m : QMath K) (n : Nat) :
    ∀ (lon : K), lon - (n : K) * (2 * m.M_PI) ≤ m.M_PI →
      ∀ fuel, n ≤ fuel → ∃ l, lowerLon m fuel lon = some l := by
  induction n with
  | zero =>
    intro lon h fuel _
    have hlon : ¬ lon > m.M_PI := by
      simp only [Nat.cast_zero, zero_mul, sub_zero] at h
      exact not_lt.mpr h
    cases fuel with
    | zero => exact ⟨lon, by simp only [lowerLon, if_neg hlon]⟩
    | succ fuel => exact ⟨lon, by simp only [lowerLon, if_neg hlon]⟩
  | succ n ih =>
    intro lon h fuel hfuel
    cases fuel with
    | zero => omega
    | succ fuel =>
      by_cases hlon : lon > m.M_PI
      · simp only [lowerLon, if_pos hlon]
        apply ih (lon - 2 * m.M_PI) _ fuel (by omega)
        have e : lon - 2 * m.M_PI - (n : K) * (2 * m.M_PI) =
            lon - ((n + 1 : Nat) : K) * (2 * m.M_PI) := by push_cast; ring
        rw [e]; exact h
      · exact ⟨lon, by simp only [lowerLon, if_neg hlon]⟩

theorem raiseLon_returns [Archimedean K] (m : QMath K) (hpi : 0 < m.M_PI) (lon : K) :
    ∃ n, ∀ fuel, n ≤ fuel → ∃ l, raiseLon m fuel lon = some l := by
  obtain ⟨n, hn⟩ := exists_nat_gt ((-m.M_PI - lon) / (2 * m.M_PI))
  refine ⟨n, raiseLon_of_steps m n lon ?_⟩
  have h2 : 0 < 2 * m.M_PI := by linarith
  rw [div_lt_iff₀ h2] at hn
  linarith

theorem lowerLon_returns [Archimedean K] (m : QMath K) (hpi : 0 < m.M_PI) (lon : K) :
    ∃ n, ∀ fuel, n ≤ fuel → ∃ l, lowerLon m fuel lon = some l := by
  obtain ⟨n, hn⟩ := exists_nat_gt ((lon - m.M_PI) / (2 * m.M_PI))
  refine ⟨n, lowerLon_of_steps m n lon ?_⟩
  have h2 : 0 < 2 * m.M_PI := by linarith
  rw [div_lt_iff₀ h2] at hn
  linarith

theorem raiseLon_mono (m : QMath K) (fuel : Nat) :
    ∀ (lon l : K), raiseLon m fuel lon = some l → raiseLon m (fuel + 1) lon = some l := by
  induction fuel with
  | zero =>
    intro lon l h
    by_cases hlon : lon < -m.M_PI
    · simp only [raiseLon, if_pos hlon] at h
      exact Option.noConfusion h
    · simp only [raiseLon, if_neg hlon] at h ⊢
      exact h
  | succ fuel ih =>
    intro lon l h
    by_cases hlon : lon < -m.M_PI
    · rw [raiseLon, if_pos hlon] at h
      rw [raiseLon, if_pos hlon]
      exact ih _ _ h
    · rw [raiseLon, if_neg hlon] at h
      rw [raiseLon, if_neg hlon]
      exact h

theorem raiseLon_mono_le (m : QMath K) {fuel fuel1 : Nat} (hle : fuel ≤ fuel1) (lon l : K)
    (h : raiseLon m fuel lon = some l) : raiseLon m fuel1 lon = some l := by
  induction hle with
  | refl => exact h
  | step _ ih => exact raiseLon_mono m _ lon l ih

theorem geoCoordinates_returns [Archimedean K] (m : QMath K) (hpi : 0 < m.M_PI)
    (x y : Int) (viewport : Viewport K) (lon lat : K) (unit : GeoUnit) :
    ∃ n, ∀ fuel, n ≤ fuel → ∃ r, geoCoordinates fuel m x y viewport lon lat unit = some r ∧
      (r.ok = false ↔ domainValue m viewport x y > 1) := by
  by_cases hd : domainValue m viewport x y > 1
  · refine ⟨0, fun fuel _ => ⟨⟨false, lon, lat⟩, ?_, ?_⟩⟩
    · simp only [geoCoordinates, if_pos hd]
    · exact ⟨fun _ => hd, fun _ => rfl⟩
  · obtain ⟨n1, h1⟩ := raiseLon_returns m hpi (rawLongitude m viewport x y)
    obtain ⟨l1, hl1⟩ := h1 n1 (le_refl _)
    obtain ⟨n2, h2⟩ := lowerLon_returns m hpi l1
    refine ⟨max n1 n2, fun fuel hfuel => ?_⟩
    have hl1f : raiseLon m fuel (rawLongitude m viewport x y) = some l1 :=
      raiseLon_mono_le m (le_trans (le_max_left _ _) hfuel) _ _ hl1
    obtain ⟨l2, hl2⟩ := h2 fuel (le_trans (le_max_right _ _) hfuel)
    simp only [geoCoordinates, if_neg hd, hl1f, hl2]
    by_cases hu : unit = GeoUnit.Degree
    · rw [if_pos hu]
      exact ⟨_, rfl, ⟨fun h => Bool.noConfusion h, fun h => absurd h hd⟩⟩
    · rw [if_neg hu]
      exact ⟨_, rfl, ⟨fun h => Bool.noConfusion h, fun h => absurd h hd⟩⟩

/-! ## The domain of the inverse transform -/

theorem wrapInt32_of_range {n : Int} (h1 : -2 ^ 31 ≤ n) (h2 : n < 2 ^ 31) : wrapInt32 n = n := by
  unfold wrapInt32
  omega

theorem pDist_sq (m : QMath K)
    (hsqrt : ∀ a : K, 0 ≤ a → 0 ≤ m.qSqrt a ∧ m.qSqrt a * m.qSqrt a = a)
    (viewport : Viewport K) (x y : Int) :
    (2 / 3 < pDist m viewport x y * pDist m viewport x y) ↔
      2 / 3 < rx m viewport x * rx m viewport x + ry m viewport y * ry m viewport y := by
  have hnn : 0 ≤ rx m viewport x * rx m viewport x + ry m viewport y * ry m viewport y := by
    nlinarith [mul_self_nonneg (rx m viewport x), mul_self_nonneg (ry m viewport y)]
  obtain ⟨hs0, hs2⟩ := hsqrt _ hnn
  unfold pDist
  by_cases hc : (1 / 10000 : K) ≤
      m.qSqrt (rx m viewport x * rx m viewport x + ry m viewport y * ry m viewport y)
  · rw [max_eq_left hc, hs2]
  · have hc1 := not_le.mp hc
    rw [max_eq_right (le_of_lt hc1)]
    constructor
    · intro h
      norm_num at h
    · intro h
      rw [← hs2] at h
      nlinarith

theorem domainValue_gt_one_iff (m : QMath K)
    (hsqrt : ∀ a : K, 0 ≤ a → 0 ≤ m.qSqrt a ∧ m.qSqrt a * m.qSqrt a = a)
    (viewport : Viewport K) (hr : 0 < viewport.radius) (hr2 : viewport.radius < 2 ^ 30)
    (x y : Int) :
    domainValue m viewport x y > 1 ↔
      32 * (viewport.radius : K) ^ 2 <
        3 * m.M_PI ^ 2 * ((centreDistanceSq viewport x y : Int) : K) := by
  have hrad : radius2 viewport = 2 * viewport.radius := by
    unfold radius2
    exact wrapInt32_of_range (by omega) (by omega)
  have hrK : (0 : K) < (viewport.radius : K) := by exact_mod_cast hr
  have hrp : rad2Pixel m viewport = 4 * (viewport.radius : K) / m.M_PI := by
    unfold rad2Pixel
    rw [hrad]
    push_cast
    ring
  have hrx : rx m viewport x = (pixelX viewport x : K) * m.M_PI / (4 * (viewport.radius : K)) := by
    unfold rx
    rw [hrp]
    field_simp
  have hry : ry m viewport y = (pixelY viewport y : K) * m.M_PI / (4 * (viewport.radius : K)) := by
    unfold ry
    rw [hrp]
    field_simp
  have hdv : domainValue m viewport x y > 1 ↔
      2 / 3 < pDist m viewport x y * pDist m viewport x y := by
    unfold domainValue
    constructor
    · intro h
      have : (5 - 1 : K) = 4 := by norm_num
      rw [gt_iff_lt, this, lt_div_iff₀ (by norm_num)] at h
      linarith
    · intro h
      have : (5 - 1 : K) = 4 := by norm_num
      rw [gt_iff_lt, this, lt_div_iff₀ (by norm_num)]
      linarith
  rw [hdv, pDist_sq m hsqrt, hrx, hry]
  have hden : (0 : K) < (4 * (viewport.radius : K)) * (4 * (viewport.radius : K)) := by positivity
  have e : (pixelX viewport x : K) * m.M_PI / (4 * (viewport.radius : K)) *
        ((pixelX viewport x : K) * m.M_PI / (4 * (viewport.radius : K))) +
      (pixelY viewport y : K) * m.M_PI / (4 * (viewport.radius : K)) *
        ((pixelY viewport y : K) * m.M_PI / (4 * (viewport.radius : K))) =
      (m.M_PI ^ 2 * ((centreDistanceSq viewport x y : Int) : K)) /
        ((4 * (viewport.radius : K)) * (4 * (viewport.radius : K))) := by
    unfold centreDistanceSq
    push_cast
    field_simp
    ring
  rw [e, lt_div_iff₀ hden]
  constructor <;> intro h <;> nlinarith

end Inverse

end Marble

namespace Marble

open VerticalPerspectiveProjection

/-! ## C19: where the inverse transform fails -/

theorem realMath_sqrt (a : ℝ) (ha : 0 ≤ a) :
    0 ≤ realMath.qSqrt a ∧ realMath.qSqrt a * realMath.qSqrt a = a :=
  ⟨Real.sqrt_nonneg a, Real.mul_self_sqrt ha⟩

theorem realMath_pi_sq_lt : realMath.M_PI ^ 2 < 10 := by
  have h1 := Real.pi_lt_d2
  have h2 := Real.pi_pos
  show Real.pi ^ 2 < 10
  nlinarith

/-- C19, as stated, fails: over the reals, on the viewport of radius 100 the
pixel 102 to the right of the canvas centre lies beyond the disk of radius
`clippingRadius() * radius`, and `geoCoordinates` returns `true` for it: its
domain check `p*p*(P+1)/(P-1) > 1` sets in at about 1.04 times the radius. -/
theorem geoCoordinates_accepts_beyond_clippingRadius :
    ((centreDistanceSq viewportR 252 150 : Int) : ℝ) >
      ((clippingRadius : ℝ) * (viewportR.radius : ℝ)) ^ 2 ∧
    ∃ fuel r, geoCoordinates fuel realMath 252 150 viewportR 0 0 GeoUnit.Radian = some r ∧
      r.ok = true := by
  have hd : centreDistanceSq viewportR 252 150 = 10404 := by decide
  constructor
  · rw [hd]
    norm_num [clippingRadius, viewportR]
  · obtain ⟨n, hn⟩ := geoCoordinates_returns realMath Real.pi_pos 252 150 viewportR 0 0
      GeoUnit.Radian
    obtain ⟨r, hr, hok⟩ := hn n (le_refl _)
    refine ⟨n, r, hr, ?_⟩
    have hnot : ¬ domainValue realMath viewportR 252 150 > 1 := by
      rw [domainValue_gt_one_iff realMath realMath_sqrt viewportR (by decide) (by decide), hd]
      have := realMath_pi_sq_lt
      norm_num [viewportR]
      nlinarith
    cases hb : r.ok with
    | true => rfl
    | false => exact absurd (hok.mp hb) hnot

/-- C19, amended: for every viewport with `0 < radius < 2^30` and every pixel,
`geoCoordinates` returns, and it returns `false` exactly when
`3 * pi^2 * d^2 > 32 * radius^2`, `d` the distance of the pixel from the canvas
centre (`d` above about 1.04 times the radius, the horizon of the perspective);
so it returns `true` on the whole disk of radius `clippingRadius() * radius`,
and on the ring beyond it up to that distance as well. The square root and pi
are taken with their exact meaning (`pi^2 <= 10`). -/
theorem geoCoordinates_domain {K : Type} [LinearOrderedField K] [Archimedean K] (m : QMath K)
    (hpi : 0 < m.M_PI) (hpi2 : m.M_PI ^ 2 ≤ 10)
    (hsqrt : ∀ a : K, 0 ≤ a → 0 ≤ m.qSqrt a ∧ m.qSqrt a * m.qSqrt a = a)
    (viewport : Viewport K) (hr : 0 < viewport.radius) (hr2 : viewport.radius < 2 ^ 30)
    (x y : Int) (lon lat : K) (unit : GeoUnit) :
    ∃ n, ∀ fuel, n ≤ fuel →
      ∃ r, geoCoordinates fuel m x y viewport lon lat unit = some r ∧
        (r.ok = false ↔
          32 * (viewport.radius : K) ^ 2 <
            3 * m.M_PI ^ 2 * ((centreDistanceSq viewport x y : Int) : K)) ∧
        (centreDistanceSq viewport x y ≤ viewport.radius * viewport.radius → r.ok = true) := by
  obtain ⟨n, hn⟩ := geoCoordinates_returns m hpi x y viewport lon lat unit
  refine ⟨n, fun fuel hfuel => ?_⟩
  obtain ⟨r, hres, hok⟩ := hn fuel hfuel
  have hiff := domainValue_gt_one_iff m hsqrt viewport hr hr2 x y
  refine ⟨r, hres, hok.trans hiff, fun hle => ?_⟩
  cases hb : r.ok with
  | true => rfl
  | false =>
    have h1 := (hok.trans hiff).mp hb
    have h2 : ((centreDistanceSq viewport x y : Int) : K) ≤ (viewport.radius : K) ^ 2 := by
      have : ((centreDistanceSq viewport x y : Int) : K) ≤
          ((viewport.radius * viewport.radius : Int) : K) := by exact_mod_cast hle
      rw [pow_two]
      push_cast at this
      exact this
    have hrK : (0 : K) ≤ (viewport.radius : K) ^ 2 := by positivity
    have hpi0 : (0 : K) ≤ m.M_PI ^ 2 := by positivity
    nlinarith

/-- The amended statement over the reals on the viewport of radius 100: the
call returns `false` for the pixel 105 to the right of the canvas centre. -/
theorem geoCoordinates_domain_witness :
    0 < realMath.M_PI ∧ realMath.M_PI ^ 2 ≤ 10 ∧
    (0 : Int) < viewportR.radius ∧ viewportR.radius < 2 ^ 30 ∧
    ∃ n, ∀ fuel, n ≤ fuel →
      ∃ r, geoCoordinates fuel realMath 255 150 viewportR 0 0 GeoUnit.Radian = some r ∧
        r.ok = false := by
  refine ⟨Real.pi_pos, le_of_lt realMath_pi_sq_lt, by decide, by decide, ?_⟩
  obtain ⟨n, hn⟩ := geoCoordinates_domain realMath Real.pi_pos (le_of_lt realMath_pi_sq_lt)
    realMath_sqrt viewportR (by decide) (by decide) 255 150 0 0 GeoUnit.Radian
  refine ⟨n, fun fuel hfuel => ?_⟩
  obtain ⟨r, hres, hiff, _⟩ := hn fuel hfuel
  refine ⟨r, hres, hiff.mpr ?_⟩
  have hd : centreDistanceSq viewportR 255 150 = 11025 := by decide
  have h1 := Real.pi_gt_d2
  have h2 : (98 / 10 : ℝ) < realMath.M_PI ^ 2 := by
    show (98 / 10 : ℝ) < Real.pi ^ 2
    nlinarith
  rw [hd]
  norm_num [viewportR]
  nlinarith

end Marble

namespace Marble

open ViewportParams

/-! ## C23: the two cached regions are recomputed together -/

section RegionCalls

theorem pairedCalls_append {K : Type} :
    ∀ (a b : List (RegionCall K)), PairedCalls a → PairedCalls b → PairedCalls (a ++ b)
  | [], _, _, hb => hb
  | [_], _, ha, _ => False.elim ha
  | _ :: _ :: rest, b, ha, hb => ⟨ha.1, ha.2.1, pairedCalls_append rest b ha.2.2 hb⟩

theorem pairedCalls_pair {K : Type} (s : ViewportParams K) :
    PairedCalls [seenBy RegionFunction.createActiveRegion s,
      seenBy RegionFunction.createProjectedRegion s] :=
  ⟨rfl, rfl, trivial⟩

theorem seenBy_adjustRegions {K : Type} (f : RegionFunction) (s : ViewportParams K) :
    seenBy f (adjustRegions s) = seenBy f s :=
  rfl

theorem adjustRegions_calls {K : Type} (s : ViewportParams K) :
    (adjustRegions s).regionCalls = s.regionCalls ++
      [seenBy RegionFunction.createActiveRegion (adjustRegions s),
        seenBy RegionFunction.createProjectedRegion (adjustRegions s)] :=
  rfl

variable {K : Type} [LinearOrderedField K]

theorem setPlanetAxis_calls (env : ViewportEnv K) (s : ViewportParams K) (q : Quaternion K) :
    (setPlanetAxis env s q).2.regionCalls = s.regionCalls ++
      [seenBy RegionFunction.createActiveRegion (setPlanetAxis env s q).2,
        seenBy RegionFunction.createProjectedRegion (setPlanetAxis env s q).2] := by
  unfold setPlanetAxis
  dsimp only
  split_ifs <;> rfl

theorem setProjection_calls (env : ViewportEnv K) (s : ViewportParams K) (p : Projection) :
    (setProjection env s p).regionCalls = s.regionCalls ++
      [seenBy RegionFunction.createActiveRegion { s with m_projection := p },
        seenBy RegionFunction.createProjectedRegion { s with m_projection := p },
        seenBy RegionFunction.createActiveRegion (setProjection env s p),
        seenBy RegionFunction.createProjectedRegion (setProjection env s p)] := by
  unfold setProjection
  dsimp only
  rw [setPlanetAxis_calls]
  simp only [adjustRegions, List.append_assoc, List.cons_append, List.nil_append]

theorem apply_calls (env : ViewportEnv K) (s : ViewportParams K) (op : Op K) :
    ∃ added, (apply env s op).regionCalls = s.regionCalls ++ added ∧ PairedCalls added := by
  cases op with
  | setProjection p =>
    exact ⟨_, setProjection_calls env s p, rfl, rfl, rfl, rfl, trivial⟩
  | setRadius r => exact ⟨_, rfl, pairedCalls_pair _⟩
  | setPlanetAxis q => exact ⟨_, setPlanetAxis_calls env s q, pairedCalls_pair _⟩
  | setWidth w => exact ⟨_, rfl, pairedCalls_pair _⟩
  | setHeight h => exact ⟨_, rfl, pairedCalls_pair _⟩
  | setSize w h => exact ⟨_, rfl, pairedCalls_pair _⟩
  | setBoundingBox => exact ⟨[], (List.append_nil _).symm, trivial⟩

theorem run_calls (env : ViewportEnv K) (ops : List (Op K)) :
    ∀ s : ViewportParams K, PairedCalls s.regionCalls →
      PairedCalls (run env s ops).regionCalls := by
  induction ops with
  | nil => intro s h; exact h
  | cons op ops ih =>
    intro s h
    obtain ⟨added, he, hp⟩ := apply_calls env s op
    have : PairedCalls (apply env s op).regionCalls := by
      rw [he]; exact pairedCalls_append _ _ h hp
    exact ih _ this

/-- C23: each of `setRadius`, `setWidth`, `setHeight`, `setSize`,
`setPlanetAxis` and `setProjection` stores its change and then calls
`createActiveRegion` and `createProjectedRegion`, in that order, on the camera
as it is after the change (`setProjection` does so twice: after the projection
is stored, and again at the end of the `setPlanetAxis` it finishes with); and
the log of helper calls of a camera, from its construction through any
sequence of operations, is made of such pairs only. -/
theorem region_calls_together (env : ViewportEnv K) :
    (∀ (s : ViewportParams K) (r : Int),
      (setRadius s r).m_radius = r ∧
      (setRadius s r).regionCalls = s.regionCalls ++
        [seenBy RegionFunction.createActiveRegion (setRadius s r),
          seenBy RegionFunction.createProjectedRegion (setRadius s r)]) ∧
    (∀ (s : ViewportParams K) (w : Int),
      (setWidth s w).m_width = w ∧
      (setWidth s w).regionCalls = s.regionCalls ++
        [seenBy RegionFunction.createActiveRegion (setWidth s w),
          seenBy RegionFunction.createProjectedRegion (setWidth s w)]) ∧
    (∀ (s : ViewportParams K) (h : Int),
      (setHeight s h).m_height = h ∧
      (setHeight s h).regionCalls = s.regionCalls ++
        [seenBy RegionFunction.createActiveRegion (setHeight s h),
          seenBy RegionFunction.createProjectedRegion (setHeight s h)]) ∧
    (∀ (s : ViewportParams K) (w h : Int),
      (setSize s w h).m_width = w ∧ (setSize s w h).m_height = h ∧
      (setSize s w h).regionCalls = s.regionCalls ++
        [seenBy RegionFunction.createActiveRegion (setSize s w h),
          seenBy RegionFunction.createProjectedRegion (setSize s w h)]) ∧
    (∀ (s : ViewportParams K) (q : Quaternion K),
      (setPlanetAxis env s q).2.regionCalls = s.regionCalls ++
        [seenBy RegionFunction.createActiveRegion (setPlanetAxis env s q).2,
          seenBy RegionFunction.createProjectedRegion (setPlanetAxis env s q).2]) ∧
    (∀ (s : ViewportParams K) (p : Projection),
      (setProjection env s p).m_projection = p ∧
      (setProjection env s p).regionCalls = s.regionCalls ++
        [seenBy RegionFunction.createActiveRegion { s with m_projection := p },
          seenBy RegionFunction.createProjectedRegion { s with m_projection := p },
          seenBy RegionFunction.createActiveRegion (setProjection env s p),
          seenBy RegionFunction.createProjectedRegion (setProjection env s p)]) ∧
    (∀ ops : List (Op K), PairedCalls (run env (create env) ops).regionCalls) := by
  refine ⟨fun s r => ⟨rfl, rfl⟩, fun s w => ⟨rfl, rfl⟩, fun s h => ⟨rfl, rfl⟩,
    fun s w h => ⟨rfl, rfl, rfl⟩, fun s q => setPlanetAxis_calls env s q,
    fun s p => ⟨?_, setProjection_calls env s p⟩, fun ops => ?_⟩
  · unfold setProjection
    dsimp only
    rw [setPlanetAxis_projection]
    rfl
  · apply run_calls
    unfold create
    rw [setPlanetAxis_calls]
    exact pairedCalls_pair _

end RegionCalls

end Marble

namespace Marble

/-! ## C24, C25: the size test of the camera -/

theorem quick_test_implies_real_test (radius width height : Int) (hw : 0 ≤ width)
    (hh : 0 ≤ height) (hq : radius > width + height) :
    4 * radius ^ 2 ≥ width ^ 2 + height ^ 2 := by
  nlinarith [mul_nonneg hw hh, sq_nonneg (radius - (width + height)), sq_nonneg width,
    sq_nonneg height]

/-- C24: read over exact integers, for every `width >= 0`, `height >= 0` and
every radius, `globeCoversViewport` returns true if and only if
`4 * radius^2 >= width^2 + height^2`; whenever the quick test
`radius > width + height` holds, the real test holds as well. -/
theorem globeCoversViewport_exact (radius width height : Int) (hw : 0 ≤ width)
    (hh : 0 ≤ height) :
    (globeCoversViewportWith id radius width height = true ↔
      4 * radius ^ 2 ≥ width ^ 2 + height ^ 2) ∧
    (radius > width + height → 4 * radius ^ 2 ≥ width ^ 2 + height ^ 2) := by
  refine ⟨?_, quick_test_implies_real_test radius width height hw hh⟩
  unfold globeCoversViewportWith
  simp only [id]
  have e1 : 4 * radius * radius = 4 * radius ^ 2 := by ring
  have e2 : width * width + height * height = width ^ 2 + height ^ 2 := by ring
  by_cases hq : radius > width + height
  · simp only [if_pos hq, true_iff]
    exact quick_test_implies_real_test radius width height hw hh hq
  · simp only [if_neg hq]
    by_cases hr : 4 * radius * radius ≥ width * width + height * height
    · simp only [if_pos hr, true_iff]
      rw [← e1, ← e2]
      exact hr
    · simp only [if_neg hr]
      constructor
      · intro h; exact Bool.noConfusion h
      · intro h
        rw [← e1, ← e2] at h
        exact absurd h hr

/-- The statement on a canvas of 300 by 200: radius 181 covers it (the real
test decides, the quick test does not hold), radius 180 does not, and radius
501 passes the quick test. -/
theorem globeCoversViewport_exact_witness :
    globeCoversViewportWith id 181 300 200 = true ∧
    globeCoversViewportWith id 180 300 200 = false ∧
    ((501 : Int) > 300 + 200 → (4 : Int) * 501 ^ 2 ≥ 300 ^ 2 + 200 ^ 2) := by
  refine ⟨?_, ?_, (globeCoversViewport_exact 501 300 200 (by decide) (by decide)).2⟩
  · exact (globeCoversViewport_exact 181 300 200 (by decide) (by decide)).1.mpr (by decide)
  · decide

/-- C25, at the camera of radius 25000 on a canvas of 20000 by 10000: the quick
test does not return early (25000 is not above 30000), the exact value
2500000000 of `4 * radius * radius` is above the largest 32-bit `int`
2147483647, the 32-bit product is -1794967296, and the 32-bit test answers
false where the test over exact integers answers true. -/
theorem globeCoversViewport_overflows :
    ¬ (wideCamera.m_radius > wrapInt32 (wideCamera.m_width + wideCamera.m_height)) ∧
    4 * wideCamera.m_radius * wideCamera.m_radius = 2500000000 ∧
    (2500000000 : Int) > 2 ^ 31 - 1 ∧
    wrapInt32 (wrapInt32 (4 * wideCamera.m_radius) * wideCamera.m_radius) = -1794967296 ∧
    wideCamera.globeCoversViewport = false ∧
    globeCoversViewportWith id wideCamera.m_radius wideCamera.m_width wideCamera.m_height
      = true := by
  refine ⟨by decide, by decide, by decide, by decide, by decide, by decide⟩

end Marble

namespace Marble

open VerticalPerspectiveProjection

/-! ## C26, C30: the assertion of the forward transform, and its wrapped variant -/

section Wrapped

variable {K : Type} [LinearOrderedField K] [FloorRing K]

theorem screenCoordinates_release_isSome (m : QMath K) (coordinates : GeoDataCoordinates K)
    (viewport : Viewport K) (x y : K) :
    ∃ r, screenCoordinates false m coordinates viewport x y = some r := by
  unfold screenCoordinates
  simp only [Bool.false_eq_true, false_and, if_false]
  split_ifs <;> exact ⟨_, rfl⟩

theorem screenCoordinates_visible_on_canvas (a : Bool) (m : QMath K)
    (coordinates : GeoDataCoordinates K) (viewport : Viewport K) (x y : K)
    (r : ScreenResult K) (h : screenCoordinates a m coordinates viewport x y = some r)
    (hv : r.visible = true) :
    0 ≤ r.x ∧ r.x < (viewport.width : K) ∧ 0 ≤ r.y ∧ r.y < (viewport.height : K) := by
  unfold screenCoordinates at h
  dsimp only at h
  split_ifs at h with h1 h2 h3 h4
  · have e := Option.some.inj h
    rw [← e] at hv
    exact Bool.noConfusion hv
  · have e := Option.some.inj h
    rw [← e] at hv
    exact Bool.noConfusion hv
  · have e := Option.some.inj h
    rw [← e] at hv
    exact Bool.noConfusion hv
  · have e := Option.some.inj h
    rw [← e]
    simp only [not_or, not_lt, ge_iff_le, not_le] at h4
    exact ⟨h4.1, h4.2.1, h4.2.2.1, h4.2.2.2⟩

end Wrapped

/-- C26, in a build with assertions: for every coordinate, viewport and
contents of `x` and `y`, the forward transform aborts at `Q_ASSERT(P == 0)`,
`P` being 5: no call passes the assertion. -/
theorem screenCoordinates_assertion_fails {K : Type} [LinearOrderedField K] [FloorRing K]
    (m : QMath K) (coordinates : GeoDataCoordinates K) (viewport : Viewport K) (x y : K) :
    screenCoordinates true m coordinates viewport x y = none := by
  unfold screenCoordinates
  have h5 : ¬ (5 : K) = 0 := by norm_num
  simp only [true_and, if_pos h5]

/-- C30: for a footprint of non-negative width and height, the wrapped forward
transform aborts exactly when the plain one does, and when the plain one
returns, the wrapped one returns true if and only if the plain one returns
true, in which case it leaves the same `x` and `y` and `pointRepeatNum = 1`;
in a build without assertions both return. -/
theorem screenCoordinatesRepeat_iff_plain {K : Type} [LinearOrderedField K] [FloorRing K]
    (assertsEnabled : Bool) (m : QMath K) (coordinates : GeoDataCoordinates K)
    (viewport : Viewport K) (x y : K) (size : QSizeF K)
    (hw : 0 ≤ size.width) (hh : 0 ≤ size.height) :
    (screenCoordinatesRepeat assertsEnabled m coordinates viewport x y size = none ↔
      screenCoordinates assertsEnabled m coordinates viewport x y = none) ∧
    (∀ r, screenCoordinates assertsEnabled m coordinates viewport x y = some r →
      ∃ w, screenCoordinatesRepeat assertsEnabled m coordinates viewport x y size = some w ∧
        (w.visible = true ↔ r.visible = true) ∧
        (r.visible = true → w.x = r.x ∧ w.y = r.y ∧ w.pointRepeatNum = 1)) ∧
    (∃ r w, screenCoordinates false m coordinates viewport x y = some r ∧
      screenCoordinatesRepeat false m coordinates viewport x y size = some w) := by
  have key : ∀ (a : Bool) (r : ScreenResult K),
      screenCoordinates a m coordinates viewport x y = some r →
      ∃ w, screenCoordinatesRepeat a m coordinates viewport x y size = some w ∧
        (w.visible = true ↔ r.visible = true) ∧
        (r.visible = true → w.x = r.x ∧ w.y = r.y ∧ w.pointRepeatNum = 1) := by
    intro a r hr
    unfold screenCoordinatesRepeat
    rw [hr]
    dsimp only
    by_cases hoff : offScreen viewport size r.x r.y
    · rw [if_pos hoff]
      have hnot : ¬ r.visible = true := by
        intro hv
        obtain ⟨h1, h2, h3, h4⟩ :=
          screenCoordinates_visible_on_canvas a m coordinates viewport x y r hr hv
        have hw2 : 0 ≤ size.width / 2 := div_nonneg hw (by norm_num)
        have hh2 : 0 ≤ size.height / 2 := div_nonneg hh (by norm_num)
        unfold offScreen at hoff
        rcases hoff with h | h | h | h
        · linarith
        · linarith
        · linarith
        · linarith
      refine ⟨_, rfl, ?_, fun hv => absurd hv hnot⟩
      constructor
      · intro h; exact Bool.noConfusion h
      · intro h; exact absurd h hnot
    · rw [if_neg hoff]
      exact ⟨_, rfl, Iff.rfl, fun _ => ⟨rfl, rfl, rfl⟩⟩
  refine ⟨?_, key assertsEnabled, ?_⟩
  · constructor
    · intro h
      cases hr : screenCoordinates assertsEnabled m coordinates viewport x y with
      | none => rfl
      | some r =>
        obtain ⟨w, hw1, _⟩ := key assertsEnabled r hr
        rw [hw1] at h
        exact Option.noConfusion h
    · intro h
      unfold screenCoordinatesRepeat
      rw [h]
  · obtain ⟨r, hr⟩ := screenCoordinates_release_isSome m coordinates viewport x y
    obtain ⟨w, hw1, _⟩ := key false r hr
    exact ⟨r, w, hr, hw1⟩

theorem screenCoordinates_centrePoint :
    screenCoordinates false realMath centrePoint viewportR 0 0 =
      some ⟨true, 150, 150, false, some 1⟩ := by
  have hc : cosC realMath centrePoint viewportR = 1 := by
    simp [cosC, realMath, centrePoint, viewportR]
  have hk : perspectiveFactor realMath centrePoint viewportR = 1 := by
    unfold perspectiveFactor
    rw [hc]; norm_num
  have hx : projectedX realMath centrePoint viewportR = 0 := by
    simp [projectedX, realMath, centrePoint, viewportR]
  have hy : projectedY realMath centrePoint viewportR = 0 := by
    simp [projectedY, realMath, centrePoint, viewportR]
  have hclip : clipRadius viewportR = 100 := by
    rw [clipRadius_eq]; rfl
  have ht : Int.tdiv 300 2 = 150 := by decide
  have hww : viewportR.width = 300 := rfl
  have hhh : viewportR.height = 300 := rfl
  unfold screenCoordinates
  simp only [Bool.false_eq_true, false_and, if_false, hc, hk, hx, hy, hclip, hww, hhh, ht]
  norm_num

/-- The statement over the reals for the point at the centre of the view and a
footprint of 10 by 10: both transforms return true with `x = y = 150`, and the
wrapped one reports one copy. -/
theorem screenCoordinatesRepeat_iff_plain_witness :
    (0 : ℝ) ≤ footprint.width ∧ (0 : ℝ) ≤ footprint.height ∧
    ∃ w, screenCoordinatesRepeat false realMath centrePoint viewportR 0 0 footprint = some w ∧
      w.visible = true ∧ w.x = 150 ∧ w.y = 150 ∧ w.pointRepeatNum = 1 := by
  have hw : (0 : ℝ) ≤ footprint.width := by norm_num [footprint]
  have hh : (0 : ℝ) ≤ footprint.height := by norm_num [footprint]
  obtain ⟨w, h1, h2, h3⟩ :=
    (screenCoordinatesRepeat_iff_plain false realMath centrePoint viewportR 0 0 footprint
      hw hh).2.1 _ screenCoordinates_centrePoint
  obtain ⟨h4, h5, h6⟩ := h3 rfl
  exact ⟨hw, hh, w, h1, h2.mpr rfl, h4, h5, h6⟩

end Marble

namespace Marble

open TileLoader

/-! ## C27: when the probe of the complete levels ends -/

theorem levelLoop_none (files : TileFiles) (layer : GeoSceneTexture) (fuel : Nat) :
    ∀ (t : Nat) (tl : Int), (∀ l, t ≤ l → scanLevel files layer l = true) →
      levelLoop files layer fuel t tl = none := by
  induction fuel with
  | zero => intro t tl _; rfl
  | succ fuel ih =>
    intro t tl h
    simp only [levelLoop, if_pos (h t (le_refl _))]
    exact ih (t + 1) _ (fun l hl => h l (by omega))

theorem levelComplete_of_no_columns (files : TileFiles) (layer : GeoSceneTexture)
    (h : layer.levelZeroColumns = 0) (l : Nat) : LevelComplete files layer l := by
  intro row column _ _ h3 h4
  simp only [TileLoaderHelper.levelToColumn, h, zero_mul] at h4
  omega

theorem levelToRow_pos (rows : Int) (h : 1 ≤ rows) (l : Nat) :
    0 < TileLoaderHelper.levelToRow rows l := by
  unfold TileLoaderHelper.levelToRow
  have : (0 : Int) < 2 ^ l := by positivity
  exact mul_pos (by omega) this

theorem levelToColumn_pos (columns : Int) (h : 1 ≤ columns) (l : Nat) :
    0 < TileLoaderHelper.levelToColumn columns l := by
  unfold TileLoaderHelper.levelToColumn
  have : (0 : Int) < 2 ^ l := by positivity
  exact mul_pos (by omega) this

theorem finiteDisk_level_bound (files : TileFiles) (h : FiniteDisk files) :
    ∃ N : Nat, ∀ (level : Nat) (column row : Int), files level column row = true → level < N := by
  have himg : (Prod.fst '' {t : Nat × Int × Int | files t.1 t.2.1 t.2.2 = true}).Finite :=
    Set.Finite.image _ h
  obtain ⟨b, hb⟩ := himg.bddAbove
  refine ⟨b + 1, fun level column row hf => ?_⟩
  have hmem : level ∈ Prod.fst '' {t : Nat × Int × Int | files t.1 t.2.1 t.2.2 = true} :=
    ⟨(level, column, row), hf, rfl⟩
  have := hb hmem
  omega

theorem exists_first_incomplete (files : TileFiles) (layer : GeoSceneTexture)
    (hc : 1 ≤ layer.levelZeroColumns) (hr : 1 ≤ layer.levelZeroRows) (hfin : FiniteDisk files) :
    ∃ n, (∀ l, l < n → LevelComplete files layer l) ∧ ¬ LevelComplete files layer n := by
  classical
  obtain ⟨N, hN⟩ := finiteDisk_level_bound files hfin
  have hex : ∃ n, ¬ LevelComplete files layer n := by
    refine ⟨N, fun hcomp => ?_⟩
    have := hcomp 0 0 (le_refl _) (levelToRow_pos _ hr N) (le_refl _) (levelToColumn_pos _ hc N)
    exact absurd (hN N 0 0 this) (lt_irrefl _)
  refine ⟨Nat.find hex, fun l hl => ?_, Nat.find_spec hex⟩
  by_contra hnot
  exact absurd hl (not_lt.mpr (Nat.find_min' hex hnot))

theorem maxCompleteTileLevel_of_first_incomplete (files : TileFiles) (layer : GeoSceneTexture)
    (n fuel : Nat) (hbelow : ∀ l, l < n → LevelComplete files layer l)
    (hn : ¬ LevelComplete files layer n) (hfuel : n < fuel) :
    maxCompleteTileLevel fuel files layer = some ((n : Int) - 1) := by
  unfold maxCompleteTileLevel
  rw [levelLoop_complete_run files layer n 0 fuel (-1)
    (fun l _ h2 => hbelow l (by omega)) (by simpa using hn) hfuel]
  by_cases h0 : n = 0
  · subst h0; simp
  · simp [h0]

theorem finiteDisk_noFiles : FiniteDisk noFiles := by
  unfold FiniteDisk noFiles
  simp

theorem finiteDisk_baseDisk : FiniteDisk baseDisk := by
  unfold FiniteDisk
  apply Set.Finite.subset (Set.toFinite ({(0, 0, 0), (0, 1, 0)} : Set (Nat × Int × Int)))
  rintro ⟨level, column, row⟩ h
  simp only [Set.mem_setOf_eq, baseDisk, Bool.and_eq_true, decide_eq_true_eq] at h
  obtain ⟨⟨⟨h1, h2⟩, h3⟩, h4⟩ := h
  simp only [Set.mem_insert_iff, Set.mem_singleton_iff, Prod.mk.injEq]
  omega

/-- C27, as stated, fails: for the layer of no column and one row at level
zero and the disk without any file (a finite disk), every level is complete
for want of a tile to look for, and the probe returns no value however many
passes of its `while` loop are allowed. -/
theorem maxCompleteTileLevel_never_ends :
    0 ≤ layerNoColumns.levelZeroColumns ∧ 0 ≤ layerNoColumns.levelZeroRows ∧
    FiniteDisk noFiles ∧
    ¬ ∃ fuel r, maxCompleteTileLevel fuel noFiles layerNoColumns = some r := by
  refine ⟨by decide, by decide, finiteDisk_noFiles, ?_⟩
  rintro ⟨fuel, r, h⟩
  unfold maxCompleteTileLevel at h
  rw [levelLoop_none noFiles layerNoColumns fuel 0 (-1)
    (fun l _ => (scanLevel_iff _ _ _).mpr (levelComplete_of_no_columns _ _ rfl l))] at h
  exact Option.noConfusion h

/-- C27, amended: for every layer with at least one column and one row at
level zero and every disk that holds finitely many tile files, there is a
number of passes of the `while` loop from which on the probe returns its
value: the probe terminates. -/
theorem maxCompleteTileLevel_terminates (files : TileFiles) (layer : GeoSceneTexture)
    (hc : 1 ≤ layer.levelZeroColumns) (hr : 1 ≤ layer.levelZeroRows) (hfin : FiniteDisk files) :
    ∃ (n : Nat) (r : Int), ∀ fuel, n < fuel → maxCompleteTileLevel fuel files layer = some r := by
  obtain ⟨n, hbelow, hn⟩ := exists_first_incomplete files layer hc hr hfin
  exact ⟨n, (n : Int) - 1, fun fuel hfuel =>
    maxCompleteTileLevel_of_first_incomplete files layer n fuel hbelow hn hfuel⟩

/-- The statement for the layer of two columns and one row on the disk that
holds its two tiles of level 0 only; the probe returns 0 within two passes. -/
theorem maxCompleteTileLevel_terminates_witness :
    1 ≤ layerB.levelZeroColumns ∧ 1 ≤ layerB.levelZeroRows ∧ FiniteDisk baseDisk ∧
    (∃ (n : Nat) (r : Int), ∀ fuel, n < fuel →
      maxCompleteTileLevel fuel baseDisk layerB = some r) ∧
    maxCompleteTileLevel 2 baseDisk layerB = some 0 :=
  ⟨by decide, by decide, finiteDisk_baseDisk,
    maxCompleteTileLevel_terminates baseDisk layerB (by decide) (by decide) finiteDisk_baseDisk,
    by decide⟩

end Marble

namespace Marble

open TileLoader

/-! ## C28: the probe of the base tiles and the probe of the complete levels -/

theorem baseRowLoop_false (files : TileFiles) (column levelZeroRows : Int) (n : Nat)
    (row : Int) : baseRowLoop files column levelZeroRows n row false = false := by
  cases n <;> simp [baseRowLoop]

theorem baseRowLoop_true_iff (files : TileFiles) (column levelZeroRows : Int) (n : Nat)
    (row : Int) :
    baseRowLoop files column levelZeroRows n row true = true ↔
      ∀ r : Int, row ≤ r → r < levelZeroRows → r < row + n → files 0 column r = true := by
  induction n generalizing row with
  | zero =>
    simp only [baseRowLoop, true_iff]
    intro r h1 _ h3
    simp only [Nat.cast_zero, add_zero] at h3
    omega
  | succ n ih =>
    by_cases hlt : row < levelZeroRows
    · simp only [baseRowLoop, hlt, and_self, if_true]
      cases hf : files 0 column row with
      | false =>
        rw [baseRowLoop_false]
        constructor
        · intro h; exact Bool.noConfusion h
        · intro h
          have := h row (le_refl _) hlt (by push_cast; omega)
          rw [hf] at this
          exact this
      | true =>
        rw [ih]
        constructor
        · intro h r h1 h2 h3
          by_cases hr : r = row
          · rw [hr]; exact hf
          · exact h r (by omega) h2 (by push_cast at h3; omega)
        · intro h r h1 h2 h3
          exact h r (by omega) h2 (by push_cast; omega)
    · simp only [baseRowLoop, hlt, and_false, if_false, true_iff]
      intro r h1 h2 _
      omega

theorem base_rows_complete_iff (files : TileFiles) (column levelZeroRows : Int) :
    baseRowLoop files column levelZeroRows levelZeroRows.toNat 0 true = true ↔
      ∀ r : Int, 0 ≤ r → r < levelZeroRows → files 0 column r = true := by
  rw [baseRowLoop_true_iff]
  constructor
  · intro h r h1 h2
    exact h r h1 h2 (by have := Int.self_le_toNat levelZeroRows; omega)
  · intro h r h1 h2 _
    exact h r h1 h2

theorem baseColumnLoop_false (files : TileFiles) (layer : GeoSceneTexture) (n : Nat)
    (column : Int) : baseColumnLoop files layer n column false = false := by
  cases n <;> simp [baseColumnLoop]

theorem baseColumnLoop_true_iff (files : TileFiles) (layer : GeoSceneTexture) (n : Nat)
    (column : Int) :
    baseColumnLoop files layer n column true = true ↔
      ∀ c : Int, column ≤ c → c < layer.levelZeroColumns → c < column + n →
        ∀ r : Int, 0 ≤ r → r < layer.levelZeroRows → files 0 c r = true := by
  induction n generalizing column with
  | zero =>
    simp only [baseColumnLoop, true_iff]
    intro c h1 _ h3
    simp only [Nat.cast_zero, add_zero] at h3
    omega
  | succ n ih =>
    by_cases hlt : column < layer.levelZeroColumns
    · simp only [baseColumnLoop, hlt, and_self, if_true]
      cases hf : baseRowLoop files column layer.levelZeroRows layer.levelZeroRows.toNat 0
          true with
      | false =>
        rw [baseColumnLoop_false]
        constructor
        · intro h; exact Bool.noConfusion h
        · intro h
          have h1 := (base_rows_complete_iff files column _).mpr
            (h column (le_refl _) hlt (by push_cast; omega))
          rw [hf] at h1
          exact h1
      | true =>
        rw [ih]
        have hcol := (base_rows_complete_iff files column _).mp hf
        constructor
        · intro h c h1 h2 h3
          by_cases hc : c = column
          · rw [hc]; exact hcol
          · exact h c (by omega) h2 (by push_cast at h3; omega)
        · intro h c h1 h2 h3
          exact h c (by omega) h2 (by push_cast; omega)
    · simp only [baseColumnLoop, hlt, and_false, if_false, true_iff]
      intro c h1 h2 _
      omega

theorem baseTilesAvailable_iff (files : TileFiles) (layer : GeoSceneTexture) :
    baseTilesAvailable files layer = true ↔
      ∀ column row : Int, 0 ≤ column → column < layer.levelZeroColumns →
        0 ≤ row → row < layer.levelZeroRows → files 0 column row = true := by
  unfold baseTilesAvailable
  rw [baseColumnLoop_true_iff]
  constructor
  · intro h c r h1 h2 h3 h4
    exact h c h1 h2 (by have := Int.self_le_toNat layer.levelZeroColumns; omega) r h3 h4
  · intro h c h1 h2 _ r h3 h4
    exact h c r h1 h2 h3 h4

theorem levelComplete_zero_iff (files : TileFiles) (layer : GeoSceneTexture) :
    LevelComplete files layer 0 ↔
      ∀ column row : Int, 0 ≤ column → column < layer.levelZeroColumns →
        0 ≤ row → row < layer.levelZeroRows → files 0 column row = true := by
  unfold LevelComplete TileLoaderHelper.levelToRow TileLoaderHelper.levelToColumn
  simp only [pow_zero, mul_one]
  constructor
  · intro h c r h1 h2 h3 h4
    exact h r c h3 h4 h1 h2
  · intro h r c h1 h2 h3 h4
    exact h c r h3 h4 h1 h2

theorem levelLoop_some_ge (files : TileFiles) (layer : GeoSceneTexture) (fuel : Nat) :
    ∀ (t : Nat) (tl r : Int), levelLoop files layer fuel t tl = some r →
      (¬ scanLevel files layer t = true ∧ r = tl) ∨
      (scanLevel files layer t = true ∧ (t : Int) ≤ r) := by
  induction fuel with
  | zero =>
    intro t tl r h
    exact Option.noConfusion h
  | succ fuel ih =>
    intro t tl r h
    by_cases hs : scanLevel files layer t = true
    · simp only [levelLoop, if_pos hs] at h
      right
      refine ⟨hs, ?_⟩
      rcases ih (t + 1) (t : Int) r h with ⟨_, h2⟩ | ⟨_, h2⟩
      · omega
      · push_cast at h2; omega
    · simp only [levelLoop, if_neg hs] at h
      left
      exact ⟨hs, (Option.some.inj h).symm⟩

/-- C28: whenever `maxCompleteTileLevel` returns a value `r` (within `fuel`
passes of its loop), `baseTilesAvailable` is true if and only if `r >= 0`, and
each of the two holds if and only if every tile file of level 0
(`0 <= column < levelZeroColumns`, `0 <= row < levelZeroRows`) exists. -/
theorem baseTilesAvailable_iff_level_zero (files : TileFiles) (layer : GeoSceneTexture)
    (fuel : Nat) (r : Int) (h : maxCompleteTileLevel fuel files layer = some r) :
    (baseTilesAvailable files layer = true ↔ 0 ≤ r) ∧
    (baseTilesAvailable files layer = true ↔
      ∀ column row : Int, 0 ≤ column → column < layer.levelZeroColumns →
        0 ≤ row → row < layer.levelZeroRows → files 0 column row = true) := by
  refine ⟨?_, baseTilesAvailable_iff files layer⟩
  rw [baseTilesAvailable_iff, ← levelComplete_zero_iff, ← scanLevel_iff]
  unfold maxCompleteTileLevel at h
  rcases levelLoop_some_ge files layer fuel 0 (-1) r h with ⟨h1, h2⟩ | ⟨h1, h2⟩
  · constructor
    · intro hs; exact absurd hs h1
    · intro hr; omega
  · constructor
    · intro _; simpa using h2
    · intro _; exact h1

/-- The statement for the layer of two columns and one row: on the disk that
holds its two tiles of level 0 the probe of the levels returns 0 and the base
tiles are available; on the disk without files it returns -1 and they are
not. -/
theorem baseTilesAvailable_iff_level_zero_witness :
    maxCompleteTileLevel 2 baseDisk layerB = some 0 ∧
    (baseTilesAvailable baseDisk layerB = true ↔ (0 : Int) ≤ 0) ∧
    baseTilesAvailable baseDisk layerB = true ∧
    maxCompleteTileLevel 2 noFiles layerB = some (-1) ∧
    baseTilesAvailable noFiles layerB = false :=
  ⟨by decide,
    (baseTilesAvailable_iff_level_zero baseDisk layerB 2 0 (by decide)).1,
    by decide, by decide, by decide⟩

/-! ## C29: the cache limit read back -/

theorem toInt32_of_lt (v : Nat) (h : v < 2 ^ 31) : toInt32 v = (v : Int) := by
  unfold toInt32
  have h1 : v % 2 ^ 32 = v := Nat.mod_eq_of_lt (by omega)
  rw [h1, if_pos h]

theorem volatileCacheLimit_round_trip_small (s : TileLoader) (kiloBytes : Nat)
    (h : kiloBytes < 2 ^ 21) :
    volatileCacheLimit (setVolatileCacheLimit s kiloBytes) = kiloBytes := by
  have h1 : kiloBytes % 2 ^ 64 = kiloBytes := Nat.mod_eq_of_lt (by omega)
  have h2 : kiloBytes * 1024 % 2 ^ 64 = kiloBytes * 1024 := Nat.mod_eq_of_lt (by omega)
  have hmx : (setVolatileCacheLimit s kiloBytes).m_tileCache.mx = ((kiloBytes * 1024 : Nat) : Int) := by
    unfold setVolatileCacheLimit
    simp only [QCache.setMaxCost, h1, h2]
    exact toInt32_of_lt _ (by omega)
  unfold volatileCacheLimit
  rw [hmx]
  have h3 : Int.tdiv ((kiloBytes * 1024 : Nat) : Int) 1024 = (kiloBytes : Int) := by
    push_cast
    rw [Int.tdiv_eq_ediv] <;> omega
  rw [h3]
  have h4 : (kiloBytes : Int) % 2 ^ 64 = (kiloBytes : Int) := by
    apply Int.emod_eq_of_lt (by omega)
    have : (kiloBytes : Int) < 2 ^ 21 := by exact_mod_cast h
    omega
  rw [h4]
  simp

/-- C29, at the limit of 2097152 kilobytes (2 GiB) set on a new loader: the
byte count 2147483648 is stored in the `int` maximum cost as -2147483648, and
the limit read back is 18446744073707454464, not 2097152; a limit of 4194304
kilobytes reads back as 0. Below 2097152 kilobytes the limit read back is the
limit set. -/
theorem volatileCacheLimit_round_trip_fails :
    (setVolatileCacheLimit (create layerA) 2097152).m_tileCache.mx = -2147483648 ∧
    volatileCacheLimit (setVolatileCacheLimit (create layerA) 2097152)
      = 18446744073707454464 ∧
    volatileCacheLimit (setVolatileCacheLimit (create layerA) 4194304) = 0 ∧
    (∀ (s : TileLoader) (kiloBytes : Nat), kiloBytes < 2 ^ 21 →
      volatileCacheLimit (setVolatileCacheLimit s kiloBytes) = kiloBytes) :=
  ⟨by decide, by decide, by decide, volatileCacheLimit_round_trip_small⟩

end Marble

namespace Marble

open VerticalPerspectiveProjection

/-! ## C21: the arguments of `qAsin` in the inverse transform -/

theorem pDist_eq_clampedDistance {K : Type} [LinearOrderedField K] (m : QMath K)
    (viewport : Viewport K) (x y : Int) :
    pDist m viewport x y = clampedDistance m (rx m viewport x) (ry m viewport y) :=
  rfl

theorem sinArg_eq_asinArgC {K : Type} [LinearOrderedField K] (m : QMath K)
    (viewport : Viewport K) (x y : Int) :
    sinArg m viewport x y = asinArgC m (pDist m viewport x y) :=
  rfl

theorem latArg_eq_asinArgLat {K : Type} [LinearOrderedField K] (m : QMath K)
    (viewport : Viewport K) (x y : Int) :
    latArg m viewport x y =
      asinArgLat m viewport.centerLatitude (ry m viewport y) (pDist m viewport x y)
        (angularDistance m viewport x y) :=
  rfl

end Marble

namespace Marble

open VerticalPerspectiveProjection

/-! ## C22: the denominators of the two transforms -/

theorem mul_le_one_of_abs_le_one (a b : ℝ) (ha1 : -1 ≤ a) (ha2 : a ≤ 1) (hb1 : -1 ≤ b)
    (hb2 : b ≤ 1) : -1 ≤ a * b ∧ a * b ≤ 1 := by
  constructor
  · nlinarith [mul_nonneg (sub_nonneg.mpr ha2) (sub_nonneg.mpr hb2),
      mul_nonneg (by linarith : (0 : ℝ) ≤ a + 1) (by linarith : (0 : ℝ) ≤ b + 1)]
  · nlinarith [mul_nonneg (sub_nonneg.mpr ha2) (by linarith : (0 : ℝ) ≤ b + 1),
      mul_nonneg (by linarith : (0 : ℝ) ≤ a + 1) (sub_nonneg.mpr hb2)]

theorem cosC_real_le (coordinates : GeoDataCoordinates ℝ) (viewport : Viewport ℝ) :
    cosC realMath coordinates viewport ≤ 2 := by
  show Real.sin viewport.centerLatitude * Real.sin coordinates.latitude +
    Real.cos viewport.centerLatitude * Real.cos coordinates.latitude *
      Real.cos (coordinates.longitude - viewport.centerLongitude) ≤ 2
  have h1 := mul_le_one_of_abs_le_one _ _ (Real.neg_one_le_sin viewport.centerLatitude)
    (Real.sin_le_one _) (Real.neg_one_le_sin coordinates.latitude) (Real.sin_le_one _)
  have h2 := mul_le_one_of_abs_le_one _ _ (Real.neg_one_le_cos viewport.centerLatitude)
    (Real.cos_le_one _) (Real.neg_one_le_cos coordinates.latitude) (Real.cos_le_one _)
  have h3 := mul_le_one_of_abs_le_one _ _ h2.1 h2.2
    (Real.neg_one_le_cos (coordinates.longitude - viewport.centerLongitude)) (Real.cos_le_one _)
  linarith [h1.2, h3.2]

theorem rad2Pixel_ne_zero_iff (viewport : Viewport ℝ) :
    rad2Pixel realMath viewport ≠ 0 ↔ wrapInt32 (2 * viewport.radius) ≠ 0 := by
  show ((2 * wrapInt32 (2 * viewport.radius) : Int) : ℝ) / Real.pi ≠ 0 ↔ _
  rw [div_ne_zero_iff]
  constructor
  · rintro ⟨h, _⟩ h0
    rw [h0] at h
    exact h (by norm_num)
  · intro h
    refine ⟨?_, Real.pi_ne_zero⟩
    have : (2 * wrapInt32 (2 * viewport.radius) : Int) ≠ 0 := by omega
    exact_mod_cast this

theorem wrapInt32_double_eq_zero_iff (radius : Int) (h1 : -2 ^ 31 < radius)
    (h2 : radius < 2 ^ 31) : wrapInt32 (2 * radius) = 0 ↔ radius = 0 := by
  unfold wrapInt32
  omega

/-- C22, as stated, fails: over the reals, on the viewport of radius 0 the
local `rad2Pixel` of `geoCoordinates`, by which `rx` and `ry` are divided, is
0. -/
theorem rad2Pixel_zero_at_radius_zero :
    viewportZero.radius = 0 ∧ rad2Pixel realMath viewportZero = 0 := by
  refine ⟨rfl, ?_⟩
  have h := (rad2Pixel_ne_zero_iff viewportZero).not
  rw [not_not, not_not] at h
  exact h.mpr (by decide)

/-- C22, amended: over the reals, for every viewport and every pixel the
denominators `p`, `(P-1)/p + p/(P-1)` and `P-1` of `geoCoordinates` are not
zero, and for every point that passes the `cosC` guard the denominator
`P - cosC` of the forward scale factor is not zero; the denominator
`rad2Pixel` is not zero exactly when the `int` product `2 * radius` is not
zero, which for a radius within the range of `int` is exactly when the radius
is not 0. -/
theorem transform_denominators (viewport : Viewport ℝ) (x y : Int)
    (coordinates : GeoDataCoordinates ℝ) :
    (rad2Pixel realMath viewport ≠ 0 ↔ wrapInt32 (2 * viewport.radius) ≠ 0) ∧
    (-2 ^ 31 < viewport.radius → viewport.radius < 2 ^ 31 →
      (rad2Pixel realMath viewport ≠ 0 ↔ viewport.radius ≠ 0)) ∧
    pDist realMath viewport x y ≠ 0 ∧
    (5 - 1) / pDist realMath viewport x y + pDist realMath viewport x y / (5 - 1) ≠ 0 ∧
    (5 - 1 : ℝ) ≠ 0 ∧
    (¬ cosC realMath coordinates viewport < 1 / 5 →
      5 - cosC realMath coordinates viewport ≠ 0) := by
  have hp : 0 < pDist realMath viewport x y :=
    lt_of_lt_of_le (by norm_num) (le_max_right _ _)
  refine ⟨rad2Pixel_ne_zero_iff viewport, fun h1 h2 => ?_, ne_of_gt hp, ?_, by norm_num,
    fun _ => ?_⟩
  · rw [rad2Pixel_ne_zero_iff, not_iff_not]
    exact wrapInt32_double_eq_zero_iff _ h1 h2
  · have : 0 < (5 - 1) / pDist realMath viewport x y + pDist realMath viewport x y / (5 - 1) := by
      have h4 : (0 : ℝ) < 5 - 1 := by norm_num
      exact add_pos (div_pos h4 hp) (div_pos hp h4)
    exact ne_of_gt this
  · have := cosC_real_le coordinates viewport
    intro h
    linarith

end Marble

namespace Marble

open TileLoader

/-! ## C31: a tile the cache refuses -/

theorem demote_oversized (s : TileLoader) (e : TileId × TextureTile)
    (h : (e.2.numBytes : Int) > s.m_tileCache.mx) :
    (demote s e).deleted =
      s.deleted ++ (s.m_tileCache.remove e.1).2 ++ [e.2.addr, e.2.addr] := by
  simp only [demote, QCache.insert, if_pos h, if_true, List.append_assoc, List.singleton_append]

/-- C31, for a tile of 2000 bytes under a limit of 1 kilobyte: at the clean-up
of the frame in which it is not requested, `insert` refuses the tile, deletes
it and returns `false`, and `cleanupTilehash` deletes it again: the log of
deletions holds its address 0 twice, and neither container holds the tile;
`flush` does the same; and in general a tile whose `numBytes` is above the
maximum cost is deleted twice by the body of either loop. -/
theorem oversized_tile_deleted_twice :
    Reachable (run (create layerA) opsOversized) ∧
    (run (create layerA) opsOversized).deleted = [0, 0] ∧
    (run (create layerA) opsOversized).m_tileHash = [] ∧
    (run (create layerA) opsOversized).m_tileCache.nodes = [] ∧
    Reachable (run (create layerA) opsOversizedFlush) ∧
    (run (create layerA) opsOversizedFlush).deleted = [0, 0] ∧
    (∀ (s : TileLoader) (e : TileId × TextureTile),
      (e.2.numBytes : Int) > s.m_tileCache.mx →
      (demote s e).deleted =
        s.deleted ++ (s.m_tileCache.remove e.1).2 ++ [e.2.addr, e.2.addr]) :=
  ⟨reachable_run (Reachable.create layerA) opsOversized, by decide, by decide, by decide,
    reachable_run (Reachable.create layerA) opsOversizedFlush, by decide, demote_oversized⟩

end Marble

namespace Marble

open OsmWay

/-! ## C32: which ways are areas -/

section Area

variable {D C : Type}

theorem areaTagList_isEmpty (buildingTags : List OsmTag) :
    (areaTagList buildingTags).isEmpty = false :=
  rfl

theorem isAreaTag_of_filled (env : OsmEnv D C) (s_areaTags : List OsmTag) (keyValue : OsmTag)
    (hs : s_areaTags = [] ∨ s_areaTags = areaTagList env.buildingTags) :
    isAreaTag env s_areaTags keyValue =
      (decide (keyValue ∈ areaTagList env.buildingTags), areaTagList env.buildingTags) := by
  rcases hs with h | h
  · subst h
    rfl
  · rw [h]
    unfold isAreaTag
    simp only [areaTagList_isEmpty, Bool.false_eq_true, if_false]

theorem areaTagLoop_spec (env : OsmEnv D C) (tags : List OsmTag) :
    ∀ s_areaTags : List OsmTag,
      (s_areaTags = [] ∨ s_areaTags = areaTagList env.buildingTags) →
      ((areaTagLoop env tags s_areaTags).1 = true ↔
        ∃ t ∈ tags, t ∈ areaTagList env.buildingTags) ∧
      ((areaTagLoop env tags s_areaTags).2 = [] ∨
        (areaTagLoop env tags s_areaTags).2 = areaTagList env.buildingTags) := by
  induction tags with
  | nil =>
    intro s hs
    refine ⟨?_, hs⟩
    simp [areaTagLoop]
  | cons tag rest ih =>
    intro s hs
    unfold areaTagLoop
    rw [isAreaTag_of_filled env s tag hs]
    dsimp only
    by_cases hm : tag ∈ areaTagList env.buildingTags
    · rw [if_pos (decide_eq_true hm)]
      exact ⟨⟨fun _ => ⟨tag, List.mem_cons_self _ _, hm⟩, fun _ => rfl⟩, Or.inr rfl⟩
    · have hd : ¬ decide (tag ∈ areaTagList env.buildingTags) = true := by
        intro h
        exact hm (of_decide_eq_true h)
      rw [if_neg hd]
      obtain ⟨h1, h2⟩ := ih (areaTagList env.buildingTags) (Or.inr rfl)
      refine ⟨?_, h2⟩
      rw [h1]
      constructor
      · rintro ⟨t, ht, hta⟩
        exact ⟨t, List.mem_cons_of_mem _ ht, hta⟩
      · rintro ⟨t, ht, hta⟩
        rcases List.mem_cons.mp ht with h | h
        · rw [h] at hta
          exact absurd hta hm
        · exact ⟨t, h, hta⟩

theorem isArea_eq (env : OsmEnv D C) (way : OsmWay D) (s_areaTags : List OsmTag) :
    isArea env way s_areaTags =
      if (env.containsTag way.m_osmData "area" "no" ||
          env.containsTagKey way.m_osmData "highway" ||
          env.containsTagKey way.m_osmData "barrier") = true then (false, s_areaTags)
      else if env.containsTagKey way.m_osmData "landuse" = true then (true, s_areaTags)
      else if (areaTagLoop env (env.tags way.m_osmData) s_areaTags).1 = true then
        (true, (areaTagLoop env (env.tags way.m_osmData) s_areaTags).2)
      else
        (decide (way.m_references.length > 1) &&
            decide (way.m_references.head? = way.m_references.getLast?),
          (areaTagLoop env (env.tags way.m_osmData) s_areaTags).2) :=
  rfl

end Area

/-- C32: with the static set of area tags either not yet filled or filled by
`isAreaTag`, `isArea` is false for every way tagged `area=no` or carrying a
`highway` or `barrier` key, whatever else holds of it; for every other way it
is true if and only if the way has a `landuse` key, or one of its tags is in
the set of area tags, or it has more than one node reference and the first
equals the last; and the call leaves the static set not filled or filled. -/
theorem isArea_spec {D C : Type} (env : OsmEnv D C) (way : OsmWay D) (s_areaTags : List OsmTag)
    (hs : s_areaTags = [] ∨ s_areaTags = areaTagList env.buildingTags) :
    ((env.containsTag way.m_osmData "area" "no" = true ∨
        env.containsTagKey way.m_osmData "highway" = true ∨
        env.containsTagKey way.m_osmData "barrier" = true) →
      (isArea env way s_areaTags).1 = false) ∧
    (¬ (env.containsTag way.m_osmData "area" "no" = true ∨
        env.containsTagKey way.m_osmData "highway" = true ∨
        env.containsTagKey way.m_osmData "barrier" = true) →
      ((isArea env way s_areaTags).1 = true ↔
        (env.containsTagKey way.m_osmData "landuse" = true ∨
          (∃ t ∈ env.tags way.m_osmData, t ∈ areaTagList env.buildingTags) ∨
          (way.m_references.length > 1 ∧
            way.m_references.head? = way.m_references.getLast?)))) ∧
    ((isArea env way s_areaTags).2 = [] ∨
      (isArea env way s_areaTags).2 = areaTagList env.buildingTags) := by
  obtain ⟨hloop, hset⟩ := areaTagLoop_spec env (env.tags way.m_osmData) s_areaTags hs
  rw [isArea_eq]
  by_cases hlin : (env.containsTag way.m_osmData "area" "no" ||
      env.containsTagKey way.m_osmData "highway" ||
      env.containsTagKey way.m_osmData "barrier") = true
  · have hl : env.containsTag way.m_osmData "area" "no" = true ∨
        env.containsTagKey way.m_osmData "highway" = true ∨
        env.containsTagKey way.m_osmData "barrier" = true := by
      simpa [Bool.or_eq_true, or_assoc] using hlin
    rw [if_pos hlin]
    exact ⟨fun _ => rfl, fun h => absurd hl h, hs⟩
  · have hl : ¬ (env.containsTag way.m_osmData "area" "no" = true ∨
        env.containsTagKey way.m_osmData "highway" = true ∨
        env.containsTagKey way.m_osmData "barrier" = true) := by
      intro h
      apply hlin
      simpa [Bool.or_eq_true, or_assoc] using h
    rw [if_neg hlin]
    refine ⟨fun h => absurd h hl, fun _ => ?_, ?_⟩
    · by_cases hland : env.containsTagKey way.m_osmData "landuse" = true
      · rw [if_pos hland]
        exact ⟨fun _ => Or.inl hland, fun _ => rfl⟩
      · rw [if_neg hland]
        by_cases hlp : (areaTagLoop env (env.tags way.m_osmData) s_areaTags).1 = true
        · rw [if_pos hlp]
          exact ⟨fun _ => Or.inr (Or.inl (hloop.mp hlp)), fun _ => rfl⟩
        · rw [if_neg hlp]
          dsimp only
          rw [Bool.and_eq_true, decide_eq_true_eq, decide_eq_true_eq]
          constructor
          · intro h; exact Or.inr (Or.inr h)
          · rintro (h | h | h)
            · exact absurd h hland
            · exact absurd (hloop.mpr h) hlp
            · exact h
    · by_cases hland : env.containsTagKey way.m_osmData "landuse" = true
      · rw [if_pos hland]
        exact hs
      · rw [if_neg hland]
        by_cases hlp : (areaTagLoop env (env.tags way.m_osmData) s_areaTags).1 = true
        · rw [if_pos hlp]
          exact hset
        · rw [if_neg hlp]
          exact hset

/-- The statement on concrete ways with the static set not yet filled: the
closed way tagged `highway=residential` and `landuse=grass` is no area, the
open way tagged `natural=water` is one, and the open way without tags is
none. -/
theorem isArea_spec_witness :
    (emptyWorld.s_areaTags = [] ∨ emptyWorld.s_areaTags = areaTagList plainEnv.buildingTags) ∧
    plainEnv.containsTagKey wayRoad.m_osmData "highway" = true ∧
    plainEnv.containsTagKey wayRoad.m_osmData "landuse" = true ∧
    (isArea plainEnv wayRoad emptyWorld.s_areaTags).1 = false ∧
    (isArea plainEnv wayWater emptyWorld.s_areaTags).1 = true ∧
    (isArea plainEnv wayGap emptyWorld.s_areaTags).1 = false :=
  ⟨Or.inl rfl, by decide, by decide,
    (isArea_spec plainEnv wayRoad emptyWorld.s_areaTags (Or.inl rfl)).1
      (Or.inr (Or.inl (by decide))),
    by decide, by decide⟩

end Marble

namespace Marble

open OsmWay

/-! ## C33: `create` on a way with an absent node -/

section Create

variable {D C : Type}

theorem mem_usedInsert (a nodeId : Int) (usedNodes : List Int) :
    a ∈ usedInsert nodeId usedNodes ↔ a ∈ usedNodes ∨ a = nodeId := by
  unfold usedInsert
  by_cases h : nodeId ∈ usedNodes
  · rw [if_pos h]
    constructor
    · intro ha; exact Or.inl ha
    · rintro (ha | ha)
      · exact ha
      · rw [ha]; exact h
  · rw [if_neg h]
    simp

theorem usedInsert_of_mem {nodeId : Int} {usedNodes : List Int} (h : nodeId ∈ usedNodes) :
    usedInsert nodeId usedNodes = usedNodes := by
  unfold usedInsert
  rw [if_pos h]

theorem mem_foldl_usedInsert (a : Int) (ids : List Int) :
    ∀ usedNodes : List Int,
      a ∈ ids.foldl (fun used nodeId => usedInsert nodeId used) usedNodes ↔
        a ∈ usedNodes ∨ a ∈ ids := by
  induction ids with
  | nil => intro usedNodes; simp
  | cons nodeId rest ih =>
    intro usedNodes
    rw [List.foldl_cons, ih, mem_usedInsert, List.mem_cons]
    constructor
    · rintro ((h | h) | h)
      · exact Or.inl h
      · exact Or.inr (Or.inl h)
      · exact Or.inr (Or.inr h)
    · rintro (h | h | h)
      · exact Or.inl (Or.inl h)
      · exact Or.inl (Or.inr h)
      · exact Or.inr h

theorem foldl_usedInsert_of_mem (ids : List Int) :
    ∀ usedNodes : List Int, (∀ a ∈ ids, a ∈ usedNodes) →
      ids.foldl (fun used nodeId => usedInsert nodeId used) usedNodes = usedNodes := by
  induction ids with
  | nil => intro usedNodes _; rfl
  | cons nodeId rest ih =>
    intro usedNodes h
    rw [List.foldl_cons, usedInsert_of_mem (h nodeId (List.mem_cons_self _ _))]
    exact ih usedNodes (fun a ha => h a (List.mem_cons_of_mem _ ha))

theorem collect_absent (env : OsmEnv D C) (nodes : OsmNodes D C) (references : List Int) :
    ∀ (osmData : D) (points : List C) (usedNodes : List Int),
      (∃ nodeId ∈ references, nodes nodeId = none) →
      (collect env nodes references osmData points usedNodes).completed = false ∧
      (collect env nodes references osmData points usedNodes).usedNodes =
        (foundPrefix nodes references).foldl (fun used nodeId => usedInsert nodeId used)
          usedNodes := by
  induction references with
  | nil =>
    rintro _ _ _ ⟨nodeId, hmem, _⟩
    exact absurd hmem (List.not_mem_nil _)
  | cons nodeId rest ih =>
    intro osmData points usedNodes h
    cases hn : nodes nodeId with
    | none =>
      simp only [collect, hn, foundPrefix, List.takeWhile, Option.isSome_none, List.foldl_nil,
        and_self]
    | some node =>
      have hrest : ∃ a ∈ rest, nodes a = none := by
        obtain ⟨a, hmem, ha⟩ := h
        rcases List.mem_cons.mp hmem with e | e
        · rw [e, hn] at ha
          exact Option.noConfusion ha
        · exact ⟨a, e, ha⟩
      obtain ⟨h1, h2⟩ := ih (env.addNodeReference osmData node.coordinates node.osmData)
        (points ++ [node.coordinates]) (usedInsert nodeId usedNodes) hrest
      simp only [collect, hn]
      refine ⟨h1, ?_⟩
      rw [h2]
      simp only [foundPrefix, List.takeWhile, hn, Option.isSome_some, List.foldl_cons]

theorem create_absent (env : OsmEnv D C) (way : OsmWay D) (nodes : OsmNodes D C)
    (w : OsmWorld D C) (h : ∃ nodeId ∈ way.m_references, nodes nodeId = none) :
    create env way nodes w =
      { w with
        usedNodes := (foundPrefix nodes way.m_references).foldl
          (fun used nodeId => usedInsert nodeId used) w.usedNodes,
        s_areaTags := (isArea env way w.s_areaTags).2 } := by
  obtain ⟨h1, h2⟩ := collect_absent env nodes way.m_references way.m_osmData [] w.usedNodes h
  unfold create
  dsimp only
  rw [h1, h2]
  by_cases ha : (isArea env way w.s_areaTags).1 = true
  · rw [if_pos ha, if_pos rfl]
  · rw [if_neg ha, if_pos rfl]

end Create

/-- C33, as stated, fails: for the way of the references 1, 2, 3 and a nodes
map that holds the nodes 1 and 3 and not the node 2, `create` on an empty
document and an empty set `usedNodes` appends nothing to the document and
leaves the node 1 in `usedNodes`. -/
theorem create_marks_nodes_before_absent :
    (∃ nodeId ∈ wayGap.m_references, nodesGap nodeId = none) ∧
    (create plainEnv wayGap nodesGap emptyWorld).document.length = 0 ∧
    emptyWorld.usedNodes = [] ∧
    (create plainEnv wayGap nodesGap emptyWorld).usedNodes = [1] ∧
    (create plainEnv wayGap nodesGap emptyWorld).usedNodes ≠ emptyWorld.usedNodes := by
  have h : ∃ nodeId ∈ wayGap.m_references, nodesGap nodeId = none :=
    ⟨2, by decide, rfl⟩
  have e := create_absent plainEnv wayGap nodesGap emptyWorld h
  rw [e]
  exact ⟨h, rfl, rfl, by decide, by decide⟩

/-- C33, amended: for every way one of whose node references is absent from
the nodes map, `create` appends nothing to the document (and registers no
id); `usedNodes` gains the references that come before the first absent one
and nothing else: an id is in the set after the call if and only if it was in
it before or is one of those references; the set is exactly as before when
those references were in it already, in particular when the first reference is
the absent one. -/
theorem create_on_absent_node {D C : Type} (env : OsmEnv D C) (way : OsmWay D)
    (nodes : OsmNodes D C) (w : OsmWorld D C)
    (h : ∃ nodeId ∈ way.m_references, nodes nodeId = none) :
    (create env way nodes w).document = w.document ∧
    (create env way nodes w).registeredIds = w.registeredIds ∧
    (create env way nodes w).usedNodes =
      (foundPrefix nodes way.m_references).foldl (fun used nodeId => usedInsert nodeId used)
        w.usedNodes ∧
    (∀ a, a ∈ (create env way nodes w).usedNodes ↔
      a ∈ w.usedNodes ∨ a ∈ foundPrefix nodes way.m_references) ∧
    ((∀ a ∈ foundPrefix nodes way.m_references, a ∈ w.usedNodes) →
      (create env way nodes w).usedNodes = w.usedNodes) := by
  rw [create_absent env way nodes w h]
  exact ⟨rfl, rfl, rfl, fun a => mem_foldl_usedInsert a _ _,
    fun hall => foldl_usedInsert_of_mem _ _ hall⟩

/-- The statement for the way whose first reference is absent from the nodes
map: nothing is appended and `usedNodes` is as before. -/
theorem create_on_absent_node_witness :
    (∃ nodeId ∈ wayAbsentFirst.m_references, nodesGap nodeId = none) ∧
    (create plainEnv wayAbsentFirst nodesGap emptyWorld).document.length = 0 ∧
    (create plainEnv wayAbsentFirst nodesGap emptyWorld).usedNodes = emptyWorld.usedNodes := by
  have h : ∃ nodeId ∈ wayAbsentFirst.m_references, nodesGap nodeId = none :=
    ⟨2, by decide, rfl⟩
  obtain ⟨h1, _, _, _, h5⟩ := create_on_absent_node plainEnv wayAbsentFirst nodesGap emptyWorld h
  refine ⟨h, ?_, h5 ?_⟩
  · rw [h1]; rfl
  · intro a ha
    have : foundPrefix nodesGap wayAbsentFirst.m_references = [] := by decide
    rw [this] at ha
    exact absurd ha (List.not_mem_nil _)

end Marble

namespace Marble

open TileLoader

/-! ## C6: the fate of the unused tiles -/

theorem trimKeep_cons_of_gt {m : Int} {n : CacheNode} {ns : List CacheNode}
    (h : totalCost (n :: ns) > m) : trimKeep m (n :: ns) = trimKeep m ns := by
  simp [trimKeep, h]

theorem trimKeep_cons_of_not_gt {m : Int} {n : CacheNode} {ns : List CacheNode}
    (h : ¬ totalCost (n :: ns) > m) : trimKeep m (n :: ns) = n :: ns := by
  simp [trimKeep, h]

theorem trimDrop_cons_of_gt {m : Int} {n : CacheNode} {ns : List CacheNode}
    (h : totalCost (n :: ns) > m) : trimDrop m (n :: ns) = n :: trimDrop m ns := by
  simp [trimDrop, h]

theorem trimDrop_cons_of_not_gt {m : Int} {n : CacheNode} {ns : List CacheNode}
    (h : ¬ totalCost (n :: ns) > m) : trimDrop m (n :: ns) = [] := by
  simp [trimDrop, h]

theorem trim_append (m m1 : Int) (Y : List CacheNode) (X : List CacheNode)
    (h : m ≤ m1 + totalCost Y) :
    trimKeep m (X ++ Y) = trimKeep m (trimKeep m1 X ++ Y) ∧
    trimDrop m (X ++ Y) = trimDrop m1 X ++ trimDrop m (trimKeep m1 X ++ Y) := by
  induction X with
  | nil => simp [trimKeep, trimDrop]
  | cons x X ih =>
    by_cases hgt : totalCost (x :: X) > m1
    · have hgt2 : totalCost (x :: (X ++ Y)) > m := by
        have := totalCost_append (x :: X) Y
        rw [List.cons_append] at this
        omega
      rw [List.cons_append, trimKeep_cons_of_gt hgt2, trimDrop_cons_of_gt hgt2,
        trimKeep_cons_of_gt hgt, trimDrop_cons_of_gt hgt, List.cons_append, ← ih.2]
      exact ⟨ih.1, rfl⟩
    · rw [trimKeep_cons_of_not_gt hgt, trimDrop_cons_of_not_gt hgt, List.nil_append]
      exact ⟨rfl, rfl⟩

theorem mem_trimKeep_iff (m : Int) (node : CacheNode) (Q : List CacheNode)
    (hQ : node ∉ Q) (P : List CacheNode) (hP : ∀ p ∈ P, 0 ≤ p.c) :
    node ∈ trimKeep m (P ++ node :: Q) ↔ totalCost (node :: Q) ≤ m := by
  induction P with
  | nil =>
    by_cases hgt : totalCost (node :: Q) > m
    · rw [List.nil_append, trimKeep_cons_of_gt hgt]
      constructor
      · intro hmem
        exact absurd ((trimKeep_sublist m Q).subset hmem) hQ
      · intro hle; omega
    · rw [List.nil_append, trimKeep_cons_of_not_gt hgt]
      exact ⟨fun _ => by omega, fun _ => List.mem_cons_self _ _⟩
  | cons p P ih =>
    have ih1 := ih (fun q hq => hP q (List.mem_cons_of_mem _ hq))
    by_cases hgt : totalCost (p :: (P ++ node :: Q)) > m
    · rw [List.cons_append, trimKeep_cons_of_gt hgt]
      exact ih1
    · rw [List.cons_append, trimKeep_cons_of_not_gt hgt]
      have hmem : node ∈ p :: (P ++ node :: Q) :=
        List.mem_cons_of_mem _ (List.mem_append_right _ (List.mem_cons_self _ _))
      have h1 : totalCost (p :: (P ++ node :: Q)) =
          totalCost (p :: P) + totalCost (node :: Q) := by
        have := totalCost_append (p :: P) (node :: Q)
        rw [List.cons_append] at this
        exact this
      have h2 : 0 ≤ totalCost (p :: P) := totalCost_nonneg hP
      exact ⟨fun _ => by omega, fun _ => hmem⟩

theorem remove_of_not_mem {q : QCache} {k : TileId} (hk : k ∉ q.keys) : q.remove k = (q, []) := by
  have h1 : q.nodes.filter (fun n => decide (n.key ≠ k)) = q.nodes := by
    apply List.filter_eq_self.mpr
    intro n hn
    simp only [decide_eq_true_eq]
    intro hnk
    exact hk (by rw [← hnk]; exact List.mem_map_of_mem _ hn)
  have h2 : q.nodes.filter (fun n => decide (n.key = k)) = [] := by
    apply List.filter_eq_nil_iff.mpr
    intro n hn
    simp only [decide_eq_true_eq]
    intro hnk
    exact hk (by rw [← hnk]; exact List.mem_map_of_mem _ hn)
  simp only [QCache.remove, h1, h2, nodeAddrs, List.map_nil]

theorem acceptedNodes_cons_accepted {mx : Int} {e : TileId × TextureTile}
    (hu : e.2.used = false) (hc : (e.2.numBytes : Int) ≤ mx) (l : TileHash) :
    acceptedNodes mx (e :: l) = ⟨e.1, e.2, (e.2.numBytes : Int)⟩ :: acceptedNodes mx l := by
  simp [acceptedNodes, List.filter_cons, hu, hc]

theorem acceptedNodes_cons_rejected {mx : Int} {e : TileId × TextureTile}
    (hc : ¬ (e.2.numBytes : Int) ≤ mx) (l : TileHash) :
    acceptedNodes mx (e :: l) = acceptedNodes mx l := by
  simp [acceptedNodes, List.filter_cons, hc]

theorem acceptedNodes_cons_used {mx : Int} {e : TileId × TextureTile}
    (hu : ¬ e.2.used = false) (l : TileHash) :
    acceptedNodes mx (e :: l) = acceptedNodes mx l := by
  simp [acceptedNodes, List.filter_cons, hu]

theorem acceptedNodes_append (mx : Int) (a b : TileHash) :
    acceptedNodes mx (a ++ b) = acceptedNodes mx a ++ acceptedNodes mx b := by
  simp [acceptedNodes, List.filter_append]

theorem rejectedAddrs_cons_rejected {mx : Int} {e : TileId × TextureTile}
    (hu : e.2.used = false) (hc : (e.2.numBytes : Int) > mx) (l : TileHash) :
    rejectedAddrs mx (e :: l) = [e.2.addr, e.2.addr] ++ rejectedAddrs mx l := by
  simp [rejectedAddrs, List.filter_cons, hu, hc]

theorem rejectedAddrs_cons_accepted {mx : Int} {e : TileId × TextureTile}
    (hc : ¬ (e.2.numBytes : Int) > mx) (l : TileHash) :
    rejectedAddrs mx (e :: l) = rejectedAddrs mx l := by
  simp [rejectedAddrs, List.filter_cons, hc]

theorem rejectedAddrs_cons_used {mx : Int} {e : TileId × TextureTile}
    (hu : ¬ e.2.used = false) (l : TileHash) :
    rejectedAddrs mx (e :: l) = rejectedAddrs mx l := by
  simp [rejectedAddrs, List.filter_cons, hu]

theorem acceptedNodes_cost_nonneg (mx : Int) (l : TileHash) :
    ∀ n ∈ acceptedNodes mx l, 0 ≤ n.c := by
  intro n hn
  simp only [acceptedNodes, List.mem_map] at hn
  obtain ⟨e, _, he⟩ := hn
  rw [← he]
  exact Int.natCast_nonneg _

theorem acceptedNodes_key_mem {mx : Int} {l : TileHash} {n : CacheNode}
    (hn : n ∈ acceptedNodes mx l) : n.key ∈ hashKeys l := by
  simp only [acceptedNodes, List.mem_map, List.mem_filter] at hn
  obtain ⟨e, ⟨he, _⟩, hne⟩ := hn
  rw [← hne]
  exact List.mem_map_of_mem _ he

theorem demote_accepted {s : TileLoader} {e : TileId × TextureTile}
    (hk : e.1 ∉ s.m_tileCache.keys) (hc : (e.2.numBytes : Int) ≤ s.m_tileCache.mx) :
    (demote s e).m_tileCache.nodes =
      trimKeep (s.m_tileCache.mx - (e.2.numBytes : Int)) s.m_tileCache.nodes ++
        [⟨e.1, e.2, (e.2.numBytes : Int)⟩] ∧
    (demote s e).m_tileCache.mx = s.m_tileCache.mx ∧
    (demote s e).deleted = s.deleted ++
      nodeAddrs (trimDrop (s.m_tileCache.mx - (e.2.numBytes : Int)) s.m_tileCache.nodes) := by
  have hgt : ¬ (e.2.numBytes : Int) > s.m_tileCache.mx := by omega
  simp only [demote, QCache.insert, remove_of_not_mem hk, if_neg hgt, List.nil_append,
    Bool.true_eq_false, if_false, List.append_nil, and_self]

theorem demote_rejected {s : TileLoader} {e : TileId × TextureTile}
    (hk : e.1 ∉ s.m_tileCache.keys) (hc : (e.2.numBytes : Int) > s.m_tileCache.mx) :
    (demote s e).m_tileCache = s.m_tileCache ∧
    (demote s e).deleted = s.deleted ++ [e.2.addr, e.2.addr] := by
  simp only [demote, QCache.insert, remove_of_not_mem hk, if_pos hc, List.nil_append,
    if_true, List.append_assoc, List.singleton_append, and_self]

theorem cleanup_fold_exact (l : TileHash) :
    ∀ acc : TileLoader, CacheInv acc.m_tileCache →
      (∀ e ∈ l, e.1 ∉ acc.m_tileCache.keys) → (hashKeys l).Nodup →
      (l.foldl (fun acc e => if e.2.used = false then demote acc e else acc)
          acc).m_tileCache.nodes =
        trimKeep acc.m_tileCache.mx
          (acc.m_tileCache.nodes ++ acceptedNodes acc.m_tileCache.mx l) ∧
      ∃ D, (l.foldl (fun acc e => if e.2.used = false then demote acc e else acc)
            acc).deleted = acc.deleted ++ D ∧
        D.Perm (nodeAddrs (trimDrop acc.m_tileCache.mx
            (acc.m_tileCache.nodes ++ acceptedNodes acc.m_tileCache.mx l)) ++
          rejectedAddrs acc.m_tileCache.mx l) := by
  induction l with
  | nil =>
    intro acc hinv _ _
    have hself := (trimKeep_eq_self_iff acc.m_tileCache.mx acc.m_tileCache.nodes).mpr hinv.2
    have hdrop : trimDrop acc.m_tileCache.mx acc.m_tileCache.nodes = [] := by
      have := trimDrop_append_trimKeep acc.m_tileCache.mx acc.m_tileCache.nodes
      rw [hself] at this
      exact List.append_left_eq_self.mp this
    refine ⟨?_, [], by simp, ?_⟩
    · simp only [List.foldl_nil, acceptedNodes, List.filter_nil, List.map_nil, List.append_nil]
      exact hself.symm
    · simp only [acceptedNodes, rejectedAddrs, List.filter_nil, List.map_nil, List.append_nil,
        hdrop, nodeAddrs, List.flatten_nil]
      exact List.Perm.refl _
  | cons e l ih =>
    intro acc hinv hkeys hnodup
    have hek : e.1 ∉ acc.m_tileCache.keys := hkeys e (List.mem_cons_self _ _)
    have hnd : (hashKeys l).Nodup := (List.nodup_cons.mp hnodup).2
    have hnotin : e.1 ∉ hashKeys l := (List.nodup_cons.mp hnodup).1
    rw [List.foldl_cons]
    by_cases hu : e.2.used = false
    · rw [if_pos hu]
      by_cases hc : (e.2.numBytes : Int) ≤ acc.m_tileCache.mx
      · obtain ⟨hn1, hmx1, hd1⟩ := demote_accepted hek hc
        have hkeys1 : ∀ x ∈ l, x.1 ∉ (demote acc e).m_tileCache.keys := by
          intro x hx hmem
          rcases mem_keys_insert hmem with h1 | h1
          · exact hnotin (by rw [← h1]; exact List.mem_map_of_mem _ hx)
          · exact hkeys x (List.mem_cons_of_mem _ hx) h1
        obtain ⟨hN, D, hD, hP⟩ := ih (demote acc e) (cacheInv_demote hinv e) hkeys1 hnd
        rw [hmx1, hn1] at hN
        rw [hmx1, hn1] at hP
        have hle : acc.m_tileCache.mx ≤ acc.m_tileCache.mx - (e.2.numBytes : Int) +
            totalCost ((⟨e.1, e.2, (e.2.numBytes : Int)⟩ : CacheNode) ::
              acceptedNodes acc.m_tileCache.mx l) := by
          have h0 := totalCost_nonneg (acceptedNodes_cost_nonneg acc.m_tileCache.mx l)
          simp only [totalCost]
          omega
        obtain ⟨hK, hDr⟩ := trim_append acc.m_tileCache.mx
          (acc.m_tileCache.mx - (e.2.numBytes : Int))
          ((⟨e.1, e.2, (e.2.numBytes : Int)⟩ : CacheNode) :: acceptedNodes acc.m_tileCache.mx l)
          acc.m_tileCache.nodes hle
        rw [acceptedNodes_cons_accepted hu hc,
          rejectedAddrs_cons_accepted (by omega : ¬ (e.2.numBytes : Int) > acc.m_tileCache.mx)]
        rw [List.append_assoc, List.singleton_append] at hN hP
        refine ⟨by rw [hN, hK], nodeAddrs (trimDrop (acc.m_tileCache.mx - (e.2.numBytes : Int))
          acc.m_tileCache.nodes) ++ D, by rw [hD, hd1, List.append_assoc], ?_⟩
        rw [hDr]
        simp only [nodeAddrs, List.map_append, List.append_assoc]
        exact List.Perm.append_left _ (by simpa [nodeAddrs] using hP)
      · have hc1 : (e.2.numBytes : Int) > acc.m_tileCache.mx := by omega
        obtain ⟨hq, hd1⟩ := demote_rejected hek hc1
        have hkeys1 : ∀ x ∈ l, x.1 ∉ (demote acc e).m_tileCache.keys := by
          intro x hx
          rw [hq]
          exact hkeys x (List.mem_cons_of_mem _ hx)
        obtain ⟨hN, D, hD, hP⟩ := ih (demote acc e) (cacheInv_demote hinv e) hkeys1 hnd
        rw [hq] at hN hP
        rw [acceptedNodes_cons_rejected hc, rejectedAddrs_cons_rejected hu hc1]
        refine ⟨hN, [e.2.addr, e.2.addr] ++ D, by rw [hD, hd1, List.append_assoc], ?_⟩
        exact (List.Perm.append_left _ hP).trans
          (List.perm_append_comm_assoc _ _ _)
    · rw [if_neg hu]
      obtain ⟨hN, D, hD, hP⟩ := ih acc hinv
        (fun x hx => hkeys x (List.mem_cons_of_mem _ hx)) hnd
      rw [acceptedNodes_cons_used hu, rejectedAddrs_cons_used hu]
      exact ⟨hN, D, hD, hP⟩

theorem mem_rejectedAddrs {mx : Int} {l : TileHash} {e : TileId × TextureTile} (he : e ∈ l)
    (hu : e.2.used = false) (hc : (e.2.numBytes : Int) > mx) : e.2.addr ∈ rejectedAddrs mx l := by
  simp only [rejectedAddrs, List.mem_flatten, List.mem_map, List.mem_filter, Bool.and_eq_true,
    decide_eq_true_eq]
  exact ⟨[e.2.addr, e.2.addr], ⟨e, ⟨he, hu, hc⟩, rfl⟩, List.mem_cons_self _ _⟩

/-- C6, amended: for every reachable state, after `cleanupTilehash()` the
active set consists of exactly the tiles that were active and marked used; the
cache holds what a trim to its maximum cost keeps of its entries followed by
the entries of the unused tiles whose `numBytes` is within the maximum, in the
order of the iterator; the deletions of the call are the tiles of the entries
that trim drops, and twice each unused tile whose `numBytes` is above the
maximum. So every unused tile has left the active set, and: a tile the cache
rejects (`numBytes` above the maximum) is deleted and not cached; a tile the
cache accepts stays in the cache exactly when its cost and the costs of the
tiles accepted after it in the same call are together within the maximum, and
is deleted otherwise. -/
theorem cleanupTilehash_demotes_unused (s : TileLoader) (h : Reachable s) :
    (cleanupTilehash s).m_tileHash = s.m_tileHash.filter (fun e => e.2.used) ∧
    (cleanupTilehash s).m_tileCache.nodes =
      trimKeep s.m_tileCache.mx
        (s.m_tileCache.nodes ++ acceptedNodes s.m_tileCache.mx s.m_tileHash) ∧
    (deletedSince s (cleanupTilehash s)).Perm
      (nodeAddrs (trimDrop s.m_tileCache.mx
          (s.m_tileCache.nodes ++ acceptedNodes s.m_tileCache.mx s.m_tileHash)) ++
        rejectedAddrs s.m_tileCache.mx s.m_tileHash) ∧
    ∀ (pre : TileHash) (e : TileId × TextureTile) (post : TileHash),
      s.m_tileHash = pre ++ e :: post → e.2.used = false →
      e.1 ∉ hashKeys (cleanupTilehash s).m_tileHash ∧
      ((e.2.numBytes : Int) > s.m_tileCache.mx →
        e.2.addr ∈ deletedSince s (cleanupTilehash s) ∧
        e.1 ∉ (cleanupTilehash s).m_tileCache.keys) ∧
      ((e.2.numBytes : Int) ≤ s.m_tileCache.mx →
        ((⟨e.1, e.2, (e.2.numBytes : Int)⟩ : CacheNode) ∈ (cleanupTilehash s).m_tileCache.nodes ↔
          (e.2.numBytes : Int) + totalCost (acceptedNodes s.m_tileCache.mx post) ≤
            s.m_tileCache.mx) ∧
        ((⟨e.1, e.2, (e.2.numBytes : Int)⟩ : CacheNode) ∉ (cleanupTilehash s).m_tileCache.nodes →
          e.2.addr ∈ deletedSince s (cleanupTilehash s))) := by
  obtain ⟨hwf, hdis, _⟩ := wf_of_reachable h
  have hinv := cacheInv_of_reachable h
  have hkeys : ∀ e ∈ s.m_tileHash, e.1 ∉ s.m_tileCache.keys :=
    fun e he => hdis e.1 (List.mem_map_of_mem _ he)
  obtain ⟨hN, D, hD, hP⟩ := cleanup_fold_exact s.m_tileHash s hinv hkeys hwf
  have hN1 : (cleanupTilehash s).m_tileCache.nodes =
      trimKeep s.m_tileCache.mx
        (s.m_tileCache.nodes ++ acceptedNodes s.m_tileCache.mx s.m_tileHash) := hN
  have hds : deletedSince s (cleanupTilehash s) = D := deletedSince_of_append hD
  have hhash := cleanupTilehash_hash hwf
  refine ⟨hhash, hN1, by rw [hds]; exact hP, ?_⟩
  intro pre e post hsplit hu
  have he : e ∈ s.m_tileHash := by
    rw [hsplit]; exact List.mem_append_right _ (List.mem_cons_self _ _)
  have hinj := List.inj_on_of_nodup_map hwf
  refine ⟨?_, fun hc => ⟨?_, ?_⟩, fun hc => ⟨?_, ?_⟩⟩
  · rw [hhash]
    intro hmem
    simp only [hashKeys, List.mem_map, List.mem_filter] at hmem
    obtain ⟨y, ⟨hy, hyu⟩, hye⟩ := hmem
    have := hinj hy he hye
    rw [this, hu] at hyu
    exact Bool.noConfusion hyu
  · rw [hds]
    exact (hP.mem_iff).mpr (List.mem_append_right _ (mem_rejectedAddrs he hu hc))
  · intro hmem
    have hsub : (cleanupTilehash s).m_tileCache.nodes.Sublist
        (s.m_tileCache.nodes ++ acceptedNodes s.m_tileCache.mx s.m_tileHash) := by
      rw [hN1]; exact trimKeep_sublist _ _
    have hmem1 := mem_keys_of_sublist hsub hmem
    rw [List.map_append, List.mem_append] at hmem1
    rcases hmem1 with h1 | h1
    · exact hkeys e he h1
    · simp only [acceptedNodes, List.map_map, List.mem_map, List.mem_filter, Bool.and_eq_true,
        decide_eq_true_eq, Function.comp] at h1
      obtain ⟨y, ⟨hy, _, hyc⟩, hye⟩ := h1
      have := hinj hy he hye
      rw [this] at hyc
      omega
  · have hnd : (hashKeys (pre ++ e :: post)).Nodup := by rw [← hsplit]; exact hwf
    have hnotpost : e.1 ∉ hashKeys post := by
      simp only [hashKeys, List.map_append, List.map_cons] at hnd
      have h1 := (List.nodup_append.mp hnd).2.1
      exact (List.nodup_cons.mp h1).1
    have hQ : (⟨e.1, e.2, (e.2.numBytes : Int)⟩ : CacheNode) ∉
        acceptedNodes s.m_tileCache.mx post := by
      intro hmem
      exact hnotpost (acceptedNodes_key_mem hmem)
    have hPnn : ∀ p ∈ s.m_tileCache.nodes ++ acceptedNodes s.m_tileCache.mx pre, 0 ≤ p.c := by
      intro p hp
      rcases List.mem_append.mp hp with h1 | h1
      · exact hinv.1 p h1
      · exact acceptedNodes_cost_nonneg _ _ p h1
    have hrw : s.m_tileCache.nodes ++ acceptedNodes s.m_tileCache.mx s.m_tileHash =
        (s.m_tileCache.nodes ++ acceptedNodes s.m_tileCache.mx pre) ++
          (⟨e.1, e.2, (e.2.numBytes : Int)⟩ : CacheNode) ::
            acceptedNodes s.m_tileCache.mx post := by
      rw [hsplit, acceptedNodes_append, acceptedNodes_cons_accepted hu hc, List.append_assoc]
    rw [hN1, hrw, mem_trimKeep_iff _ _ _ hQ _ hPnn]
    simp only [totalCost]
  · intro hnot
    have hmemA : (⟨e.1, e.2, (e.2.numBytes : Int)⟩ : CacheNode) ∈
        acceptedNodes s.m_tileCache.mx s.m_tileHash := by
      simp only [acceptedNodes, List.mem_map, List.mem_filter, Bool.and_eq_true,
        decide_eq_true_eq]
      exact ⟨e, ⟨he, hu, hc⟩, rfl⟩
    have hall : (⟨e.1, e.2, (e.2.numBytes : Int)⟩ : CacheNode) ∈
        trimDrop s.m_tileCache.mx
            (s.m_tileCache.nodes ++ acceptedNodes s.m_tileCache.mx s.m_tileHash) ++
          trimKeep s.m_tileCache.mx
            (s.m_tileCache.nodes ++ acceptedNodes s.m_tileCache.mx s.m_tileHash) := by
      rw [trimDrop_append_trimKeep]
      exact List.mem_append_right _ hmemA
    rcases List.mem_append.mp hall with h1 | h1
    · rw [hds]
      apply (hP.mem_iff).mpr
      apply List.mem_append_left
      simp only [nodeAddrs, List.mem_map]
      exact ⟨_, h1, rfl⟩
    · rw [← hN1] at h1
      exact absurd h1 hnot

/-- The amended statement at `tightState`, where two unused tiles of 600 bytes
meet a maximum cost of 1024: both leave the active set; the first is accepted
and, 600 + 600 being above 1024, evicted by the insert of the second and
deleted; the second is held by the cache. -/
theorem cleanupTilehash_demotes_unused_witness :
    Reachable tightState ∧
    tightState.m_tileHash = [] ++ (⟨3, 0, 0⟩, tightTile) :: [(⟨3, 1, 0⟩, tightTileB)] ∧
    tightState.m_tileCache.mx = 1024 ∧
    (cleanupTilehash tightState).m_tileHash = [] ∧
    (cleanupTilehash tightState).m_tileCache.keys = [⟨3, 1, 0⟩] ∧
    deletedSince tightState (cleanupTilehash tightState) = [0] ∧
    (⟨⟨3, 0, 0⟩, tightTile, (tightTile.numBytes : Int)⟩ : CacheNode) ∉
      (cleanupTilehash tightState).m_tileCache.nodes ∧
    tightTile.addr ∈ deletedSince tightState (cleanupTilehash tightState) := by
  have hr : Reachable tightState := reachable_run (Reachable.create layerA) opsTight
  have hsplit : tightState.m_tileHash =
      [] ++ (⟨3, 0, 0⟩, tightTile) :: [(⟨3, 1, 0⟩, tightTileB)] := by decide
  obtain ⟨_, _, _, hfate⟩ := cleanupTilehash_demotes_unused tightState hr
  obtain ⟨_, _, hacc⟩ := hfate [] (⟨3, 0, 0⟩, tightTile) [(⟨3, 1, 0⟩, tightTileB)] hsplit rfl
  obtain ⟨hiff, hdel⟩ := hacc (by decide)
  have hnot : (⟨⟨3, 0, 0⟩, tightTile, (tightTile.numBytes : Int)⟩ : CacheNode) ∉
      (cleanupTilehash tightState).m_tileCache.nodes := by
    intro hmem
    have := hiff.mp hmem
    revert this
    decide
  exact ⟨hr, hsplit, by decide, by decide, by decide, by decide, hnot, hdel hnot⟩

end Marble

namespace Marble

/-! ## C14: the clamp of the latitude in `double` -/

theorem roundRatio_nearest (num den : Nat) (hden : 0 < den) :
    2 * |((Double.roundRatio num den : Nat) : Int) * den - num| ≤ den := by
  have key : ∀ q r : Nat, den * q + r = num → r < den →
      2 * |(((if 2 * r > den ∨ (2 * r = den ∧ q % 2 = 1) then q + 1 else q : Nat) : Nat) : Int)
        * den - num| ≤ den := by
    intro q r h hr
    have hnum : (num : Int) = (den : Int) * q + r := by exact_mod_cast h.symm
    have hr1 : (r : Int) < den := by exact_mod_cast hr
    have hr0 : (0 : Int) ≤ r := Int.natCast_nonneg r
    split_ifs with hc
    · have hc1 : (den : Int) ≤ 2 * r := by
        rcases hc with hc | hc
        · have : den < 2 * r := hc
          have : (den : Int) < 2 * r := by exact_mod_cast this
          linarith
        · have : (2 * r : Int) = den := by exact_mod_cast hc.1
          linarith
      have e : (((q + 1 : Nat) : Int)) * den - num = den - r := by
        rw [hnum]; push_cast; ring
      rw [e, abs_of_nonneg (by linarith)]
      linarith
    · have hc1 : (2 * r : Int) ≤ den := by
        have : ¬ 2 * r > den := fun hgt => hc (Or.inl hgt)
        have : 2 * r ≤ den := by omega
        exact_mod_cast this
      have e : ((q : Nat) : Int) * den - num = -r := by
        rw [hnum]; ring
      rw [e, abs_neg, abs_of_nonneg hr0]
      linarith
  unfold Double.roundRatio
  exact key (num / den) (num % den) (Nat.div_add_mod num den) (Nat.mod_lt num hden)

theorem toRat_maxLatMercator :
    maxLatMercator.toRat = 6685143286868764 / 4503599627370496 ∧
    |maxLatMercator.toRat - 14844 / 10000| ≤ 1 / 2 ^ 53 := by
  have e : maxLatMercator = ⟨false, 6685143286868764, -52⟩ := by decide
  rw [e]
  constructor
  · norm_num [Double.toRat]
  · norm_num [Double.toRat, abs_le]

theorem toRat_clamped :
    (clampLatitude maxLatMercator latitudeBeyond).toRat = 6685143286868765 / 4503599627370496 := by
  have e : clampLatitude maxLatMercator latitudeBeyond = ⟨false, 6685143286868765, -52⟩ := by
    decide
  rw [e]
  norm_num [Double.toRat]

/-- C14, for a camera whose stored centre latitude is the double 1.53 when the
projection is switched to one that is not traversable and has the maximum
latitude 1.4844: the centre is out of range (`fabs( centerLat ) > maxLat`), so
`setPlanetAxis` clamps it; the product `1.4844 * 1.53` is rounded, the
quotient by 1.53 is rounded again, and the latitude that is stored is the
double next above 1.4844, `1.4844000000000002`: its absolute value is above
`maxLat`. -/
theorem clamp_exceeds_maxLat :
    maxLatMercator = ⟨false, 6685143286868764, -52⟩ ∧
    latitudeBeyond = ⟨false, 6890507429876859, -52⟩ ∧
    Double.gt (Double.fabs latitudeBeyond) maxLatMercator ∧
    Double.mul maxLatMercator latitudeBeyond = ⟨false, 5114134614454605, -51⟩ ∧
    clampLatitude maxLatMercator latitudeBeyond = ⟨false, 6685143286868765, -52⟩ ∧
    Double.gt (Double.fabs (clampLatitude maxLatMercator latitudeBeyond)) maxLatMercator ∧
    (Double.fabs (clampLatitude maxLatMercator latitudeBeyond)).toRat >
      maxLatMercator.toRat := by
  refine ⟨by decide, by decide, by decide, by decide, by decide, by decide, ?_⟩
  have e : Double.fabs (clampLatitude maxLatMercator latitudeBeyond) =
      ⟨false, 6685143286868765, -52⟩ := by decide
  rw [e, toRat_maxLatMercator.1]
  norm_num [Double.toRat]

/-- The same clamp for the maximum latitude of 85.05113 degrees, the double
`1.4844222510417249`: from the centre latitude 1.53 the latitude that is
stored is the double next above the maximum, `1.484422251041725`. -/
theorem degrees_clamp_overshoots :
    clampLatitude ⟨false, 6685243496651985, -52⟩ latitudeBeyond =
      ⟨false, 6685243496651986, -52⟩ ∧
    Double.gt (Double.fabs (clampLatitude ⟨false, 6685243496651985, -52⟩ latitudeBeyond))
      ⟨false, 6685243496651985, -52⟩ :=
  ⟨by decide, by decide⟩

end Marble


namespace Marble

open VerticalPerspectiveProjection

/-! ## C21: NaN in the inverse transform -/

section SpecialValues

variable {K : Type} [LinearOrderedField K]

end SpecialValues

end Marble
